import Mathlib

/-!
Slack web scanner: fingerprint matching, favicon hash, active scan, nuclei driver.

A shallow embedding of `core/webscan/infoscan.go`, `core/webscan/favicon.go` and
`core/webscan/callnuclei.go`.

Conventions of the embedding.

* A Go `string` or `[]byte` is the list of its bytes (`GoString`).
* Go `int` values are `Int`; a slice expression whose index is out of range
  panics, which is modelled by `none`.
* Functions of the repository or of third-party packages whose source is not
  part of the embedded files are fields of an environment structure, so every
  theorem holds for each implementation of them.
-/

namespace Slack

/-! ## Strings -/

/-- A Go string: an immutable sequence of bytes. -/
abbrev GoString := List UInt8

/-- The bytes (UTF-8) of a string literal of the source. -/
def str (s : String) : GoString := s.toList.flatMap String.utf8EncodeChar

/-- Go slice expression `s[:i]`; `none` stands for the run-time panic. -/
def sliceTo (s : GoString) (i : Int) : Option GoString :=
  if 0 ≤ i ∧ i ≤ (s.length : Int) then some (s.take i.toNat) else none

/-- Go slice expression `s[i:]`; `none` stands for the run-time panic. -/
def sliceFrom (s : GoString) (i : Int) : Option GoString :=
  if 0 ≤ i ∧ i ≤ (s.length : Int) then some (s.drop i.toNat) else none

/-! ## Data model of the rule evaluator (`infoscan.go`) -/

/-- The observation record `WebInfo` (infoscan.go, lines 32-47). -/
structure WebInfo where
  Protocol : GoString
  Port : Int
  Path : GoString
  Title : GoString
  StatusCode : Int
  IconHash : GoString
  IconMd5 : GoString
  BodyString : GoString
  HeadeString : GoString
  ContentType : GoString
  Server : GoString
  ContentLength : Int
  Banner : GoString
  Cert : GoString
deriving DecidableEq

/-- One rule atom of a signature. Modelled from the spec: the type declaration is
not part of the embedded files; the spec gives the tuple
`(key, op, value, start, end)` and `Scan` reads exactly these fields. -/
structure RuleData where
  Key : GoString
  Op : Int
  Value : GoString
  Start : Int
  End : Int
deriving DecidableEq

/-- A fingerprint signature. Modelled from the spec: the type declaration is not
part of the embedded files; the spec gives `(product_name, all_string, rules[])`
and `Scan` reads exactly these fields. -/
structure FingerPEntity where
  ProductName : GoString
  AllString : GoString
  Rule : List RuleData
deriving DecidableEq

/-- The functions `Scan` calls whose bodies are outside the embedded files:
`boolEval`, `dataCheckString`, `dataCheckInt` (package webscan) and
`strconv.Atoi` (standard library). `none` is a returned error. -/
structure Externals where
  boolEval : GoString → Option Bool
  dataCheckString : Int → GoString → GoString → Bool
  dataCheckInt : Int → Int → Int → Bool
  Atoi : GoString → Option Int

/-- Modelled from the spec: `arrayutil.RemoveDuplicates` is not part of the
embedded files; the spec says the result of `Scan` is deduplicated. The first
occurrence of each element is kept. -/
def RemoveDuplicates : List GoString → List GoString
  | [] => []
  | x :: xs => x :: (RemoveDuplicates xs).filter (fun y => y ≠ x)

/-! ## `Scan` (infoscan.go, lines 448-512) -/

/-- The `switch rule.Key` of `Scan` (lines 454-492): the truth value of one atom.
`result` starts as `false` and stays so when no case assigns it. -/
def ruleResult (ext : Externals) (web : WebInfo) (rule : RuleData) : Bool :=
  if rule.Key = str "header" then ext.dataCheckString rule.Op web.HeadeString rule.Value
  else if rule.Key = str "body" then ext.dataCheckString rule.Op web.BodyString rule.Value
  else if rule.Key = str "server" then ext.dataCheckString rule.Op web.Server rule.Value
  else if rule.Key = str "title" then ext.dataCheckString rule.Op web.Title rule.Value
  else if rule.Key = str "cert" then ext.dataCheckString rule.Op web.Cert rule.Value
  else if rule.Key = str "port" then
    match ext.Atoi rule.Value with
    | some value => ext.dataCheckInt rule.Op web.Port value
    | none => false
  else if rule.Key = str "protocol" then
    (rule.Op = 0 && web.Protocol = rule.Value) || (rule.Op = 1 && web.Protocol ≠ rule.Value)
  else if rule.Key = str "path" then ext.dataCheckString rule.Op web.Path rule.Value
  else if rule.Key = str "icon_hash" then
    match ext.Atoi rule.Value, ext.Atoi web.IconHash with
    | some value, some hashIcon => ext.dataCheckInt rule.Op hashIcon value
    | _, _ => false
  else if rule.Key = str "icon_mdhash" then ext.dataCheckString rule.Op web.IconMd5 rule.Value
  else if rule.Key = str "status" then
    match ext.Atoi rule.Value with
    | some value => ext.dataCheckInt rule.Op web.StatusCode value
    | none => false
  else if rule.Key = str "content_type" then
    ext.dataCheckString rule.Op web.ContentType rule.Value
  else if rule.Key = str "banner" then ext.dataCheckString rule.Op web.Banner rule.Value
  else false

/-- The truth character written for an atom (lines 494-498): `T` or `F`. -/
def truthChar (b : Bool) : GoString := if b then str "T" else str "F"

/-- The assignment `expr = expr[:rule.Start] + c + expr[rule.End:]` (lines 495, 497). -/
def replaceRange (expr : GoString) (rule : RuleData) (c : GoString) : Option GoString :=
  match sliceTo expr rule.Start, sliceFrom expr rule.End with
  | some pre, some post => some (pre ++ c ++ post)
  | _, _ => none

/-- The inner loop of `Scan` (lines 453-499): every rule in turn rewrites the
current expression. -/
def substRules (ext : Externals) (web : WebInfo) : GoString → List RuleData → Option GoString
  | expr, [] => some expr
  | expr, rule :: rest =>
    match replaceRange expr rule (truthChar (ruleResult ext web rule)) with
    | none => none
    | some expr1 => substRules ext web expr1 rest

/-- The outer loop of `Scan` (lines 451-509) with the accumulator
`fingerPrintResults`. An evaluation error is the `continue` of line 504. -/
def scanLoop (ext : Externals) (web : WebInfo) :
    List FingerPEntity → List GoString → Option (List GoString)
  | [], acc => some acc
  | finger :: rest, acc =>
    match substRules ext web finger.AllString finger.Rule with
    | none => none
    | some expr =>
      match ext.boolEval expr with
      | none => scanLoop ext web rest acc
      | some r => scanLoop ext web rest (if r then acc ++ [finger.ProductName] else acc)

/-- The function `Scan`: the matched product names, deduplicated. -/
def Scan (ext : Externals) (web : WebInfo) (targetDB : List FingerPEntity) :
    Option (List GoString) :=
  (scanLoop ext web targetDB []).map RemoveDuplicates

/-! ## Favicon hash (`favicon.go`, lines 120-146) -/

/-- The alphabet of `base64.StdEncoding` (Go standard library). -/
def encodeStd : GoString :=
  str "ABCDEFGHIJKLMNOPQRSTUVWXYZabcdefghijklmnopqrstuvwxyz0123456789+/"

/-- The table lookup `enc.encode[val & 0x3F]` of the Go encoder. -/
def encodeAt (val : Nat) : UInt8 := encodeStd.getD (val % 64) 0

/-- The call `base64.StdEncoding.EncodeToString` (Go standard library): three bytes
give four characters, a remainder of one or two bytes is padded with `=` (61). -/
def EncodeToString : GoString → GoString
  | a :: b :: c :: rest =>
    let val := a.toNat * 65536 + b.toNat * 256 + c.toNat
    [encodeAt (val / 262144), encodeAt (val / 4096), encodeAt (val / 64), encodeAt val]
      ++ EncodeToString rest
  | [a, b] =>
    let val := a.toNat * 65536 + b.toNat * 256
    [encodeAt (val / 262144), encodeAt (val / 4096), encodeAt (val / 64), 61]
  | [a] =>
    let val := a.toNat * 65536
    [encodeAt (val / 262144), encodeAt (val / 4096), 61, 61]
  | [] => []

/-- The loop of `base64Encode` (lines 137-143): the rest of `bckd`, the index `i`
and the buffer written so far. Byte 10 is the line feed. -/
def base64EncodeLoop : GoString → Nat → GoString → GoString
  | [], _, buffer => buffer
  | ch :: rest, i, buffer =>
    let buffer1 := buffer ++ [ch]
    base64EncodeLoop rest (i + 1) (if (i + 1) % 76 = 0 then buffer1 ++ [10] else buffer1)

/-- The function `base64Encode` (lines 134-146). -/
def base64Encode (braw : GoString) : GoString :=
  base64EncodeLoop (EncodeToString braw) 0 [] ++ [10]

/-- A left rotation of a 32-bit word. -/
def rotl32 (x r : Nat) : Nat := ((x <<< r) ||| (x >>> (32 - r))) % 2 ^ 32

/-- The scrambling of one 32-bit block of MurmurHash3. -/
def mixK (k : Nat) : Nat := rotl32 (k * 0xcc9e2d51 % 2 ^ 32) 15 * 0x1b873593 % 2 ^ 32

/-- The block loop and the tail of MurmurHash3 x86 32 over little-endian words. -/
def murmurBody : Nat → GoString → Nat
  | h, a :: b :: c :: d :: rest =>
    let k := a.toNat ||| (b.toNat <<< 8) ||| (c.toNat <<< 16) ||| (d.toNat <<< 24)
    murmurBody ((rotl32 (h ^^^ mixK k) 13 * 5 + 0xe6546b64) % 2 ^ 32) rest
  | h, [a, b, c] => h ^^^ mixK ((c.toNat <<< 16) ^^^ (b.toNat <<< 8) ^^^ a.toNat)
  | h, [a, b] => h ^^^ mixK ((b.toNat <<< 8) ^^^ a.toNat)
  | h, [a] => h ^^^ mixK a.toNat
  | h, [] => h

/-- The finalizer of MurmurHash3. -/
def fmix32 (h : Nat) : Nat :=
  let h1 := (h ^^^ (h >>> 16)) * 0x85ebca6b % 2 ^ 32
  let h2 := (h1 ^^^ (h1 >>> 13)) * 0xc2b2ae35 % 2 ^ 32
  h2 ^^^ (h2 >>> 16)

/-- The 32-bit MurmurHash3 with seed 0 (`murmur3.New32` of github.com/twmb/murmur3,
a third-party package): the unsigned sum of the bytes written. -/
def murmur3Sum32 (data : GoString) : Nat :=
  fmix32 (murmurBody 0 data ^^^ (data.length % 2 ^ 32)) % 2 ^ 32

/-- The hasher `hash.Hash32` returned by `murmur3.New32()`: the bytes written so far. -/
structure Hash32 where
  written : GoString
deriving DecidableEq

/-- The constructor `murmur3.New32()`. -/
def New32 : Hash32 := ⟨[]⟩

/-- The method `Write` of the hasher: it appends and returns no error
(`false` is `err == nil`), as the interface `hash.Hash` promises. -/
def Hash32.Write (h : Hash32) (p : GoString) : Hash32 × Bool := (⟨h.written ++ p⟩, false)

/-- The method `Sum32` of the hasher. -/
def Hash32.Sum32 (h : Hash32) : Nat := murmur3Sum32 h.written

/-- The Go conversion `int32(x)` of an unsigned 32-bit value. -/
def int32 (x : Nat) : Int :=
  if x % 2 ^ 32 < 2 ^ 31 then ((x % 2 ^ 32 : Nat) : Int) else ((x % 2 ^ 32 : Nat) : Int) - 2 ^ 32

/-- The call `fmt.Sprint` on an integer: its decimal text. -/
def Sprint (v : Int) : GoString := str (toString v)

/-- The function `Mmh3Hash32` (lines 123-131). -/
def Mmh3Hash32 (raw : GoString) : GoString :=
  let h32 := New32
  let w := h32.Write (base64Encode raw)
  if w.2 = false then Sprint (int32 w.1.Sum32) else str "0"

/-- The favicon-hash convention of FOFA and Shodan, stated from the spec's words:
Python's `base64.encodebytes`, which encodes each successive chunk of 57 bytes
and ends each with one line feed. The first argument bounds the number of chunks. -/
def encodebytesChunks : Nat → GoString → GoString
  | 0, _ => []
  | fuel + 1, b =>
    if b.isEmpty then [] else EncodeToString (b.take 57) ++ [10] ++ encodebytesChunks fuel (b.drop 57)

/-- The reference encoding `base64.encodebytes(b)`; `b.length` chunks always suffice. -/
def encodebytes (b : GoString) : GoString := encodebytesChunks b.length b

/-! ## Nuclei driver (`callnuclei.go`) -/

/-- The variable `maxResponseSize` (line 28). -/
def maxResponseSize : Nat := 1024 * 512

/-- The interaction attached to a result event (`event.Interaction`). -/
structure Interaction where
  RawRequest : GoString
  RawResponse : GoString
deriving DecidableEq

/-- The fields of `output.ResultEvent` read by `showMatched`, `showRequest` and
`showResponse`; a nil `Interaction` pointer is `none`. -/
structure ResultEvent where
  Matched : GoString
  URL : GoString
  Request : GoString
  Response : GoString
  Interaction : Option Interaction
deriving DecidableEq

/-- Modelled from the spec: `httputil.LimitResponse` is not part of the embedded
files; the spec says the response is truncated to 512 KiB, so a text longer than
`max` is cut to its first `max` bytes and the suffix is appended. -/
def LimitResponse (s : GoString) (max : Nat) (suffix : GoString) : GoString :=
  if s.length > max then s.take max ++ suffix else s

/-- The function `showMatched` (lines 246-251). -/
def showMatched (event : ResultEvent) : GoString :=
  if event.Matched ≠ [] then event.Matched else event.URL

/-- The function `showRequest` (lines 253-261). -/
def showRequest (event : ResultEvent) : GoString :=
  if event.Request ≠ [] then event.Request
  else match event.Interaction with
    | some i => i.RawRequest
    | none => []

/-- The function `showResponse` (lines 263-271). -/
def showResponse (event : ResultEvent) : GoString :=
  if event.Response ≠ [] then LimitResponse event.Response maxResponseSize []
  else match event.Interaction with
    | some i => i.RawResponse
    | none => []

/-- The fields of `structs.NucleiOption` read by `NewNucleiEngine`. -/
structure NucleiOption where
  URL : GoString
  Tags : List GoString
  SkipNucleiWithoutTags : Bool
deriving DecidableEq

/-- What happens outside `NewNucleiEngine` during one session: whether the control
context is cancelled when target `i` is reached, whether the engine of a target
cannot be built, and whether the execution on a target returns an error. -/
structure NucleiWorld where
  cancelled : Nat → Bool
  engineErr : NucleiOption → Bool
  executeErr : NucleiOption → Bool

/-- The loop of `NewNucleiEngine` (lines 32-78) from index `i` on: the list of the
options on which `ExecuteWithCallback` is called, in order. Each `return` of the
source ends the list. -/
def nucleiLoop (w : NucleiWorld) : Nat → List NucleiOption → List NucleiOption
  | _, [] => []
  | i, o :: rest =>
    if w.cancelled i then []
    else if o.SkipNucleiWithoutTags && o.Tags.length = 0 then []
    else if w.engineErr o then []
    else if w.executeErr o then [o]
    else o :: nucleiLoop w (i + 1) rest

/-- The function `NewNucleiEngine` (lines 30-79), observed through the targets on
which template execution is attempted. -/
def NewNucleiEngine (w : NucleiWorld) (allOptions : List NucleiOption) : List NucleiOption :=
  nucleiLoop w 0 allOptions

/-! ## Scanner session (`infoscan.go`) -/

/-- The fields of `url.URL` the scanner reads. -/
structure URL where
  Scheme : GoString
  Host : GoString
  Path : GoString
deriving DecidableEq

/-- The method `String` of `url.URL`, for a URL without user, query and fragment
whose path needs no escaping: `net/url` writes a path byte outside its safe set
in percent form (a blank becomes `%20`), which is not modelled. The scanner uses
the string as a map key and as the address of a request only. -/
def URL.String (u : URL) : GoString := u.Scheme ++ str "://" ++ u.Host ++ u.Path

/-- What the scanner reads of an HTTP response (`resty.Response`). -/
structure Response where
  StatusCode : Int
  Body : GoString
  Headers : GoString
  Server : GoString
  ContentType : GoString
  SetCookie : GoString
deriving DecidableEq

/-- The event record `structs.InfoResult`, with the fields the scanner sets. -/
structure InfoResult where
  TaskId : GoString
  URL : GoString
  Scheme : GoString
  Host : GoString
  Port : Int
  StatusCode : Int
  Length : Int
  Title : GoString
  Fingerprints : List GoString
  IsWAF : Bool
  WAF : GoString
  Detect : GoString
  Screenshot : GoString
deriving DecidableEq

/-- An entry of `ActiveFingerprintDB`: path suffixes and the signatures to test
there. Modelled from the spec: the type declaration is not part of the embedded
files; the spec gives `(paths[], fpe[])`. -/
structure ActiveFingerprint where
  Path : List GoString
  Fpe : List FingerPEntity
deriving DecidableEq

/-- The session options `structs.WebscanOptions` read by `NewWebscanEngine`. -/
structure WebscanOptions where
  Target : List GoString
  TcpTarget : List (GoString × List GoString)
  Thread : Int
  Screenshot : Bool
  DeepScan : Bool
  RootPath : Bool
  CustomHeaders : GoString
  GenerateLog4j2 : Bool

/-- A Go map with string keys, as the list of its entries in insertion order. -/
abbrev GoMap (α : Type) := List (GoString × α)

/-- The map read `m[k]` with its presence flag. -/
def mapLoad {α : Type} : GoMap α → GoString → Option α
  | [], _ => none
  | (k1, v1) :: m, k => if k1 = k then some v1 else mapLoad m k

/-- The map write `m[k] = v`. -/
def mapStore {α : Type} : GoMap α → GoString → α → GoMap α
  | [], k, v => [(k, v)]
  | (k1, v1) :: m, k, v => if k1 = k then (k, v) :: m else (k1, v1) :: mapStore m k v

/-- The keys of a map. -/
def mapKeys {α : Type} (m : GoMap α) : List GoString := m.map Prod.fst

/-- The outside of a scan session: the network, the fingerprint tables and the
helpers of other packages. The field `DoRequest` is `clients.DoRequest` applied to
method, URL, headers, timeout and the redirect-following flag of the client; its
second component is `err != nil`. -/
structure ScanWorld where
  ext : Externals
  FingerprintDB : List FingerPEntity
  ActiveFingerprintDB : List ActiveFingerprint
  taskId : GoString
  resolveTargets : List GoString → List URL
  Str2HeadersMap : GoString → GoMap GoString
  DoRequest : GoString → GoString → GoMap GoString → Nat → Bool → Response × Bool
  FaviconHash : URL → GoString × GoString
  RandomStr : Nat → GoString
  GetJSRedirectResponse : URL → GoString → Option GoString
  FastjsonBody : URL → Response × Bool
  GetTitle : GoString → GoString
  ToLower : GoString → GoString
  GetTLSString : GoString → GoString → GoString
  GetPort : URL → Int
  ResolveAndWafIdentify : URL → Bool × GoString
  checkHoneypotWithHeaders : GoString → Bool
  checkHoneypotWithFingerprintLength : Nat → Bool
  GetScreenshot : GoString → GoString × Bool
  GetBasicURL : URL → URL
  bytesContains : GoString → GoString → Bool

/-- The scanner `FingerScanner` (lines 49-64), without its handles. -/
structure FingerScanner where
  urls : List URL
  aliveURLs : List URL
  screenshot : Bool
  thread : Int
  deepScan : Bool
  rootPath : Bool
  basicURLWithFingerprint : GoMap (List GoString)
  headers : GoMap GoString
  generateLog4j2 : Bool
deriving DecidableEq

/-- Modelled from the spec: `httputil.LimitResponseBytes` is not part of the embedded
files; the spec says the body is truncated to 100 KiB, its first `max` bytes. -/
def LimitResponseBytes (b : GoString) (max : Nat) : GoString :=
  if b.length > max then b.take max else b

/-- The constant `maxInfoReponseSize` (line 28). -/
def maxInfoReponseSize : Nat := 1024 * 100

/-- The constant `activeTimeoutLimit` (line 301). -/
def activeTimeoutLimit : Int := 15

/-- The loop of `NewWebscanEngine` over `options.TcpTarget` (lines 108-114). -/
def seedTcpTarget (tcp : List (GoString × List GoString)) : GoMap (List GoString) :=
  tcp.foldl (fun m e => if e.2.length > 0 then mapStore m e.1 e.2 else m) []

/-- The function `NewWebscanEngine` (lines 66-133); the parsing and protocol
probing of the targets (lines 67-103) is `resolveTargets`. `none` is the nil result. -/
def NewWebscanEngine (w : ScanWorld) (options : WebscanOptions) : Option FingerScanner :=
  let urls := w.resolveTargets options.Target
  let basicURLWithFingerprint := seedTcpTarget options.TcpTarget
  if urls.length = 0 ∧ basicURLWithFingerprint.length = 0 then none
  else some {
    urls := urls
    aliveURLs := []
    screenshot := options.Screenshot
    thread := options.Thread
    deepScan := options.DeepScan
    rootPath := options.RootPath
    basicURLWithFingerprint := basicURLWithFingerprint
    headers := w.Str2HeadersMap options.CustomHeaders
    generateLog4j2 := options.GenerateLog4j2 }

/-- The method `ShiroScan` (lines 545-554). -/
def ShiroScan (w : ScanWorld) (u : URL) : GoString :=
  let shiroHeader : GoMap GoString :=
    [(str "Cookie", str "JSESSIONID=" ++ w.RandomStr 16 ++ str ";rememberMe=123")]
  let r := w.DoRequest (str "GET") u.String shiroHeader 10 true
  if r.2 then [] else r.1.SetCookie

/-- The method `FastjsonScan` (lines 558-567); `FastjsonBody` is the POST request. -/
def FastjsonScan (w : ScanWorld) (u : URL) : Bool :=
  let r := w.FastjsonBody u
  if r.2 then false else w.bytesContains r.1.Body (str "fastjson-version")

/-- An event with only URL, status and scheme set (lines 165-169 and 180-184). -/
def shortResult (u : URL) (status : Int) : InfoResult :=
  { TaskId := [], URL := u.String, Scheme := u.Scheme, Host := [], Port := 0,
    StatusCode := status, Length := 0, Title := [], Fingerprints := [], IsWAF := false,
    WAF := [], Detect := [], Screenshot := [] }

/-- The list `fingerprints` of `fscan` after lines 232-242: the optional tags are
appended first, then a honeypot verdict replaces the whole list. -/
def passiveFingerprints (w : ScanWorld) (s : FingerScanner) (u : URL) (web : WebInfo)
    (fingerprints0 : List GoString) : List GoString :=
  let fingerprints1 :=
    if s.generateLog4j2 then fingerprints0 ++ [str "Generate-Log4j2"] else fingerprints0
  let fingerprints2 :=
    if FastjsonScan w u then fingerprints1 ++ [str "Fastjson"] else fingerprints1
  if w.checkHoneypotWithHeaders web.HeadeString
      || w.checkHoneypotWithFingerprintLength fingerprints2.length
  then [str "疑似蜜罐"] else fingerprints2

/-- The observation `web` that `fscan` builds (lines 207-224) from the followed
response, the merged headers, the body and the favicon hashes. -/
def passiveWebInfo (w : ScanWorld) (u : URL) (resp : Response) (rawHeaders body : GoString)
    (favicon : GoString × GoString) : WebInfo :=
  { Protocol := [], Banner := [],
    HeadeString := w.ToLower rawHeaders,
    ContentType := w.ToLower resp.ContentType,
    Cert := w.ToLower (w.GetTLSString u.Scheme u.Host),
    BodyString := w.ToLower body,
    Path := w.ToLower u.Path,
    Title := w.ToLower (w.GetTitle body),
    Server := w.ToLower resp.Server,
    ContentLength := resp.Body.length,
    Port := w.GetPort u,
    IconHash := favicon.1,
    IconMd5 := favicon.2,
    StatusCode := resp.StatusCode }

/-- The end of `fscan` (lines 226-271) once the observation `web` is built: the
target is recorded as alive, matched, and its result stored and emitted. A panic
of `Scan` ends the task of the worker pool where it stands. -/
def fscanAlive (w : ScanWorld) (s : FingerScanner) (u : URL) (web : WebInfo)
    (title : GoString) : FingerScanner × List InfoResult :=
  let wafInfo := w.ResolveAndWafIdentify u
  let s1 := { s with aliveURLs := s.aliveURLs ++ [u] }
  match Scan w.ext web w.FingerprintDB with
  | none => (s1, [])
  | some fingerprints0 =>
    let fingerprints := passiveFingerprints w s u web fingerprints0
    let screenshotPath : GoString :=
      if s.screenshot ∧ (u.Scheme = str "https" ∨ u.Scheme = str "http")
      then (w.GetScreenshot u.String).1 else []
    let old := (mapLoad s1.basicURLWithFingerprint u.String).getD []
    let newMap := mapStore s1.basicURLWithFingerprint u.String (old ++ fingerprints)
    let s2 := { s1 with basicURLWithFingerprint := newMap }
    (s2, [{ TaskId := w.taskId, URL := u.String, Scheme := u.Scheme, Host := u.Host,
            Port := web.Port, StatusCode := web.StatusCode, Length := web.ContentLength,
            Title := title, Fingerprints := fingerprints, IsWAF := wafInfo.1,
            WAF := wafInfo.2, Detect := str "Default", Screenshot := screenshotPath }])

/-- The body handed to the matcher (lines 189 and 200-205): the first 100 KiB of
the response, then the body of a followed JS redirect appended. -/
def passiveBody (w : ScanWorld) (u : URL) (resp : Response) : GoString :=
  let body0 := LimitResponseBytes resp.Body maxInfoReponseSize
  match w.GetJSRedirectResponse u body0 with
  | some redirectBody => body0 ++ redirectBody
  | none => body0

/-- The closure `fscan` of `FingerScan` (lines 146-272) on one target, with no
cancellation: the scanner after it and the events it has put on `retChan`. -/
def fscan (w : ScanWorld) (s : FingerScanner) (u : URL) : FingerScanner × List InfoResult :=
  let r0 := w.DoRequest (str "GET") u.String s.headers 10 false
  let rawHeaders0 : GoString := if r0.2 = false ∧ r0.1.StatusCode = 302 then r0.1.Headers else []
  if r0.1.StatusCode = 422 then (s, [shortResult u 422])
  else
    let r := w.DoRequest (str "GET") u.String s.headers 10 true
    if r.2 = true ∧ rawHeaders0.length = 0 then (s, [shortResult u 0])
    else
      let resp := r.1
      let rawHeaders1 := rawHeaders0 ++ resp.Headers
      let favicon := w.FaviconHash u
      let rawHeaders := rawHeaders1 ++ (str "Set-Cookie: " ++ ShiroScan w u)
      let body := passiveBody w u resp
      let title := w.GetTitle body
      fscanAlive w s u (passiveWebInfo w u resp rawHeaders body favicon) title

/-- The closure `fscan` applied to the targets of `s.urls` one after the other, as
a single worker does (lines 273-288 with a pool of one), with no cancellation:
the scanner after the last target and the emitted events. -/
def FingerScanInOrder (w : ScanWorld) (s : FingerScanner) : FingerScanner × List InfoResult :=
  s.urls.foldl (fun acc u => let r := fscan w acc.1 u; (r.1, acc.2 ++ r.2)) (s, [])

/-- A task of the active pass, `ActiveFingerDetect` (lines 295-299). -/
structure ActiveFingerDetect where
  URL : URL
  Fpe : List FingerPEntity
  Path : GoString
deriving DecidableEq

/-- The state of `ActiveFingerScan`: the scanner, the progress counter `id`, the
maps `visited` and `timeoutCounter`, the events put on `retChan`, and the trace of
the requests the workers have sent (base URL and whether the request failed). -/
structure ActiveState where
  scanner : FingerScanner
  id : Nat
  visited : List GoString
  timeoutCounter : GoMap Int
  emitted : List InfoResult
  requests : List (GoString × Bool)
deriving DecidableEq

/-- The test `val, ok := timeoutCounter.Load(base); ok && val >= activeTimeoutLimit`
(lines 331 and 402). -/
def timeoutReached (st : ActiveState) (base : GoString) : Bool :=
  match mapLoad st.timeoutCounter base with
  | some val => decide (val ≥ activeTimeoutLimit)
  | none => false

/-- The accounting of one failed request (lines 346-347):
`v, _ := LoadOrStore(baseURL, 1)` then `Store(baseURL, v+1)`. -/
def countTimeout (m : GoMap Int) (baseURL : GoString) : GoMap Int :=
  let v := match mapLoad m baseURL with
    | some old => old
    | none => 1
  let m1 := match mapLoad m baseURL with
    | some _ => m
    | none => mapStore m baseURL 1
  mapStore m1 baseURL (v + 1)

/-- Modelled from the spec: `arrayutil.ArrayContains` is not part of the embedded
files; the spec says a ThinkPHP match is one whose result set contains the name. -/
def ArrayContains (x : GoString) (xs : List GoString) : Bool := decide (x ∈ xs)

/-- The observation `ti` that the active worker builds (lines 351-367). -/
def activeWebInfo (w : ScanWorld) (fp : ActiveFingerDetect) (resp : Response) : WebInfo :=
  { Protocol := [], Banner := [], IconHash := [], IconMd5 := [], Cert := [],
    HeadeString := w.ToLower resp.Headers,
    ContentType := w.ToLower resp.ContentType,
    BodyString := w.ToLower resp.Body,
    Path := w.ToLower fp.Path,
    Title := w.ToLower (w.GetTitle resp.Body),
    Server := w.ToLower resp.Server,
    ContentLength := resp.Body.length,
    Port := w.GetPort fp.URL,
    StatusCode := resp.StatusCode }

/-- The test of line 370: the result is kept. -/
def activeKeep (result : List GoString) (ti : WebInfo) : Bool :=
  decide ((result.length > 0 ∧ ti.StatusCode ≠ 404) ∨ ArrayContains (str "ThinkPHP") result = true)

/-- The end of the active worker (lines 368-387) on the observation `ti`. A panic
of `Scan` or of `fp.Fpe[0]` ends the task of the worker pool where it stands. -/
def activeMatch (w : ScanWorld) (st : ActiveState) (fp : ActiveFingerDetect) (ti : WebInfo)
    (fullURL title : GoString) : ActiveState :=
  match Scan w.ext ti fp.Fpe with
  | none => st
  | some result =>
    if activeKeep result ti then
      let old := (mapLoad st.scanner.basicURLWithFingerprint fp.URL.String).getD []
      let newMap := mapStore st.scanner.basicURLWithFingerprint fp.URL.String (old ++ result)
      let sc := { st.scanner with basicURLWithFingerprint := newMap }
      let st3 := { st with scanner := sc }
      match fp.Fpe with
      | [] => st3
      | fpe0 :: _ =>
        { st3 with emitted := st3.emitted ++
            [{ TaskId := w.taskId, URL := fullURL, StatusCode := ti.StatusCode,
               Length := ti.ContentLength, Title := title,
               Fingerprints := [fpe0.ProductName], Detect := str "Active",
               Port := ti.Port, Scheme := fp.URL.Scheme, Host := fp.URL.Host,
               IsWAF := false, WAF := [], Screenshot := [] }] }
    else st

/-- The worker of `ActiveFingerScan` (lines 324-388) on one task, run to its end. -/
def activeWorker (w : ScanWorld) (st : ActiveState) (fp : ActiveFingerDetect) : ActiveState :=
  let fullURL := fp.URL.String ++ fp.Path
  let baseURL := fp.URL.String
  if timeoutReached st baseURL then st
  else if fullURL ∈ st.visited then st
  else
    let st1 := { st with visited := st.visited ++ [fullURL] }
    let r := w.DoRequest (str "GET") fullURL st.scanner.headers 5 true
    let st2 := { st1 with requests := st1.requests ++ [(baseURL, r.2)] }
    if r.2 then { st2 with timeoutCounter := countTimeout st2.timeoutCounter baseURL }
    else activeMatch w st2 fp (activeWebInfo w fp r.1) fullURL (w.GetTitle r.1.Body)

/-- One turn of the innermost submit loop (lines 396-419), with no cancellation:
the state and the loop variable `target`, which line 411 reassigns. The submitted
task runs to its end before the next turn. -/
def submitTask (w : ScanWorld) (fpe : List FingerPEntity) (acc : ActiveState × URL)
    (path : GoString) : ActiveState × URL :=
  let st := acc.1
  let target := acc.2
  let base := target.String
  if timeoutReached st base then ({ st with id := st.id + 1 }, target)
  else
    let st1 := { st with id := st.id + 1 }
    let target1 := if st.scanner.rootPath then w.GetBasicURL target else target
    (activeWorker w st1 { URL := target1, Fpe := fpe, Path := path }, target1)

/-- The two inner loops (lines 395-420) for one alive URL. -/
def submitTarget (w : ScanWorld) (st : ActiveState) (target : URL) : ActiveState :=
  (w.ActiveFingerprintDB.foldl
    (fun acc item => item.Path.foldl (submitTask w item.Fpe) acc) (st, target)).1

/-- The state in which `ActiveFingerScan` starts (lines 308-314). -/
def activeStart (s : FingerScanner) : ActiveState :=
  { scanner := s, id := 0, visited := [], timeoutCounter := [], emitted := [], requests := [] }

/-- The method `ActiveFingerScan` (lines 302-427), its tasks run one after the
other and with no cancellation. -/
def ActiveFingerScan (w : ScanWorld) (s : FingerScanner) : ActiveState :=
  if s.aliveURLs.length = 0 then activeStart s
  else s.aliveURLs.foldl (submitTarget w) (activeStart s)

/-- The number of failed requests sent to a base URL, read off the request trace. -/
def failedRequests (st : ActiveState) (base : GoString) : Nat :=
  (st.requests.filter (fun r => r.1 = base ∧ r.2 = true)).length

/-- The method `URLWithFingerprintMap` (lines 444-446). -/
def URLWithFingerprintMap (s : FingerScanner) : GoMap (List GoString) :=
  s.basicURLWithFingerprint

/-! ## Predicates of the statements and sample inputs -/

/-- Each rule's range lies inside the expression as it stands when the rule is
reached: `n` is the current length, and a rule leaves `Start + 1 + (n - End)` bytes. -/
def rangesFit : Nat → List RuleData → Bool
  | _, [] => true
  | n, r :: rest =>
    decide (0 ≤ r.Start ∧ r.Start ≤ (n : Int) ∧ 0 ≤ r.End ∧ r.End ≤ (n : Int))
      && rangesFit (r.Start.toNat + 1 + (n - r.End.toNat)) rest

/-- The digits of `strconv.Atoi`: every byte is a decimal digit. -/
def parseDigits : GoString → Nat → Option Nat
  | [], acc => some acc
  | c :: rest, acc =>
    if 48 ≤ c.toNat ∧ c.toNat ≤ 57 then parseDigits rest (acc * 10 + (c.toNat - 48)) else none

/-- The call `strconv.Atoi` (Go standard library) on a 64-bit platform: an
optional sign, at least one decimal digit, and a value that fits in 64 bits. -/
def strconvAtoi (s : GoString) : Option Int :=
  let signed : Bool × GoString := match s with
    | 45 :: r => (true, r)
    | 43 :: r => (false, r)
    | _ => (false, s)
  if signed.2 = [] then none
  else match parseDigits signed.2 0 with
    | none => none
    | some n =>
      let v : Int := if signed.1 then -(n : Int) else (n : Int)
      if -2 ^ 63 ≤ v ∧ v < 2 ^ 63 then some v else none

/-- A sample implementation of the outside functions of `Scan`: substring and
equality tests as the spec describes them, and an evaluator that knows the two
one-letter expressions only. -/
def sampleExternals : Externals where
  boolEval := fun e => if e = str "T" then some true else if e = str "F" then some false else none
  dataCheckString := fun op data value =>
    (op = 0 && decide (value <:+: data)) || (op = 1 && !decide (value <:+: data))
  dataCheckInt := fun op a b => (op = 0 && a = b) || (op = 1 && a ≠ b)
  Atoi := strconvAtoi

/-- A sample observation: status 200 on port 80, no favicon hash. -/
def sampleWeb : WebInfo :=
  { Protocol := str "http", Port := 80, Path := [], Title := str "welcome",
    StatusCode := 200, IconHash := [], IconMd5 := [], BodyString := str "powered by x",
    HeadeString := str "server: nginx", ContentType := str "text/html",
    Server := str "nginx", ContentLength := 12, Banner := [], Cert := [] }

/-- Where a key of the URL-to-fingerprints map can come from: the string of an
alive URL, a key of the pre-seeded `tcp_target` map or, with `root_path` set, the
string of the basic URL obtained from an alive URL by one or more applications of
`GetBasicURL`. -/
def keyOrigin (w : ScanWorld) (rootPath : Bool) (alive : List URL) (tcpKeys : List GoString)
    (k : GoString) : Prop :=
  k ∈ alive.map URL.String ∨ k ∈ tcpKeys ∨
    (rootPath = true ∧ ∃ u ∈ alive, ∃ n : Nat, k = (w.GetBasicURL^[n + 1] u).String)

/-- The invariant of the submit loops of `ActiveFingerScan` on the state and the
loop variable `target`: the alive URLs and `root_path` are unchanged, every key
has an origin, and `target` is an alive URL or, with `root_path` set, a basic URL
obtained from one. -/
def activeInv (w : ScanWorld) (rp : Bool) (A : List URL) (T : List GoString)
    (acc : ActiveState × URL) : Prop :=
  acc.1.scanner.aliveURLs = A ∧ acc.1.scanner.rootPath = rp ∧
  (∀ k ∈ mapKeys acc.1.scanner.basicURLWithFingerprint, keyOrigin w rp A T k) ∧
  (acc.2 ∈ A ∨ (rp = true ∧ ∃ u ∈ A, ∃ n : Nat, acc.2 = w.GetBasicURL^[n + 1] u))

/-- A database whose first signature has a rule of width three followed by a rule
that lies inside `all_string` but outside the shortened expression. -/
def shrinkingDB : List FingerPEntity :=
  [ { ProductName := str "A", AllString := str "abc",
      Rule := [⟨str "body", 0, str "x", 0, 3⟩, ⟨str "body", 0, str "x", 2, 3⟩] },
    { ProductName := str "B", AllString := str "T", Rule := [] } ]

/-- A database of one signature with one rule of width one. -/
def nginxDB : List FingerPEntity :=
  [ { ProductName := str "nginx", AllString := str "a",
      Rule := [⟨str "server", 0, str "nginx", 0, 1⟩] } ]

/-- A signature with two rules of width one at distinct starts. -/
def twoRuleFinger : FingerPEntity :=
  { ProductName := str "nginx", AllString := str "a&&b",
    Rule := [⟨str "server", 0, str "nginx", 0, 1⟩, ⟨str "port", 0, str "80", 3, 4⟩] }

/-- A signature whose only rule has a range of width three. -/
def wideFinger : FingerPEntity :=
  { ProductName := str "wide", AllString := str "abc",
    Rule := [⟨str "body", 0, str "x", 0, 3⟩] }

/-- A response with status 200 and a small body. -/
def okResponse : Response :=
  { StatusCode := 200, Body := str "powered by x", Headers := str "server: nginx",
    Server := str "nginx", ContentType := str "text/html", SetCookie := [] }

/-- A sample outside world, given the behaviour of the network on a URL and the
active fingerprint table; the helpers of other packages are simple stand-ins. -/
def sampleWorld (net : GoString → Response × Bool) (adb : List ActiveFingerprint) : ScanWorld where
  ext := sampleExternals
  FingerprintDB := nginxDB
  ActiveFingerprintDB := adb
  taskId := str "task"
  resolveTargets := fun ts =>
    ts.map (fun t => ⟨str "http", t.takeWhile (fun c => c ≠ 47), t.dropWhile (fun c => c ≠ 47)⟩)
  Str2HeadersMap := fun _ => []
  DoRequest := fun _ url _ _ _ => net url
  FaviconHash := fun _ => ([], [])
  RandomStr := fun n => List.replicate n 97
  GetJSRedirectResponse := fun _ _ => none
  FastjsonBody := fun _ => (okResponse, false)
  GetTitle := fun _ => []
  ToLower := fun x => x
  GetTLSString := fun _ _ => []
  GetPort := fun _ => 80
  ResolveAndWafIdentify := fun _ => (false, [])
  checkHoneypotWithHeaders := fun _ => false
  checkHoneypotWithFingerprintLength := fun n => decide (n > 50)
  GetScreenshot := fun _ => ([], false)
  GetBasicURL := fun u => { u with Path := [] }
  bytesContains := fun data sub => decide (sub <:+: data)

/-- A network on which every request fails. -/
def deadNet : GoString → Response × Bool := fun _ => (⟨0, [], [], [], [], []⟩, true)

/-- A network on which every request is answered with `okResponse`. -/
def liveNet : GoString → Response × Bool := fun _ => (okResponse, false)

/-- The sample alive URL `http://a.com/app`. -/
def appURL : URL := ⟨str "http", str "a.com", str "/app"⟩

/-- A scanner as the passive pass leaves it: one target, found alive. -/
def aliveScanner (rootPath : Bool) : FingerScanner :=
  { urls := [appURL], aliveURLs := [appURL], screenshot := false, thread := 1,
    deepScan := true, rootPath := rootPath,
    basicURLWithFingerprint := [(appURL.String, [])], headers := [],
    generateLog4j2 := false }

/-- An active table of one entry with the first `n` of sixteen distinct paths. -/
def pathsDB (n : Nat) : List ActiveFingerprint :=
  [ { Path := ([str "/a", str "/b", str "/c", str "/d", str "/e", str "/f", str "/g",
        str "/h", str "/i", str "/j", str "/k", str "/l", str "/m", str "/n", str "/o",
        str "/p"] : List GoString).take n,
      Fpe := nginxDB } ]

/-- A session in which nothing is cancelled, every engine is built and only the
execution on `http://bad` returns an error. -/
def quietNuclei : NucleiWorld :=
  { cancelled := fun _ => false, engineErr := fun _ => false,
    executeErr := fun o => decide (o.URL = str "http://bad") }

/-- A target without tags that asks to be skipped. -/
def untaggedOption : NucleiOption := ⟨str "http://a", [], true⟩

/-- A target with a tag. -/
def taggedOption : NucleiOption := ⟨str "http://b", [str "nginx"], true⟩

/-- A target with a tag whose execution returns an error. -/
def badOption : NucleiOption := ⟨str "http://bad", [str "nginx"], false⟩

/-- The targets the claim expects to be attempted: those not skipped, in order. -/
def expectedAttempts (allOptions : List NucleiOption) : List NucleiOption :=
  allOptions.filter (fun o => !(o.SkipNucleiWithoutTags && o.Tags.length = 0))

/-- An event without response text whose interaction carries a raw response one
byte longer than `maxResponseSize`. -/
def interactionEvent : ResultEvent :=
  { Matched := [], URL := str "http://a", Request := [], Response := [],
    Interaction := some { RawRequest := [], RawResponse := List.replicate 524289 97 } }

/-- Session options with the one target `a.com/app` and one pre-seeded TCP target. -/
def appOptions (rootPath : Bool) : WebscanOptions :=
  { Target := [str "a.com/app"], TcpTarget := [(str "mysql://a.com:3306", [str "mysql"])],
    Thread := 1, Screenshot := false, DeepScan := true, RootPath := rootPath,
    CustomHeaders := [], GenerateLog4j2 := false }

/-- The scanner `NewWebscanEngine` builds from `appOptions`. -/
def engineScanner (rootPath : Bool) : FingerScanner :=
  { urls := [appURL], aliveURLs := [], screenshot := false, thread := 1, deepScan := true,
    rootPath := rootPath,
    basicURLWithFingerprint := [(str "mysql://a.com:3306", [str "mysql"])],
    headers := [], generateLog4j2 := false }

/-- An active table with one path and the sample signature. -/
def probeDB : List ActiveFingerprint := [ { Path := [str "/x"], Fpe := nginxDB } ]

/-- The relation the code keeps between the timeout counter and the request
trace: a base URL has no counter before its first failed request, and after
`k ≥ 1` failed requests its counter is `k + 1`. -/
def counterInv (st : ActiveState) : Prop :=
  ∀ base : GoString, mapLoad st.timeoutCounter base
    = if failedRequests st base = 0 then none else some ((failedRequests st base : Int) + 1)

/-! ## Template filter (`callnuclei.go`, lines 195-244) -/

/-- The call `strings.HasPrefix` (Go standard library). -/
def HasPrefix (s pre : GoString) : Bool := decide (s.length ≥ pre.length ∧ s.take pre.length = pre)

/-- The call `strings.HasSuffix` (Go standard library). -/
def HasSuffix (s suffix : GoString) : Bool :=
  decide (s.length ≥ suffix.length ∧ s.drop (s.length - suffix.length) = suffix)

/-- One call of the callback of `filepath.WalkDir`: the path, whether `err != nil`,
and `d.IsDir()`. -/
structure WalkEntry where
  path : GoString
  err : Bool
  isDir : Bool
deriving DecidableEq

/-- The outside of the template filter: the table `WorkFlowDB` in the order in
which `range` visits it, the file system (`os.Stat` succeeds, the entries
`filepath.WalkDir` visits under a directory) and `path.Join` on two elements. -/
structure TemplateWorld where
  WorkFlowDB : List (GoString × List GoString)
  statOk : GoString → Bool
  WalkDir : GoString → List WalkEntry
  pathJoin : GoString → GoString → GoString

/-- The function `expandYamlFiles` (lines 226-237). -/
def expandYamlFiles (w : TemplateWorld) (dirs : List GoString) : List GoString :=
  dirs.flatMap (fun dir =>
    ((w.WalkDir dir).filter (fun e => !e.err && !e.isDir && HasSuffix e.path (str ".yaml"))).map
      (fun e => e.path))

/-- The first loop of `findTagsFile` (lines 201-207): for each input tag, the names
of the `WorkFlowDB` entries whose tags contain it. -/
def tempFileList (w : TemplateWorld) (inputTags : List GoString) : List GoString :=
  inputTags.flatMap (fun inputTag =>
    (w.WorkFlowDB.filter (fun e => ArrayContains inputTag e.2)).map Prod.fst)

/-- The inner loop of lines 210-216 for one template name: the path in the first
directory where `os.Stat` succeeds (the `break`), if there is one. -/
def firstExisting (w : TemplateWorld) (temp : GoString) : List GoString → Option GoString
  | [] => none
  | dir :: rest =>
    if w.statOk (w.pathJoin dir (temp ++ str ".yaml"))
    then some (w.pathJoin dir (temp ++ str ".yaml"))
    else firstExisting w temp rest

/-- The function `findTagsFile` (lines 195-224). -/
def findTagsFile (w : TemplateWorld) (inputTags templateDirs : List GoString) : List GoString :=
  if inputTags.length = 0 then expandYamlFiles w templateDirs
  else
    let temps := tempFileList w inputTags
    let fileList := temps.filterMap (fun temp => firstExisting w temp templateDirs)
    if temps.length = 0 then expandYamlFiles w templateDirs
    else RemoveDuplicates fileList

/-- The function `finalTags` (lines 239-244). -/
def finalTags (detectTags customTags : List GoString) : List GoString :=
  if customTags.length ≠ 0 then customTags else detectTags

/-- The call `strings.Split(s, sep)` (Go standard library) for a separator of one
byte: the pieces between the separators, one more than there are separators. -/
def Split (s : GoString) (sep : UInt8) : List GoString :=
  match s with
  | [] => [[]]
  | c :: rest =>
    if c = sep then [] :: Split rest sep
    else match Split rest sep with
      | p :: ps => (c :: p) :: ps
      | [] => [[c]]

/-- The function `limitDecimalPlaces` (lines 274-280); 46 is the byte `.`. -/
def limitDecimalPlaces (value : GoString) : GoString :=
  match Split value 46 with
  | [p0, p1] => if p1.length > 2 then p0 ++ str "." ++ p1.take 2 else value
  | _ => value

/-! ## Favicon link (`favicon.go`, lines 22-118) -/

/-- A `<link>` element of the document head as `parseIcons` reads it: the
attributes `href` and `rel`, `none` when the attribute does not exist. -/
structure LinkElement where
  href : Option GoString
  rel : Option GoString
deriving DecidableEq

/-- The variable `iconDesktopRels` (line 23). -/
def iconDesktopRels : List GoString := [str "icon", str "shortcut icon"]

/-- The variable `iconMobileRels` (line 24). -/
def iconMobileRels : List GoString := [str "apple-touch-icon", str "mask-icon"]

/-- One pass `doc.Find("head link").Each(...)` of `parseIcons` (lines 90-98 and
101-109): the hrefs, in document order, of the links that have an href and whose
rel is one of `rels`, appended to `icons`. -/
def collectIcons (rels : List GoString) (icons : List GoString) :
    List LinkElement → List GoString
  | [] => icons
  | s :: rest =>
    match s.href, s.rel with
    | some href, some rel =>
      if ArrayContains rel rels then collectIcons rels (icons ++ [href]) rest
      else collectIcons rels icons rest
    | _, _ => collectIcons rels icons rest

/-- The function `parseIcons` (lines 87-118) on the `<link>` elements of the head. -/
def parseIcons (links : List LinkElement) : List GoString :=
  let icons0 := collectIcons iconDesktopRels [] links
  let icons1 := if icons0.length = 0 then collectIcons iconMobileRels icons0 links else icons0
  if icons1.length = 0 then icons1 ++ [str "favicon.ico"] else icons1

/-- The link that `FaviconHash` requests for the icon candidate `iconLink`
(lines 38-47). -/
def faviconHashLink (u : URL) (iconLink : GoString) : GoString :=
  if HasPrefix iconLink (str "http") then iconLink
  else if HasPrefix iconLink (str "//") then u.Scheme ++ str ":" ++ iconLink
  else u.Scheme ++ str "://" ++ u.Host ++ str "/" ++ iconLink

/-- The link that `GetFaviconFullLink` returns for the icon candidate `iconLink`
(lines 68-83). -/
def faviconFullLink (u : URL) (iconLink : GoString) : GoString :=
  if HasPrefix iconLink (str "http") then iconLink
  else if HasPrefix iconLink (str "//") then u.Scheme ++ str ":" ++ iconLink
  else if u.Path ≠ [] then u.Scheme ++ str "://" ++ u.Host ++ u.Path ++ str "/" ++ iconLink
  else u.Scheme ++ str "://" ++ u.Host ++ str "/" ++ iconLink

/-- The outside of the favicon hasher: the GET request of `clients.DoRequest`, the
`<link>` elements of the head that goquery finds in a body (`none` when the
document cannot be parsed), and the hex MD5 sum. -/
structure FaviconWorld where
  DoRequest : GoString → Response × Bool
  headLinks : GoString → Option (List LinkElement)
  md5Hex : GoString → GoString

/-- The function `FaviconHash` (lines 28-56): the mmh3 hash and the MD5 of the icon,
two empty strings on any failure. The outer `none` is the panic of
`parseIcons(doc)[0]` on an empty list. -/
def FaviconHash (fw : FaviconWorld) (u : URL) : Option (GoString × GoString) :=
  let r := fw.DoRequest u.String
  if r.2 then some ([], [])
  else match fw.headLinks r.1.Body with
    | none => some ([], [])
    | some links =>
      match parseIcons links with
      | [] => none
      | iconLink :: _ =>
        let r2 := fw.DoRequest (faviconHashLink u iconLink)
        if r2.2 = false ∧ r2.1.StatusCode = 200
        then some (Mmh3Hash32 r2.1.Body, fw.md5Hex r2.1.Body)
        else some ([], [])

/-- The function `GetFaviconFullLink` (lines 58-84): the link and whether an error
is returned. The outer `none` is the panic of `parseIcons(doc)[0]` on an empty
list. -/
def GetFaviconFullLink (fw : FaviconWorld) (u : URL) : Option (GoString × Bool) :=
  let r := fw.DoRequest u.String
  if r.2 then some ([], true)
  else match fw.headLinks r.1.Body with
    | none => some ([], true)
    | some links =>
      match parseIcons links with
      | [] => none
      | iconLink :: _ => some (faviconFullLink u iconLink, false)

/-- The hrefs, in document order, of the links that have an href and whose rel is
one of `rels`. -/
def hrefsWithRel (rels : List GoString) (links : List LinkElement) : List GoString :=
  links.filterMap (fun l =>
    match l.href, l.rel with
    | some href, some rel => if rel ∈ rels then some href else none
    | _, _ => none)

/-- A template world in which a tag resolves to a template name whose file is in
no directory, while the directory `/t` holds another template. -/
def missingFileWorld : TemplateWorld where
  WorkFlowDB := [(str "nginx-poc", [str "nginx"])]
  statOk := fun _ => false
  WalkDir := fun dir =>
    if dir = str "/t" then [⟨str "/t", false, true⟩, ⟨str "/t/other.yaml", false, false⟩] else []
  pathJoin := fun a b => a ++ str "/" ++ b

/-- A template world with two directories: `nginx-poc.yaml` is in both, `cve.yaml`
in the second only. -/
def twoDirWorld : TemplateWorld where
  WorkFlowDB := [(str "nginx-poc", [str "nginx", str "web"]), (str "cve", [str "web"]),
    (str "redis-poc", [str "redis"])]
  statOk := fun p =>
    decide (p ∈ [str "/a/nginx-poc.yaml", str "/b/nginx-poc.yaml", str "/b/cve.yaml"])
  WalkDir := fun dir =>
    if dir = str "/a" then [⟨str "/a", false, true⟩, ⟨str "/a/nginx-poc.yaml", false, false⟩,
      ⟨str "/a/readme.md", false, false⟩]
    else if dir = str "/b" then [⟨str "/b/nginx-poc.yaml", false, false⟩,
      ⟨str "/b/cve.yaml", false, false⟩]
    else []
  pathJoin := fun a b => a ++ str "/" ++ b

/-- A signature that matches a body containing `thinkphp`. -/
def thinkphpDB : List FingerPEntity :=
  [ { ProductName := str "ThinkPHP", AllString := str "a",
      Rule := [⟨str "body", 0, str "thinkphp", 0, 1⟩] } ]

/-- A response with status 404 whose body names ThinkPHP. -/
def notFoundResponse : Response :=
  { StatusCode := 404, Body := str "thinkphp error page", Headers := [], Server := [],
    ContentType := str "text/html", SetCookie := [] }

/-- A network on which every request is answered with `notFoundResponse`. -/
def notFoundNet : GoString → Response × Bool := fun _ => (notFoundResponse, false)

/-- The active task that probes `/x` on the sample URL for ThinkPHP. -/
def thinkphpTask : ActiveFingerDetect := { URL := appURL, Fpe := thinkphpDB, Path := str "/x" }

/-- The event that the active worker emits for a kept result (lines 375-386). -/
def activeEvent (w : ScanWorld) (fp : ActiveFingerDetect) (resp : Response)
    (fpe0 : FingerPEntity) : InfoResult :=
  { TaskId := w.taskId, URL := fp.URL.String ++ fp.Path, StatusCode := resp.StatusCode,
    Length := resp.Body.length, Title := w.GetTitle resp.Body,
    Fingerprints := [fpe0.ProductName], Detect := str "Active", Port := w.GetPort fp.URL,
    Scheme := fp.URL.Scheme, Host := fp.URL.Host, IsWAF := false, WAF := [], Screenshot := [] }

/-- The headers captured by the unfollowed request of `fscan` (lines 158-161):
those of a 302 answer, empty otherwise. -/
def fscanPreHeaders (w : ScanWorld) (s : FingerScanner) (u : URL) : GoString :=
  if (w.DoRequest (str "GET") u.String s.headers 10 false).2 = false
      ∧ (w.DoRequest (str "GET") u.String s.headers 10 false).1.StatusCode = 302
  then (w.DoRequest (str "GET") u.String s.headers 10 false).1.Headers else []

/-- The observation that `fscan` hands to `Scan` on the path that reaches line 230. -/
def fscanWeb (w : ScanWorld) (s : FingerScanner) (u : URL) : WebInfo :=
  passiveWebInfo w u (w.DoRequest (str "GET") u.String s.headers 10 true).1
    (fscanPreHeaders w s u ++ (w.DoRequest (str "GET") u.String s.headers 10 true).1.Headers
      ++ (str "Set-Cookie: " ++ ShiroScan w u))
    (passiveBody w u (w.DoRequest (str "GET") u.String s.headers 10 true).1)
    (w.FaviconHash u)

/-- The list `fingerprints` of `fscan` after the optional tags of lines 232-238
are appended and before the honeypot checks. -/
def taggedFingerprints (w : ScanWorld) (s : FingerScanner) (u : URL)
    (fingerprints0 : List GoString) : List GoString :=
  if FastjsonScan w u
  then (if s.generateLog4j2 then fingerprints0 ++ [str "Generate-Log4j2"] else fingerprints0)
    ++ [str "Fastjson"]
  else (if s.generateLog4j2 then fingerprints0 ++ [str "Generate-Log4j2"] else fingerprints0)

/-- A world in which the target answers, the Fastjson probe succeeds and the header
check for honeypots is true. -/
def honeypotWorld : ScanWorld :=
  { sampleWorld liveNet [] with
    checkHoneypotWithHeaders := fun _ => true
    FastjsonBody := fun _ => (⟨200, str "fastjson-version 1.2.47", [], [], [], []⟩, false) }

/-- A world in which the target answers and the fingerprint table holds a
signature whose second rule lies outside the shortened expression. -/
def panicWorld : ScanWorld := { sampleWorld liveNet [] with FingerprintDB := shrinkingDB }

/-- A world in which the target answers with a small body that redirects by
JavaScript to a page of 102400 bytes. -/
def redirectWorld : ScanWorld :=
  { sampleWorld liveNet [] with
    GetJSRedirectResponse := fun _ _ => some (List.replicate 102400 97) }

/-- The scanner before the passive pass on the sample target, with
`generate_log4j2` set. -/
def freshScanner : FingerScanner :=
  { urls := [appURL], aliveURLs := [], screenshot := false, thread := 1, deepScan := false,
    rootPath := false, basicURLWithFingerprint := [], headers := [], generateLog4j2 := true }


/-! ## Thread-safe nuclei driver (`callnuclei.go`, lines 81-159) -/

/-- The width of the sized wait group, `syncutil.WithSize(5)` (line 89). -/
def sgSize : Nat := 5

/-- The sized wait group `sg` and the workers of `NewThreadSafeNucleiEngine`: the
slots held (calls of `sg.Add` not yet matched by `sg.Done`), the workers started
whose deferred `sg.Done` has not run yet, and the targets handed to a worker.
The wait group is the one of the library `projectdiscovery/utils/sync`: `Add`
takes one of `sgSize` slots and waits while none is free, `Done` gives one back,
`Wait` returns once every slot taken has been given back. -/
structure SyncState where
  held : Nat
  running : Nat
  started : List NucleiOption
deriving DecidableEq

/-- What happens outside `NewThreadSafeNucleiEngine`: whether the engine or the
wait group cannot be built, whether the control context is cancelled when target
`i` is reached, and how many running workers end before target `i` is reached. -/
structure ThreadSafeWorld where
  engineErr : Bool
  syncErr : Bool
  cancelled : Nat → Bool
  finished : Nat → Nat

/-- The end of `n` running workers (at most all of them): each runs its deferred
`sg.Done` (line 136) once. -/
def workersFinish (n : Nat) (st : SyncState) : SyncState :=
  { st with held := st.held - min n st.running, running := st.running - min n st.running }

/-- The call `sg.Add()` (line 123): it takes a slot when one is free; when all
`sgSize` slots are held it waits until a running worker ends and takes that slot;
with no worker running it waits for ever, which is `none`. -/
def sgAdd (st : SyncState) : Option SyncState :=
  if st.held < sgSize then some { st with held := st.held + 1 }
  else if st.running > 0 then some { st with running := st.running - 1 }
  else none

/-- The two skip tests of the submit loop (lines 126 and 130). -/
def threadSafeSkipped (option : NucleiOption) : Bool :=
  (option.SkipNucleiWithoutTags && option.Tags.length = 0)
    || (!HasPrefix option.URL (str "http") && option.Tags.length = 0)

/-- The submit loop of `NewThreadSafeNucleiEngine` (lines 118-156) from index `i`
on. A skipped target leaves the loop turn by `continue` after `sg.Add()`; another
target starts a worker. `none` is a loop that waits for ever in `sg.Add()`. -/
def threadSafeLoop (w : ThreadSafeWorld) : Nat → List NucleiOption → SyncState → Option SyncState
  | _, [], st => some st
  | i, option :: rest, st =>
    if w.cancelled i then some st
    else match sgAdd (workersFinish (w.finished i) st) with
      | none => none
      | some st1 =>
        if option.SkipNucleiWithoutTags && option.Tags.length = 0 then
          threadSafeLoop w (i + 1) rest st1
        else if !HasPrefix option.URL (str "http") && option.Tags.length = 0 then
          threadSafeLoop w (i + 1) rest st1
        else
          threadSafeLoop w (i + 1) rest
            { st1 with running := st1.running + 1, started := st1.started ++ [option] }

/-- The function `NewThreadSafeNucleiEngine` (lines 81-159) up to the call of
`sg.Wait()`: the state of the wait group and the workers at that point. -/
def NewThreadSafeNucleiEngine (w : ThreadSafeWorld) (allOptions : List NucleiOption) :
    Option SyncState :=
  if w.engineErr then some ⟨0, 0, []⟩
  else if w.syncErr then some ⟨0, 0, []⟩
  else threadSafeLoop w 0 allOptions ⟨0, 0, []⟩

/-- The state once every started worker has finished. -/
def allWorkersFinished (st : SyncState) : SyncState := workersFinish st.running st

/-- Whether `sg.Wait()` (line 157) returns: every slot taken has been released. -/
def sgWaitReturns (st : SyncState) : Bool := decide ((allWorkersFinished st).held = 0)

/-- A session of the thread-safe driver in which nothing fails or is cancelled and
no worker ends before the loop is over. -/
def slowWorkers : ThreadSafeWorld :=
  { engineErr := false, syncErr := false, cancelled := fun _ => false, finished := fun _ => 0 }

/-- A session of the thread-safe driver in which every worker ends before the next
target is reached. -/
def fastWorkers : ThreadSafeWorld :=
  { engineErr := false, syncErr := false, cancelled := fun _ => false, finished := fun _ => 5 }

/-- An active entry with two signatures of different products; only the second
matches the sample response. -/
def mixedTask : ActiveFingerDetect :=
  { URL := appURL, Path := str "/x",
    Fpe := [ ⟨str "Tomcat", str "a", [⟨str "body", 0, str "tomcat", 0, 1⟩]⟩,
             ⟨str "nginx", str "a", [⟨str "server", 0, str "nginx", 0, 1⟩]⟩ ] }

/-- The signature `twoRuleFinger` with its two rules in the other order. -/
def twoRuleFingerSwapped : FingerPEntity :=
  { ProductName := str "nginx", AllString := str "a&&b",
    Rule := [⟨str "port", 0, str "80", 3, 4⟩, ⟨str "server", 0, str "nginx", 0, 1⟩] }

/-! ## Passive pass: the workers of the pool (`infoscan.go`, lines 226-290) -/

/-- Whether `fscan` gets past its two early returns on `u` (lines 164-170 and
175-186) and so reaches the append of line 228. -/
def fscanReaches (w : ScanWorld) (s : FingerScanner) (u : URL) : Bool :=
  decide ((w.DoRequest (str "GET") u.String s.headers 10 false).1.StatusCode ≠ 422) &&
    !decide ((w.DoRequest (str "GET") u.String s.headers 10 true).2 = true
      ∧ (fscanPreHeaders w s u).length = 0)

/-- Where the worker of a passive task stands: not started; between the read and
the write of `s.aliveURLs` in the statement `s.aliveURLs = append(s.aliveURLs, u)`
of line 228, holding the slice it has read; past line 228; finished. -/
inductive WorkerPhase where
  | waiting
  | holding (snapshot : List URL)
  | appended
  | done
deriving DecidableEq

/-- What the workers of the passive pass share: the slice `s.aliveURLs`, which
line 228 reads and writes outside the mutex, the map, which lines 253-255 update
under the mutex, the events put on `retChan`, and where each task stands. -/
structure PassiveState where
  aliveURLs : List URL
  basicURLWithFingerprint : GoMap (List GoString)
  emitted : List InfoResult
  phases : Nat → WorkerPhase

/-- Whether task `i` can have been handed to a worker (lines 273 and 282-288): the
tasks are invoked in the order of `s.urls` and `Invoke` waits while all `s.thread`
workers of the pool are busy, so fewer than `s.thread` of the earlier tasks are
unfinished. A pool size that is not positive is taken as no bound. -/
def canStart (s : FingerScanner) (st : PassiveState) (i : Nat) : Bool :=
  decide (s.thread ≤ 0) ||
    decide ((((List.range i).filter
      (fun j => decide (st.phases j ≠ WorkerPhase.done))).length : Int) < s.thread)

/-- One step of the worker of task `i` on the shared state. A task that can start
runs `fscan` up to line 228: on an early return it puts its event on `retChan` and
is finished, otherwise it reads `s.aliveURLs`. The next step writes the slice read,
with the target appended, back to `s.aliveURLs`. The last step is the rest of
`fscan` (lines 230-271, the end of `fscanAlive`): the match, the update of the map
under the mutex and the event. Steps of other tasks can come between these; the
read and the write of the slice are each taken as one step. -/
def passiveStep (w : ScanWorld) (s : FingerScanner) (st : PassiveState) (i : Nat) :
    PassiveState :=
  match s.urls[i]? with
  | none => st
  | some u =>
    match st.phases i with
    | WorkerPhase.waiting =>
      if canStart s st i then
        if fscanReaches w s u then
          { st with phases := fun j => if j = i then WorkerPhase.holding st.aliveURLs else st.phases j }
        else
          { st with emitted := st.emitted ++ (fscan w s u).2, phases := fun j => if j = i then WorkerPhase.done else st.phases j }
      else st
    | WorkerPhase.holding snapshot =>
      { st with aliveURLs := snapshot ++ [u], phases := fun j => if j = i then WorkerPhase.appended else st.phases j }
    | WorkerPhase.appended =>
      let r := fscanAlive w { s with basicURLWithFingerprint := st.basicURLWithFingerprint } u
        (fscanWeb w s u)
        (w.GetTitle (passiveBody w u (w.DoRequest (str "GET") u.String s.headers 10 true).1))
      { st with basicURLWithFingerprint := r.1.basicURLWithFingerprint, emitted := st.emitted ++ r.2, phases := fun j => if j = i then WorkerPhase.done else st.phases j }
    | WorkerPhase.done => st

/-- The call `wg.Wait()` of line 289: every task runs to its end, here in the
order of `s.urls`. -/
def passiveDrain (w : ScanWorld) (s : FingerScanner) (st : PassiveState) : PassiveState :=
  (List.range s.urls.length).foldl
    (fun st i => passiveStep w s (passiveStep w s (passiveStep w s st i) i) i) st

/-- The shared state when `FingerScan` starts. -/
def passiveStart (s : FingerScanner) : PassiveState :=
  ⟨s.aliveURLs, s.basicURLWithFingerprint, [], fun _ => WorkerPhase.waiting⟩

/-- The method `FingerScan` (lines 135-293) with no cancellation: the workers of
the pool take their steps in the order `schedule` gives (a list of task indexes,
one entry per step; a step that cannot be taken is passed over), then every task
is run to its end. The result is the scanner after the pass and the events. -/
def FingerScan (w : ScanWorld) (s : FingerScanner) (schedule : List Nat) :
    FingerScanner × List InfoResult :=
  let st := passiveDrain w s (schedule.foldl (passiveStep w s) (passiveStart s))
  ({ s with aliveURLs := st.aliveURLs, basicURLWithFingerprint := st.basicURLWithFingerprint },
    st.emitted)

/-- The targets of `s.urls` that the passive pass finds alive. -/
def foundAlive (w : ScanWorld) (s : FingerScanner) : List URL :=
  s.urls.filter (fun u => fscanReaches w s u)

/-- What every step of a passive worker keeps: the keys of the map are those it
had at the start or strings of targets found alive, and the elements of
`s.aliveURLs` and of every slice a worker holds are those of the start or targets
found alive; a task at or past line 228 is a target found alive. -/
def passiveInv (w : ScanWorld) (s : FingerScanner) (st : PassiveState) : Prop :=
  (∀ k ∈ mapKeys st.basicURLWithFingerprint,
    k ∈ mapKeys s.basicURLWithFingerprint ∨ k ∈ (foundAlive w s).map URL.String) ∧
  (∀ x ∈ st.aliveURLs, x ∈ s.aliveURLs ∨ x ∈ foundAlive w s) ∧
  (∀ i, (st.phases i = WorkerPhase.appended ∨ ∃ snap, st.phases i = WorkerPhase.holding snap) →
    ∃ u, s.urls[i]? = some u ∧ fscanReaches w s u = true) ∧
  (∀ i snap, st.phases i = WorkerPhase.holding snap →
    ∀ x ∈ snap, x ∈ s.aliveURLs ∨ x ∈ foundAlive w s)

/-- What the steps keep when the pool has one worker: the tasks before `i` are
finished, those after `i` have not started, a slice held by task `i` is the
current `s.aliveURLs`, and every target found alive whose task is past line 228
is in `s.aliveURLs`. -/
def singleWorkerInv (w : ScanWorld) (s : FingerScanner) (st : PassiveState) (i : Nat) : Prop :=
  (∀ j, j < i → st.phases j = WorkerPhase.done) ∧
  (∀ j, i < j → st.phases j = WorkerPhase.waiting) ∧
  (∀ snap, st.phases i = WorkerPhase.holding snap → snap = st.aliveURLs) ∧
  (∀ j u, (j < i ∨ (j = i ∧ (st.phases i = WorkerPhase.appended ∨ st.phases i = WorkerPhase.done))) →
    s.urls[j]? = some u → fscanReaches w s u = true → u ∈ st.aliveURLs)

/-- A second sample target, `http://b.com`. -/
def siteURL : URL := ⟨str "http", str "b.com", []⟩

/-- A scanner with two targets and a pool of two workers. -/
def twoWorkerScanner : FingerScanner :=
  { urls := [appURL, siteURL], aliveURLs := [], screenshot := false, thread := 2,
    deepScan := true, rootPath := false, basicURLWithFingerprint := [], headers := [],
    generateLog4j2 := false }

/-- How far a task has come: 0 not started, 3 finished. -/
def phaseRank : WorkerPhase → Nat
  | WorkerPhase.waiting => 0
  | WorkerPhase.holding _ => 1
  | WorkerPhase.appended => 2
  | WorkerPhase.done => 3

/-! ## Rule evaluator: facts about `Scan` -/

theorem mem_RemoveDuplicates (p : GoString) (l : List GoString) :
    p ∈ RemoveDuplicates l ↔ p ∈ l := by
  induction l with
  | nil => simp [RemoveDuplicates]
  | cons x xs ih =>
    simp only [RemoveDuplicates, List.mem_cons, List.mem_filter, ih]
    by_cases h : p = x <;> simp [h]

theorem truthChar_length (b : Bool) : (truthChar b).length = 1 := by
  cases b <;> rfl

theorem replaceRange_eq_some (expr : GoString) (r : RuleData) (c : GoString)
    (h : 0 ≤ r.Start ∧ r.Start ≤ (expr.length : Int) ∧ 0 ≤ r.End ∧ r.End ≤ (expr.length : Int)) :
    replaceRange expr r c = some (expr.take r.Start.toNat ++ c ++ expr.drop r.End.toNat) := by
  obtain ⟨h1, h2, h3, h4⟩ := h
  simp [replaceRange, sliceTo, sliceFrom, h1, h2, h3, h4]

theorem substRules_isSome_of_rangesFit (ext : Externals) (web : WebInfo) (rules : List RuleData) :
    ∀ expr : GoString, rangesFit expr.length rules = true →
      ∃ e, substRules ext web expr rules = some e := by
  induction rules with
  | nil => intro expr _; exact ⟨expr, rfl⟩
  | cons r rest ih =>
    intro expr h
    simp only [rangesFit, Bool.and_eq_true, decide_eq_true_eq] at h
    obtain ⟨hr, hrest⟩ := h
    have hrep := replaceRange_eq_some expr r (truthChar (ruleResult ext web r)) hr
    simp only [substRules, hrep]
    apply ih
    have hlen : (expr.take r.Start.toNat ++ truthChar (ruleResult ext web r)
        ++ expr.drop r.End.toNat).length = r.Start.toNat + 1 + (expr.length - r.End.toNat) := by
      simp only [List.length_append, List.length_take, List.length_drop, truthChar_length]
      omega
    rw [hlen]; exact hrest

/-- What the code does for ranges of any width: each rule in turn replaces its
range of the current expression by one truth character, so the expression handed
to the evaluator is shorter than `all_string` by `End - Start - 1` bytes per rule. -/
theorem substRules_length (ext : Externals) (web : WebInfo) (rules : List RuleData) :
    ∀ expr : GoString, rangesFit expr.length rules = true →
      ∃ e, substRules ext web expr rules = some e ∧
        (e.length : Int)
          = (expr.length : Int) - (rules.map (fun r => r.End - r.Start - 1)).sum := by
  induction rules with
  | nil => intro expr _; exact ⟨expr, rfl, by simp⟩
  | cons r rest ih =>
    intro expr h
    simp only [rangesFit, Bool.and_eq_true, decide_eq_true_eq] at h
    obtain ⟨hr, hrest⟩ := h
    have hrep := replaceRange_eq_some expr r (truthChar (ruleResult ext web r)) hr
    have hlen : (expr.take r.Start.toNat ++ truthChar (ruleResult ext web r)
        ++ expr.drop r.End.toNat).length = r.Start.toNat + 1 + (expr.length - r.End.toNat) := by
      simp only [List.length_append, List.length_take, List.length_drop, truthChar_length]
      omega
    obtain ⟨e, he, hel⟩ := ih _ (by rw [hlen]; exact hrest)
    refine ⟨e, by simp only [substRules, hrep, he], ?_⟩
    rw [hel, hlen, List.map_cons, List.sum_cons]
    omega

theorem scanLoop_spec (ext : Externals) (web : WebInfo) (db : List FingerPEntity) :
    ∀ acc : List GoString,
      (∀ f ∈ db, rangesFit f.AllString.length f.Rule = true) →
      ∃ res, scanLoop ext web db acc = some res ∧
        ∀ p, p ∈ res ↔ p ∈ acc ∨ ∃ f ∈ db, f.ProductName = p ∧
          ∃ e, substRules ext web f.AllString f.Rule = some e ∧ ext.boolEval e = some true := by
  induction db with
  | nil => intro acc _; exact ⟨acc, rfl, by simp⟩
  | cons f rest ih =>
    intro acc h
    obtain ⟨e, he⟩ := substRules_isSome_of_rangesFit ext web f.Rule f.AllString
      (h f (List.mem_cons_self _ _))
    have hrest : ∀ g ∈ rest, rangesFit g.AllString.length g.Rule = true :=
      fun g hg => h g (List.mem_cons_of_mem _ hg)
    simp only [scanLoop, he]
    cases hb : ext.boolEval e with
    | none =>
      obtain ⟨res, hres, hmem⟩ := ih acc hrest
      refine ⟨res, hres, fun p => ?_⟩
      rw [hmem p]
      constructor
      · rintro (h1 | ⟨g, hg, h2⟩)
        · exact Or.inl h1
        · exact Or.inr ⟨g, List.mem_cons_of_mem _ hg, h2⟩
      · rintro (h1 | ⟨g, hg, hn, e1, h2, h3⟩)
        · exact Or.inl h1
        · rcases List.mem_cons.1 hg with rfl | hg
          · rw [he] at h2; cases h2; rw [hb] at h3; cases h3
          · exact Or.inr ⟨g, hg, hn, e1, h2, h3⟩
    | some r =>
      obtain ⟨res, hres, hmem⟩ := ih (if r then acc ++ [f.ProductName] else acc) hrest
      refine ⟨res, hres, fun p => ?_⟩
      rw [hmem p]
      constructor
      · rintro (h1 | ⟨g, hg, h2⟩)
        · cases r with
          | false => exact Or.inl (by simpa using h1)
          | true =>
            have h1 : p ∈ acc ∨ p = f.ProductName := by simpa using h1
            rcases h1 with h1 | h1
            · exact Or.inl h1
            · exact Or.inr ⟨f, List.mem_cons_self _ _, h1.symm, e, he, hb⟩
        · exact Or.inr ⟨g, List.mem_cons_of_mem _ hg, h2⟩
      · rintro (h1 | ⟨g, hg, hn, e1, h2, h3⟩)
        · cases r <;> simp [h1]
        · rcases List.mem_cons.1 hg with rfl | hg
          · rw [he] at h2; cases h2; rw [hb] at h3; cases h3
            left; simp [hn]
          · exact Or.inr ⟨g, hg, hn, e1, h2, h3⟩

/-- Claim C1, amended. When each rule's range lies inside the expression as it
stands when the rule is reached, `Scan` returns, and a product name is in its
result exactly when the database holds a signature of that name whose substituted
expression `boolEval` evaluates to true without error. A signature whose
expression fails to evaluate adds nothing and does not stop the later ones. -/
theorem Scan_mem_iff (ext : Externals) (web : WebInfo) (db : List FingerPEntity)
    (h : ∀ f ∈ db, rangesFit f.AllString.length f.Rule = true) :
    ∃ res, Scan ext web db = some res ∧
      ∀ p, p ∈ res ↔ ∃ f ∈ db, f.ProductName = p ∧
        ∃ e, substRules ext web f.AllString f.Rule = some e ∧ ext.boolEval e = some true := by
  obtain ⟨res, hres, hmem⟩ := scanLoop_spec ext web db [] h
  refine ⟨RemoveDuplicates res, by simp [Scan, hres], fun p => ?_⟩
  rw [mem_RemoveDuplicates, hmem p]
  simp

/-- Witness of C1: the sample database satisfies the hypothesis. -/
theorem Scan_mem_iff_witness :
    (∀ f ∈ nginxDB, rangesFit f.AllString.length f.Rule = true) ∧
    ∃ res, Scan sampleExternals sampleWeb nginxDB = some res ∧
      ∀ p, p ∈ res ↔ ∃ f ∈ nginxDB, f.ProductName = p ∧
        ∃ e, substRules sampleExternals sampleWeb f.AllString f.Rule = some e ∧
          sampleExternals.boolEval e = some true :=
  ⟨by decide, Scan_mem_iff sampleExternals sampleWeb nginxDB (by decide)⟩

/-- Counterexample to C1 as stated: every rule range of the database lies inside
its `all_string` and the second signature evaluates to true, yet `Scan` has no
result, because the second rule of the first signature slices the shortened
expression out of range. -/
theorem Scan_panics_with_ranges_inside_all_string :
    (∀ f ∈ shrinkingDB, ∀ r ∈ f.Rule,
      0 ≤ r.Start ∧ r.Start ≤ r.End ∧ r.End ≤ (f.AllString.length : Int)) ∧
    (∃ f ∈ shrinkingDB, f.ProductName = str "B" ∧
      (substRules sampleExternals sampleWeb f.AllString f.Rule).bind sampleExternals.boolEval
        = some true) ∧
    Scan sampleExternals sampleWeb shrinkingDB = none := by
  decide

theorem take_one_drop_of_getElem {α : Type} (l : List α) (n : Nat) (c : α)
    (h : l[n]? = some c) : (l.drop n).take 1 = [c] := by
  induction l generalizing n with
  | nil => simp at h
  | cons x xs ih =>
    cases n with
    | zero => simp at h; simp [h]
    | succ m => simp at h; simpa using ih m h

theorem replaceRange_width_one (expr : GoString) (r : RuleData) (c : UInt8)
    (h0 : 0 ≤ r.Start) (h1 : r.End = r.Start + 1) (h2 : r.End ≤ (expr.length : Int)) :
    replaceRange expr r [c] = some (expr.set r.Start.toNat c) := by
  have hlt : r.Start.toNat < expr.length := by omega
  rw [replaceRange_eq_some expr r [c] ⟨h0, by omega, by omega, h2⟩,
    List.set_eq_take_cons_drop c hlt]
  have : r.End.toNat = r.Start.toNat + 1 := by omega
  simp [this]

theorem substRules_width_one_aux (ext : Externals) (web : WebInfo) (rules : List RuleData) :
    ∀ expr : GoString,
      (∀ r ∈ rules, 0 ≤ r.Start ∧ r.End = r.Start + 1 ∧ r.End ≤ (expr.length : Int)) →
      rules.Pairwise (fun a b => a.Start ≠ b.Start) →
      ∃ e, substRules ext web expr rules = some e ∧ e.length = expr.length ∧
        (∀ i : Nat, (∀ r ∈ rules, (i : Int) ≠ r.Start) → e[i]? = expr[i]?) ∧
        (∀ r ∈ rules,
          (e.drop r.Start.toNat).take 1 = truthChar (ruleResult ext web r)) := by
  induction rules with
  | nil => intro expr _ _; exact ⟨expr, rfl, rfl, fun _ _ => rfl, by simp⟩
  | cons r rest ih =>
    intro expr hb hd
    obtain ⟨h0, h1, h2⟩ := hb r (List.mem_cons_self _ _)
    obtain ⟨c, hc⟩ := List.length_eq_one.1 (truthChar_length (ruleResult ext web r))
    have hlt : r.Start.toNat < expr.length := by omega
    obtain ⟨hdr, hdrest⟩ := List.pairwise_cons.1 hd
    obtain ⟨e, he, hlen, hout, hin⟩ := ih (expr.set r.Start.toNat c)
      (fun q hq => by
        obtain ⟨q0, q1, q2⟩ := hb q (List.mem_cons_of_mem _ hq)
        exact ⟨q0, q1, by simpa using q2⟩) hdrest
    refine ⟨e, ?_, ?_, ?_, ?_⟩
    · simp only [substRules, hc, replaceRange_width_one expr r c h0 h1 h2, he]
    · simpa using hlen
    · intro i hi
      rw [hout i (fun q hq => hi q (List.mem_cons_of_mem _ hq))]
      apply List.getElem?_set_ne
      have := hi r (List.mem_cons_self _ _)
      omega
    · intro q hq
      rcases List.mem_cons.1 hq with rfl | hq
      · rw [hc]
        apply take_one_drop_of_getElem
        rw [hout q.Start.toNat (fun p hp => by
          have := hdr p hp
          have : ((q.Start.toNat : Nat) : Int) = q.Start := Int.toNat_of_nonneg h0
          omega)]
        exact List.getElem?_set_eq_of_lt c hlt
      · exact hin q hq

/-- Claim C2, amended. For every signature whose rules have in-bounds ranges of
width one, `[start, start + 1)`, with pairwise distinct starts, the expression
that `Scan` passes to the evaluator has the length of `all_string`, equals
`all_string` at every byte outside the ranges, and holds at each rule's start the
rule's truth character. -/
theorem substRules_width_one (ext : Externals) (web : WebInfo) (finger : FingerPEntity)
    (hb : ∀ r ∈ finger.Rule,
      0 ≤ r.Start ∧ r.End = r.Start + 1 ∧ r.End ≤ (finger.AllString.length : Int))
    (hd : finger.Rule.Pairwise (fun a b => a.Start ≠ b.Start)) :
    ∃ e, substRules ext web finger.AllString finger.Rule = some e ∧
      e.length = finger.AllString.length ∧
      (∀ i : Nat, (∀ r ∈ finger.Rule, (i : Int) ≠ r.Start) → e[i]? = finger.AllString[i]?) ∧
      (∀ r ∈ finger.Rule,
        (e.drop r.Start.toNat).take (r.End - r.Start).toNat
          = truthChar (ruleResult ext web r)) := by
  obtain ⟨e, he, hlen, hout, hin⟩ :=
    substRules_width_one_aux ext web finger.Rule finger.AllString hb hd
  refine ⟨e, he, hlen, hout, fun r hr => ?_⟩
  obtain ⟨_, h1, _⟩ := hb r hr
  have : (r.End - r.Start).toNat = 1 := by omega
  rw [this]; exact hin r hr

/-- Witness of C2: a signature with two rules of width one. -/
theorem substRules_width_one_witness :
    (∀ r ∈ twoRuleFinger.Rule,
      0 ≤ r.Start ∧ r.End = r.Start + 1 ∧ r.End ≤ (twoRuleFinger.AllString.length : Int)) ∧
    twoRuleFinger.Rule.Pairwise (fun a b => a.Start ≠ b.Start) ∧
    ∃ e, substRules sampleExternals sampleWeb twoRuleFinger.AllString twoRuleFinger.Rule = some e ∧
      e.length = twoRuleFinger.AllString.length ∧
      (∀ i : Nat, (∀ r ∈ twoRuleFinger.Rule, (i : Int) ≠ r.Start) →
        e[i]? = twoRuleFinger.AllString[i]?) ∧
      (∀ r ∈ twoRuleFinger.Rule,
        (e.drop r.Start.toNat).take (r.End - r.Start).toNat
          = truthChar (ruleResult sampleExternals sampleWeb r)) :=
  ⟨by decide, by decide,
    substRules_width_one sampleExternals sampleWeb twoRuleFinger (by decide) (by decide)⟩

/-- Counterexample to C2 as stated: the single rule `[0, 3)` is in bounds, yet the
expression handed to the evaluator is the one byte `T`, not three bytes. -/
theorem substRules_wide_range_shrinks :
    (∀ r ∈ wideFinger.Rule,
      0 ≤ r.Start ∧ r.Start ≤ r.End ∧ r.End ≤ (wideFinger.AllString.length : Int)) ∧
    substRules sampleExternals sampleWeb wideFinger.AllString wideFinger.Rule
      = some (str "T") ∧
    (str "T").length ≠ wideFinger.AllString.length := by
  decide

/-- Claim C3. A rule whose key is `port`, `status` or `icon_hash` and whose value
does not parse as an integer, and a rule of key `icon_hash` when the observed
icon hash does not parse, has the truth value false whatever its op, so `Scan`
replaces its placeholder by `F`. -/
theorem numeric_parse_failure_writes_F (ext : Externals) (web : WebInfo) (rule : RuleData)
    (expr : GoString) (rest : List RuleData)
    (h : ((rule.Key = str "port" ∨ rule.Key = str "status" ∨ rule.Key = str "icon_hash")
            ∧ ext.Atoi rule.Value = none)
          ∨ (rule.Key = str "icon_hash" ∧ ext.Atoi web.IconHash = none)) :
    ruleResult ext web rule = false ∧
    substRules ext web expr (rule :: rest)
      = (replaceRange expr rule (str "F")).bind (fun e => substRules ext web e rest) := by
  have hr : ruleResult ext web rule = false := by
    rcases h with ⟨hk | hk | hk, hv⟩ | ⟨hk, hv⟩
    · simp +decide [ruleResult, hk, hv]
    · simp +decide [ruleResult, hk, hv]
    · simp +decide [ruleResult, hk, hv]
    · simp +decide only [ruleResult, hk, hv, if_false, if_true]
      cases ext.Atoi rule.Value <;> rfl
  refine ⟨hr, ?_⟩
  have ht : truthChar false = str "F" := rfl
  simp only [substRules, hr, ht]
  cases replaceRange expr rule (str "F") <;> rfl

/-- Witness of C3: an `icon_hash` rule with op 1 against the empty icon hash left
by a failed favicon fetch. -/
theorem numeric_parse_failure_writes_F_witness :
    sampleExternals.Atoi sampleWeb.IconHash = none ∧
    ruleResult sampleExternals sampleWeb ⟨str "icon_hash", 1, str "-305179312", 0, 1⟩ = false ∧
    substRules sampleExternals sampleWeb (str "a") [⟨str "icon_hash", 1, str "-305179312", 0, 1⟩]
      = (replaceRange (str "a") ⟨str "icon_hash", 1, str "-305179312", 0, 1⟩ (str "F")).bind
          (fun e => substRules sampleExternals sampleWeb e []) :=
  ⟨by decide,
    numeric_parse_failure_writes_F sampleExternals sampleWeb
      ⟨str "icon_hash", 1, str "-305179312", 0, 1⟩ (str "a") [] (Or.inr ⟨by decide, by decide⟩)⟩

/-- Sample evaluations of the integer parser and of numeric atoms: a value that is
not a number makes the atom false for op 1 as well. -/
theorem strconvAtoi_examples :
    strconvAtoi (str "-305179312") = some (-305179312) ∧
    strconvAtoi (str "12a") = none ∧
    strconvAtoi (str "") = none ∧
    strconvAtoi (str "+") = none ∧
    ruleResult sampleExternals sampleWeb ⟨str "port", 1, str "8o", 0, 1⟩ = false ∧
    ruleResult sampleExternals sampleWeb ⟨str "port", 1, str "81", 0, 1⟩ = true ∧
    Scan sampleExternals sampleWeb nginxDB = some [str "nginx"] := by
  decide

/-! ## Favicon hash: facts about `base64Encode` and `Mmh3Hash32` -/

theorem encodeAt_ne_newline (val : Nat) : encodeAt val ≠ 10 := by
  have h : ∀ n : Fin 64, encodeStd.getD n.val 0 ≠ 10 := by decide
  exact h ⟨val % 64, Nat.mod_lt _ (by decide)⟩

theorem EncodeToString_ne_newline : ∀ (b : GoString), ∀ x ∈ EncodeToString b, x ≠ 10
  | [] => by simp [EncodeToString]
  | [a] => by
    intro x hx
    simp only [EncodeToString, List.mem_cons, List.mem_singleton, List.not_mem_nil,
      or_false] at hx
    rcases hx with rfl | rfl | rfl | rfl
    · exact encodeAt_ne_newline _
    · exact encodeAt_ne_newline _
    · decide
    · decide
  | [a, b] => by
    intro x hx
    simp only [EncodeToString, List.mem_cons, List.mem_singleton, List.not_mem_nil,
      or_false] at hx
    rcases hx with rfl | rfl | rfl | rfl
    · exact encodeAt_ne_newline _
    · exact encodeAt_ne_newline _
    · exact encodeAt_ne_newline _
    · decide
  | a :: b :: c :: rest => by
    intro x hx
    simp only [EncodeToString, List.cons_append, List.nil_append, List.mem_cons] at hx
    rcases hx with rfl | rfl | rfl | rfl | hx
    · exact encodeAt_ne_newline _
    · exact encodeAt_ne_newline _
    · exact encodeAt_ne_newline _
    · exact encodeAt_ne_newline _
    · exact EncodeToString_ne_newline rest x hx

theorem base64EncodeLoop_buffer (s : GoString) :
    ∀ (i : Nat) (buffer : GoString),
      base64EncodeLoop s i buffer = buffer ++ base64EncodeLoop s i [] := by
  induction s with
  | nil => intro i buffer; simp [base64EncodeLoop]
  | cons ch rest ih =>
    intro i buffer
    simp only [base64EncodeLoop]
    rw [ih (i + 1) (if (i + 1) % 76 = 0 then buffer ++ [ch] ++ [10] else buffer ++ [ch]),
      ih (i + 1) (if (i + 1) % 76 = 0 then [] ++ [ch] ++ [10] else [] ++ [ch])]
    split <;> simp

theorem base64EncodeLoop_cons (ch : UInt8) (rest : GoString) (i : Nat) :
    base64EncodeLoop (ch :: rest) i []
      = (if (i + 1) % 76 = 0 then [ch, 10] else [ch]) ++ base64EncodeLoop rest (i + 1) [] := by
  simp only [base64EncodeLoop]
  rw [base64EncodeLoop_buffer]
  split <;> simp

theorem base64EncodeLoop_filter (s : GoString) (hs : ∀ x ∈ s, x ≠ 10) :
    ∀ i : Nat, (base64EncodeLoop s i []).filter (fun x => x ≠ 10) = s := by
  induction s with
  | nil => intro i; simp [base64EncodeLoop]
  | cons ch rest ih =>
    intro i
    have hch : ch ≠ 10 := hs ch (List.mem_cons_self _ _)
    rw [base64EncodeLoop_cons, List.filter_append,
      ih (fun x hx => hs x (List.mem_cons_of_mem _ hx))]
    split <;> simp [hch]

theorem base64EncodeLoop_length (s : GoString) :
    ∀ i : Nat, (base64EncodeLoop s i []).length = s.length + ((i + s.length) / 76 - i / 76) := by
  induction s with
  | nil => intro i; simp [base64EncodeLoop]
  | cons ch rest ih =>
    intro i
    rw [base64EncodeLoop_cons, List.length_append, ih]
    split <;> simp only [List.length_cons, List.length_nil] <;> omega

theorem base64EncodeLoop_getElem (s : GoString) :
    ∀ (i j : Nat), j < s.length →
      (base64EncodeLoop s i [])[j + ((i + j) / 76 - i / 76)]? = s[j]? := by
  induction s with
  | nil => intro i j hj; simp at hj
  | cons ch rest ih =>
    intro i j hj
    rw [base64EncodeLoop_cons]
    cases j with
    | zero => split <;> simp
    | succ k =>
      have hk : k < rest.length := by simpa using hj
      have := ih (i + 1) k hk
      split
      · rename_i h76
        have e : k + 1 + ((i + (k + 1)) / 76 - i / 76)
            = (k + ((i + 1 + k) / 76 - (i + 1) / 76)) + 2 := by omega
        rw [e, List.getElem?_append_right (by simp)]
        simpa using this
      · rename_i h76
        have e : k + 1 + ((i + (k + 1)) / 76 - i / 76)
            = (k + ((i + 1 + k) / 76 - (i + 1) / 76)) + 1 := by omega
        rw [e, List.getElem?_append_right (by simp)]
        simpa using this

/-- Claim C4. For every byte string `b`, `base64Encode b` is the padded base64 text
of `b` with a line feed after each 76th character and one more at the end:
deleting the line feeds gives the base64 text back, the output ends with a line
feed, its length is `L + L / 76 + 1`, character `i` of the base64 text stands at
position `i + i / 76`, and `"hello\n"` gives `"aGVsbG8K\n"`. -/
theorem base64Encode_layout :
    (∀ b : GoString,
      (base64Encode b).filter (fun x => x ≠ 10) = EncodeToString b ∧
      (base64Encode b).getLast? = some 10 ∧
      (base64Encode b).length
        = (EncodeToString b).length + (EncodeToString b).length / 76 + 1 ∧
      ∀ i, i < (EncodeToString b).length →
        (base64Encode b)[i + i / 76]? = (EncodeToString b)[i]?) ∧
    EncodeToString (str "hello\n") = str "aGVsbG8K" ∧
    base64Encode (str "hello\n") = str "aGVsbG8K\n" := by
  refine ⟨fun b => ⟨?_, ?_, ?_, ?_⟩, by decide, by decide⟩
  · rw [base64Encode, List.filter_append,
      base64EncodeLoop_filter _ (EncodeToString_ne_newline b) 0]
    simp
  · simp [base64Encode]
  · simp [base64Encode, base64EncodeLoop_length]
  · intro i hi
    have h := base64EncodeLoop_getElem (EncodeToString b) 0 i hi
    have hlen := base64EncodeLoop_length (EncodeToString b) 0
    simp only [Nat.zero_add, Nat.zero_div, Nat.sub_zero] at h hlen
    have hdiv : i / 76 ≤ (EncodeToString b).length / 76 := Nat.div_le_div_right (le_of_lt hi)
    have hlt : i + i / 76 < (base64EncodeLoop (EncodeToString b) 0 []).length := by
      rw [hlen]; omega
    rw [base64Encode, List.getElem?_append_left hlt]
    exact h

theorem EncodeToString_length : ∀ b : GoString,
    (EncodeToString b).length = 4 * ((b.length + 2) / 3)
  | [] => by simp [EncodeToString]
  | [_] => by simp [EncodeToString]
  | [_, _] => by simp [EncodeToString]
  | _ :: _ :: _ :: rest => by
    simp only [EncodeToString, List.cons_append, List.nil_append, List.length_cons,
      EncodeToString_length rest]
    omega

theorem EncodeToString_append : ∀ x y : GoString, x.length % 3 = 0 →
    EncodeToString (x ++ y) = EncodeToString x ++ EncodeToString y
  | [], y, _ => by simp [EncodeToString]
  | [_], _, h => by simp at h
  | [_, _], _, h => by simp at h
  | a :: b :: c :: rest, y, h => by
    have hr : rest.length % 3 = 0 := by
      simp only [List.length_cons] at h
      omega
    show EncodeToString (a :: b :: c :: (rest ++ y))
      = EncodeToString (a :: b :: c :: rest) ++ EncodeToString y
    rw [EncodeToString, EncodeToString, EncodeToString_append rest y hr, List.append_assoc]

theorem base64EncodeLoop_append (s1 s2 : GoString) :
    ∀ i : Nat, base64EncodeLoop (s1 ++ s2) i []
      = base64EncodeLoop s1 i [] ++ base64EncodeLoop s2 (i + s1.length) [] := by
  induction s1 with
  | nil => intro i; simp [base64EncodeLoop]
  | cons ch rest ih =>
    intro i
    rw [List.cons_append, base64EncodeLoop_cons, base64EncodeLoop_cons, ih (i + 1),
      List.append_assoc]
    have e : i + 1 + rest.length = i + (ch :: rest).length := by simp; omega
    rw [e]

theorem base64EncodeLoop_short (s : GoString) :
    ∀ i : Nat, i % 76 + s.length < 76 → base64EncodeLoop s i [] = s := by
  induction s with
  | nil => intro i _; rfl
  | cons ch rest ih =>
    intro i h
    simp only [List.length_cons] at h
    rw [base64EncodeLoop_cons, if_neg (by omega), ih (i + 1) (by omega)]
    rfl

theorem base64EncodeLoop_full (s : GoString) :
    ∀ i : Nat, s ≠ [] → i % 76 + s.length = 76 → base64EncodeLoop s i [] = s ++ [10] := by
  induction s with
  | nil => intro i h _; exact absurd rfl h
  | cons ch rest ih =>
    intro i _ h
    simp only [List.length_cons] at h
    rw [base64EncodeLoop_cons]
    cases rest with
    | nil =>
      simp only [List.length_nil] at h
      rw [if_pos (by omega)]
      rfl
    | cons c2 r2 =>
      simp only [List.length_cons] at h
      rw [if_neg (by omega), ih (i + 1) (by simp) (by simp only [List.length_cons]; omega)]
      rfl

theorem base64EncodeLoop_shift (s : GoString) :
    ∀ i : Nat, base64EncodeLoop s (i + 76) [] = base64EncodeLoop s i [] := by
  induction s with
  | nil => intro i; rfl
  | cons ch rest ih =>
    intro i
    rw [base64EncodeLoop_cons, base64EncodeLoop_cons]
    have e : i + 76 + 1 = (i + 1) + 76 := by omega
    have e2 : (i + 76 + 1) % 76 = (i + 1) % 76 := by omega
    rw [e2, e, ih (i + 1)]

theorem encodebytesChunks_nil (fuel : Nat) : encodebytesChunks fuel [] = [] := by
  cases fuel <;> simp [encodebytesChunks]

theorem base64Encode_chunks (n : Nat) :
    ∀ (b : GoString) (fuel : Nat), b.length ≤ n → b.length ≤ fuel →
      base64EncodeLoop (EncodeToString b) 0 [] ++ [10]
        = encodebytesChunks fuel b
            ++ (if (EncodeToString b).length % 76 = 0 then [10] else []) := by
  induction n with
  | zero =>
    intro b fuel hb _
    have : b = [] := List.length_eq_zero.1 (by omega)
    subst this
    simp [EncodeToString, base64EncodeLoop, encodebytesChunks_nil]
  | succ n ih =>
    intro b fuel hb hf
    by_cases hnil : b = []
    · subst hnil
      simp [EncodeToString, base64EncodeLoop, encodebytesChunks_nil]
    · have hpos : 0 < b.length := List.length_pos.2 hnil
      obtain ⟨f, rfl⟩ : ∃ f, fuel = f + 1 := ⟨fuel - 1, by omega⟩
      have hempty : b.isEmpty = false := by
        cases b with
        | nil => exact absurd rfl hnil
        | cons _ _ => rfl
      simp only [encodebytesChunks, hempty, Bool.false_eq_true, if_false]
      have hL := EncodeToString_length b
      by_cases hshort : b.length ≤ 57
      · rw [List.take_of_length_le hshort, List.drop_eq_nil_of_le hshort,
          encodebytesChunks_nil]
        by_cases h76 : (EncodeToString b).length = 76
        · rw [base64EncodeLoop_full _ 0 (by
            intro h0; rw [h0] at h76; simp at h76) (by omega), h76]
          simp
        · rw [base64EncodeLoop_short _ 0 (by omega), if_neg (by omega)]
          simp
      · have hx : (b.take 57).length = 57 := by
          rw [List.length_take]; omega
        have hy : (b.drop 57).length = b.length - 57 := List.length_drop _ _
        have hLx := EncodeToString_length (b.take 57)
        rw [hx] at hLx
        have hsplit : EncodeToString b
            = EncodeToString (b.take 57) ++ EncodeToString (b.drop 57) := by
          rw [← EncodeToString_append _ _ (by rw [hx]), List.take_append_drop]
        have hrec := ih (b.drop 57) f (by omega) (by omega)
        have hcond : (EncodeToString b).length % 76
            = (EncodeToString (b.drop 57)).length % 76 := by
          rw [hsplit, List.length_append, hLx]
          omega
        rw [hcond]
        rw [hsplit, base64EncodeLoop_append, hLx, Nat.zero_add,
          show (4 * ((57 + 2) / 3)) = 0 + 76 from rfl, base64EncodeLoop_shift,
          base64EncodeLoop_full _ 0 (by
            intro h0
            have := congrArg List.length h0
            rw [EncodeToString_length, hx] at this
            simp at this) (by rw [EncodeToString_length, hx])]
        simp only [List.append_assoc]
        rw [hrec]

/-- The exact relation between `base64Encode` and the reference encoding: they
agree unless the base64 text has a length that is a multiple of 76 (the input
is empty or its length modulo 57 is 0, 55 or 56), where `base64Encode` ends with
one more line feed. -/
theorem base64Encode_eq_encodebytes_append (b : GoString) :
    base64Encode b
      = encodebytes b ++ (if (EncodeToString b).length % 76 = 0 then [10] else []) :=
  base64Encode_chunks b.length b b.length (le_refl _) (le_refl _)

/-- Evaluation for C5. On the empty input and on 57 zero bytes the output of
`base64Encode` is the reference encoding followed by one more line feed, so the
two differ; on `"hello\n"` they agree. -/
theorem base64Encode_differs_from_encodebytes :
    base64Encode [] = [10] ∧ encodebytes [] = [] ∧
    base64Encode (List.replicate 57 0) = encodebytes (List.replicate 57 0) ++ [10] ∧
    base64Encode (List.replicate 57 0) ≠ encodebytes (List.replicate 57 0) ∧
    base64Encode (str "hello\n") = encodebytes (str "hello\n") := by
  decide

/-- Claim C6. For every byte string `b`, `Mmh3Hash32 b` is the decimal text of the
signed 32-bit reading `v` of the unsigned sum `h` of `base64Encode b`:
`-2^31 ≤ v < 2^31`, `v` is congruent to `h` modulo `2^32`, `v = h` when
`h < 2^31` and `v = h - 2^32` otherwise. -/
theorem Mmh3Hash32_signed_decimal (b : GoString) :
    Mmh3Hash32 b = Sprint (int32 (murmur3Sum32 (base64Encode b))) ∧
    murmur3Sum32 (base64Encode b) < 2 ^ 32 ∧
    -2 ^ 31 ≤ int32 (murmur3Sum32 (base64Encode b)) ∧
    int32 (murmur3Sum32 (base64Encode b)) < 2 ^ 31 ∧
    (int32 (murmur3Sum32 (base64Encode b)) - (murmur3Sum32 (base64Encode b) : Int)) % 2 ^ 32 = 0 ∧
    (murmur3Sum32 (base64Encode b) < 2 ^ 31 →
      int32 (murmur3Sum32 (base64Encode b)) = (murmur3Sum32 (base64Encode b) : Int)) ∧
    (2 ^ 31 ≤ murmur3Sum32 (base64Encode b) →
      int32 (murmur3Sum32 (base64Encode b))
        = (murmur3Sum32 (base64Encode b) : Int) - 2 ^ 32) := by
  have hlt : murmur3Sum32 (base64Encode b) < 2 ^ 32 := by
    unfold murmur3Sum32; exact Nat.mod_lt _ (by norm_num)
  have hmod : murmur3Sum32 (base64Encode b) % 2 ^ 32 = murmur3Sum32 (base64Encode b) :=
    Nat.mod_eq_of_lt hlt
  have hM : Mmh3Hash32 b = Sprint (int32 (murmur3Sum32 (base64Encode b))) := by
    simp [Mmh3Hash32, New32, Hash32.Write, Hash32.Sum32]
  have hi : int32 (murmur3Sum32 (base64Encode b))
      = if murmur3Sum32 (base64Encode b) < 2 ^ 31
          then (murmur3Sum32 (base64Encode b) : Int)
          else (murmur3Sum32 (base64Encode b) : Int) - 2 ^ 32 := by
    simp only [int32, hmod]
  refine ⟨hM, hlt, ?_, ?_, ?_, ?_, ?_⟩
  · rw [hi]; split <;> omega
  · rw [hi]; split <;> omega
  · rw [hi]; split <;> omega
  · intro h; rw [hi, if_pos h]
  · intro h; rw [hi, if_neg (by omega)]

/-- Sample values of the hash model: MurmurHash3 on published test vectors, and
the favicon hash of `"hello\n"` (positive) and of the empty body (negative). -/
theorem Mmh3Hash32_examples :
    murmur3Sum32 (str "") = 0 ∧
    murmur3Sum32 (str "hello") = 0x248bfa47 ∧
    murmur3Sum32 (str "Hello, world!") = 0xc0363e43 ∧
    murmur3Sum32 (str "The quick brown fox jumps over the lazy dog") = 0x2e4ff723 ∧
    Mmh3Hash32 (str "hello\n") = str "1821742874" ∧
    Mmh3Hash32 [] = str "-1840324437" := by
  decide

/-- Evaluation for C7. After one failed request the counter of the base URL is 2,
not 1; with sixteen tasks on a dead target, fourteen requests are sent and fail,
the counter is then 15, and the last two tasks are skipped. -/
theorem timeoutCounter_is_failures_plus_one :
    failedRequests (ActiveFingerScan (sampleWorld deadNet (pathsDB 1)) (aliveScanner false))
      appURL.String = 1 ∧
    mapLoad (ActiveFingerScan (sampleWorld deadNet (pathsDB 1)) (aliveScanner false)).timeoutCounter
      appURL.String = some 2 ∧
    failedRequests (ActiveFingerScan (sampleWorld deadNet (pathsDB 16)) (aliveScanner false))
      appURL.String = 14 ∧
    (ActiveFingerScan (sampleWorld deadNet (pathsDB 16)) (aliveScanner false)).requests.length
      = 14 ∧
    mapLoad (ActiveFingerScan (sampleWorld deadNet (pathsDB 16)) (aliveScanner false)).timeoutCounter
      appURL.String = some 15 ∧
    (ActiveFingerScan (sampleWorld deadNet (pathsDB 16)) (aliveScanner false)).id = 16 := by
  decide

/-! ## Active pass: the timeout counter -/

theorem mapLoad_mapStore {α : Type} (m : GoMap α) (k : GoString) (v : α) (x : GoString) :
    mapLoad (mapStore m k v) x = if x = k then some v else mapLoad m x := by
  induction m with
  | nil =>
    simp only [mapStore, mapLoad]
    by_cases h : k = x
    · simp [h]
    · have : ¬ x = k := fun e => h e.symm
      simp [h, this]
  | cons e m ih =>
    obtain ⟨k1, v1⟩ := e
    simp only [mapStore]
    by_cases h1 : k1 = k
    · subst h1
      simp only [if_true, mapLoad]
      by_cases h2 : k1 = x
      · simp [h2]
      · have : ¬ x = k1 := fun e => h2 e.symm
        simp [h2, this]
    · simp only [h1, if_false, mapLoad, ih]
      by_cases h2 : k1 = x
      · have : ¬ x = k := fun e => h1 (h2.trans e)
        simp [h2, this]
      · simp [h2]

theorem mapLoad_countTimeout (m : GoMap Int) (b x : GoString) :
    mapLoad (countTimeout m b) x
      = if x = b then some ((mapLoad m b).getD 1 + 1) else mapLoad m x := by
  unfold countTimeout
  simp only []
  cases hb : mapLoad m b with
  | none =>
    simp only [mapLoad_mapStore, Option.getD_none]
    by_cases h : x = b <;> simp [h]
  | some old =>
    simp only [mapLoad_mapStore, Option.getD_some]

theorem activeMatch_counter (w : ScanWorld) (st : ActiveState) (fp : ActiveFingerDetect)
    (ti : WebInfo) (fullURL title : GoString) :
    (activeMatch w st fp ti fullURL title).timeoutCounter = st.timeoutCounter ∧
    (activeMatch w st fp ti fullURL title).requests = st.requests := by
  unfold activeMatch
  simp only []
  cases Scan w.ext ti fp.Fpe with
  | none => exact ⟨rfl, rfl⟩
  | some result =>
    simp only []
    split
    · cases fp.Fpe with
      | nil => exact ⟨rfl, rfl⟩
      | cons f rest => exact ⟨rfl, rfl⟩
    · exact ⟨rfl, rfl⟩

theorem failedRequests_append (st st1 : ActiveState) (b : GoString) (err : Bool)
    (base : GoString) (h : st1.requests = st.requests ++ [(b, err)]) :
    failedRequests st1 base
      = failedRequests st base + (if b = base ∧ err = true then 1 else 0) := by
  unfold failedRequests
  rw [h, List.filter_append, List.length_append]
  by_cases hc : b = base ∧ err = true
  · simp [hc]
  · rw [if_neg hc]
    simp only [List.filter_cons, List.filter_nil]
    simp [hc]

theorem activeWorker_counterInv (w : ScanWorld) (st : ActiveState) (fp : ActiveFingerDetect)
    (h : counterInv st) : counterInv (activeWorker w st fp) := by
  unfold activeWorker
  simp only []
  split_ifs with h1 h2 h3
  · exact h
  · exact h
  · intro base
    have hf := failedRequests_append st
      { st with visited := st.visited ++ [fp.URL.String ++ fp.Path],
                requests := st.requests ++ [(fp.URL.String, (w.DoRequest (str "GET") (fp.URL.String ++ fp.Path) st.scanner.headers 5 true).2)],
                timeoutCounter := countTimeout st.timeoutCounter fp.URL.String }
      fp.URL.String _ base rfl
    have h0 := h base
    have hb := h fp.URL.String
    rw [hf, h3]
    show mapLoad (countTimeout st.timeoutCounter fp.URL.String) base = _
    rw [mapLoad_countTimeout]
    by_cases hbase : base = fp.URL.String
    · rw [hbase, hb]
      generalize failedRequests st fp.URL.String = n
      cases n with
      | zero => simp
      | succ m =>
        simp only [if_true, Nat.succ_ne_zero, if_false, Option.getD_some, and_self,
          Nat.add_eq_zero, one_ne_zero, and_false]
        push_cast
        rfl
    · have hne : ¬ fp.URL.String = base := fun e => hbase e.symm
      rw [if_neg hbase, h0]
      simp [hne]
  · intro base
    obtain ⟨hc, hr⟩ := activeMatch_counter w
      { st with visited := st.visited ++ [fp.URL.String ++ fp.Path],
                requests := st.requests ++ [(fp.URL.String, (w.DoRequest (str "GET") (fp.URL.String ++ fp.Path) st.scanner.headers 5 true).2)] }
      fp (activeWebInfo w fp (w.DoRequest (str "GET") (fp.URL.String ++ fp.Path) st.scanner.headers 5 true).1)
      (fp.URL.String ++ fp.Path)
      (w.GetTitle (w.DoRequest (str "GET") (fp.URL.String ++ fp.Path) st.scanner.headers 5 true).1.Body)
    have hf := failedRequests_append st _ fp.URL.String _ base hr
    rw [hc, hf]
    have h0 := h base
    have h3f : (w.DoRequest (str "GET") (fp.URL.String ++ fp.Path) st.scanner.headers 5 true).2 = false := by
      simpa using h3
    rw [h3f]
    simpa using h0

theorem submitTask_counterInv (w : ScanWorld) (fpe : List FingerPEntity)
    (acc : ActiveState × URL) (path : GoString) (h : counterInv acc.1) :
    counterInv (submitTask w fpe acc path).1 := by
  unfold submitTask
  simp only []
  split
  · exact h
  · exact activeWorker_counterInv w _ _ h

theorem submitPaths_counterInv (w : ScanWorld) (fpe : List FingerPEntity)
    (paths : List GoString) :
    ∀ acc : ActiveState × URL, counterInv acc.1 →
      counterInv (paths.foldl (submitTask w fpe) acc).1 := by
  induction paths with
  | nil => intro acc h; exact h
  | cons p rest ih => intro acc h; exact ih _ (submitTask_counterInv w fpe acc p h)

theorem submitItems_counterInv (w : ScanWorld) (items : List ActiveFingerprint) :
    ∀ acc : ActiveState × URL, counterInv acc.1 →
      counterInv (items.foldl
        (fun acc item => item.Path.foldl (submitTask w item.Fpe) acc) acc).1 := by
  induction items with
  | nil => intro acc h; exact h
  | cons item rest ih =>
    intro acc h
    exact ih _ (submitPaths_counterInv w item.Fpe item.Path acc h)

theorem submitTargets_counterInv (w : ScanWorld) (targets : List URL) :
    ∀ st : ActiveState, counterInv st → counterInv (targets.foldl (submitTarget w) st) := by
  induction targets with
  | nil => intro st h; exact h
  | cons t rest ih =>
    intro st h
    exact ih _ (submitItems_counterInv w w.ActiveFingerprintDB (st, t) h)

/-- What the code does where C7 speaks of the counter: in every run of the active
pass a base URL has no counter before its first failed request, after `k ≥ 1`
failed requests its counter is `k + 1`, and so its tasks are skipped exactly when
14 or more of its requests have failed. -/
theorem ActiveFingerScan_counter (w : ScanWorld) (s : FingerScanner) (base : GoString) :
    mapLoad (ActiveFingerScan w s).timeoutCounter base
      = (if failedRequests (ActiveFingerScan w s) base = 0 then none
          else some ((failedRequests (ActiveFingerScan w s) base : Int) + 1)) ∧
    (timeoutReached (ActiveFingerScan w s) base = true
      ↔ 14 ≤ failedRequests (ActiveFingerScan w s) base) := by
  have hstart : counterInv (activeStart s) := by
    intro b
    simp [activeStart, failedRequests, mapLoad]
  have hinv : counterInv (ActiveFingerScan w s) := by
    unfold ActiveFingerScan
    split
    · exact hstart
    · exact submitTargets_counterInv w s.aliveURLs _ hstart
  refine ⟨hinv base, ?_⟩
  unfold timeoutReached
  rw [hinv base]
  generalize failedRequests (ActiveFingerScan w s) base = n
  cases n with
  | zero => simp
  | succ m =>
    simp only [Nat.succ_ne_zero, if_false, activeTimeoutLimit, decide_eq_true_eq]
    omega

/-- Evaluation for C8. A skipped target and a target whose execution returns an
error both end the session: the tagged target after them is never attempted. -/
theorem NewNucleiEngine_stops_after_skip_or_error :
    NewNucleiEngine quietNuclei [untaggedOption, taggedOption] = [] ∧
    expectedAttempts [untaggedOption, taggedOption] = [taggedOption] ∧
    NewNucleiEngine quietNuclei [badOption, taggedOption] = [badOption] ∧
    expectedAttempts [badOption, taggedOption] = [badOption, taggedOption] := by
  decide

theorem nucleiLoop_initial_segment (w : NucleiWorld) (l : List NucleiOption) :
    ∀ i : Nat, nucleiLoop w i l <+: l := by
  induction l with
  | nil => intro i; simp [nucleiLoop]
  | cons o rest ih =>
    intro i
    unfold nucleiLoop
    split_ifs
    · exact List.nil_prefix
    · exact List.nil_prefix
    · exact List.nil_prefix
    · exact ⟨rest, rfl⟩
    · exact (List.prefix_cons_inj o).2 (ih (i + 1))

theorem nucleiLoop_all (w : NucleiWorld) (l : List NucleiOption)
    (hc : ∀ i, w.cancelled i = false) (he : ∀ o, w.engineErr o = false)
    (hx : ∀ o ∈ l, w.executeErr o = false)
    (hs : ∀ o ∈ l, ¬ (o.SkipNucleiWithoutTags = true ∧ o.Tags.length = 0)) :
    ∀ i : Nat, nucleiLoop w i l = l := by
  induction l with
  | nil => intro i; simp [nucleiLoop]
  | cons o rest ih =>
    intro i
    have h1 := hs o (List.mem_cons_self _ _)
    have h2 := hx o (List.mem_cons_self _ _)
    unfold nucleiLoop
    rw [ih (fun q hq => hx q (List.mem_cons_of_mem _ hq))
      (fun q hq => hs q (List.mem_cons_of_mem _ hq)) (i + 1)]
    simp [hc i, he o, h2]
    intro h3
    have := h1
    simp [h3] at this
    exact this

/-- What the code does where C8 speaks of the attempted targets: they are always
a prefix of the input list, and the whole list when no target is skipped and no
execution returns an error. -/
theorem NewNucleiEngine_attempts (w : NucleiWorld) (l : List NucleiOption) :
    NewNucleiEngine w l <+: l ∧
    ((∀ i, w.cancelled i = false) → (∀ o, w.engineErr o = false) →
      (∀ o ∈ l, w.executeErr o = false) →
      (∀ o ∈ l, ¬ (o.SkipNucleiWithoutTags = true ∧ o.Tags.length = 0)) →
      NewNucleiEngine w l = l) :=
  ⟨nucleiLoop_initial_segment w l 0, fun hc he hx hs => nucleiLoop_all w l hc he hx hs 0⟩

theorem showResponse_of_response (event : ResultEvent) (h : event.Response ≠ []) :
    showResponse event = event.Response.take maxResponseSize ∧
    (showResponse event).length ≤ maxResponseSize := by
  have h1 : showResponse event = event.Response.take maxResponseSize := by
    simp only [showResponse, h, LimitResponse, ne_eq, not_false_eq_true, if_true,
      List.append_nil]
    split
    · rfl
    · rename_i hlen
      exact (List.take_of_length_le (by omega)).symm
  exact ⟨h1, by rw [h1]; simp⟩

theorem showResponse_of_interaction (event : ResultEvent) (i : Interaction)
    (h : event.Response = []) (hi : event.Interaction = some i) :
    showResponse event = i.RawResponse := by
  simp [showResponse, h, hi]

/-- Evaluation for C10. When the text comes from the interaction, `showResponse`
returns the raw response whole: here 524289 bytes, one more than the limit. -/
theorem showResponse_interaction_not_limited :
    showResponse interactionEvent = List.replicate 524289 97 ∧
    (showResponse interactionEvent).length = 524289 ∧
    maxResponseSize = 524288 := by
  have h : showResponse interactionEvent = List.replicate 524289 97 :=
    showResponse_of_interaction interactionEvent _ rfl rfl
  exact ⟨h, by rw [h, List.length_replicate], by decide⟩

/-! ## Scanner session: the keys of the URL-to-fingerprints map -/

theorem mem_mapKeys_mapStore {α : Type} (m : GoMap α) (k : GoString) (v : α) (x : GoString) :
    x ∈ mapKeys (mapStore m k v) ↔ x = k ∨ x ∈ mapKeys m := by
  induction m with
  | nil => simp [mapStore, mapKeys]
  | cons e m ih =>
    obtain ⟨k1, v1⟩ := e
    simp only [mapStore]
    split
    · rename_i h
      subst h
      simp [mapKeys]
    · simp only [mapKeys, List.map_cons, List.mem_cons] at ih ⊢
      rw [ih]
      tauto

theorem mapKeys_seed_aux (tcp : List (GoString × List GoString)) :
    ∀ (m : GoMap (List GoString)) (k : GoString),
      k ∈ mapKeys (tcp.foldl (fun m e => if e.2.length > 0 then mapStore m e.1 e.2 else m) m) →
      k ∈ mapKeys m ∨ k ∈ tcp.map Prod.fst := by
  induction tcp with
  | nil => intro m k h; exact Or.inl h
  | cons e rest ih =>
    intro m k h
    simp only [List.foldl_cons] at h
    rcases ih _ k h with h1 | h1
    · split at h1
      · rcases (mem_mapKeys_mapStore m e.1 e.2 k).1 h1 with rfl | h2
        · exact Or.inr (by simp)
        · exact Or.inl h2
      · exact Or.inl h1
    · exact Or.inr (by simp [h1])

theorem mapKeys_seedTcpTarget (tcp : List (GoString × List GoString)) (k : GoString)
    (h : k ∈ mapKeys (seedTcpTarget tcp)) : k ∈ tcp.map Prod.fst := by
  rcases mapKeys_seed_aux tcp [] k h with h1 | h1
  · simp [mapKeys] at h1
  · exact h1

theorem fscanAlive_scanner (w : ScanWorld) (s : FingerScanner) (u : URL) (web : WebInfo)
    (title : GoString) :
    (fscanAlive w s u web title).1 = { s with aliveURLs := s.aliveURLs ++ [u] } ∨
    ∃ v, (fscanAlive w s u web title).1 = { s with aliveURLs := s.aliveURLs ++ [u], basicURLWithFingerprint := mapStore s.basicURLWithFingerprint u.String v } := by
  unfold fscanAlive
  simp only []
  cases Scan w.ext web w.FingerprintDB with
  | none => exact Or.inl rfl
  | some fps => exact Or.inr ⟨_, rfl⟩

theorem fscan_scanner (w : ScanWorld) (s : FingerScanner) (u : URL) :
    (fscan w s u).1 = s ∨
    (fscan w s u).1 = { s with aliveURLs := s.aliveURLs ++ [u] } ∨
    ∃ v, (fscan w s u).1 = { s with aliveURLs := s.aliveURLs ++ [u], basicURLWithFingerprint := mapStore s.basicURLWithFingerprint u.String v } := by
  unfold fscan
  simp only []
  split_ifs
  all_goals first
    | exact Or.inl rfl
    | exact Or.inr (fscanAlive_scanner w s u _ _)

theorem fscan_keys (w : ScanWorld) (T : List GoString) (s : FingerScanner) (u : URL)
    (h : ∀ k ∈ mapKeys s.basicURLWithFingerprint, k ∈ s.aliveURLs.map URL.String ∨ k ∈ T) :
    (fscan w s u).1.rootPath = s.rootPath ∧
    ∀ k ∈ mapKeys (fscan w s u).1.basicURLWithFingerprint,
      k ∈ (fscan w s u).1.aliveURLs.map URL.String ∨ k ∈ T := by
  rcases fscan_scanner w s u with h1 | h1 | ⟨v, h1⟩
  · rw [h1]; exact ⟨rfl, h⟩
  · rw [h1]
    refine ⟨rfl, fun k hk => ?_⟩
    rcases h k hk with h2 | h2
    · exact Or.inl (by simp only [List.map_append, List.mem_append]; exact Or.inl h2)
    · exact Or.inr h2
  · rw [h1]
    refine ⟨rfl, fun k hk => ?_⟩
    simp only [List.map_append, List.mem_append, List.map_cons, List.map_nil,
      List.mem_singleton]
    rcases (mem_mapKeys_mapStore _ _ _ k).1 hk with h2 | h2
    · exact Or.inl (Or.inr h2)
    · rcases h k h2 with h3 | h3
      · exact Or.inl (Or.inl h3)
      · exact Or.inr h3

theorem FingerScanInOrder_keys_aux (w : ScanWorld) (T : List GoString) (urls : List URL) :
    ∀ acc : FingerScanner × List InfoResult,
      (∀ k ∈ mapKeys acc.1.basicURLWithFingerprint, k ∈ acc.1.aliveURLs.map URL.String ∨ k ∈ T) →
      (urls.foldl (fun acc u => ((fscan w acc.1 u).1, acc.2 ++ (fscan w acc.1 u).2)) acc).1.rootPath
        = acc.1.rootPath ∧
      ∀ k ∈ mapKeys (urls.foldl
          (fun acc u => ((fscan w acc.1 u).1, acc.2 ++ (fscan w acc.1 u).2)) acc).1.basicURLWithFingerprint,
        k ∈ (urls.foldl
          (fun acc u => ((fscan w acc.1 u).1, acc.2 ++ (fscan w acc.1 u).2)) acc).1.aliveURLs.map URL.String
        ∨ k ∈ T := by
  induction urls with
  | nil => intro acc h; exact ⟨rfl, h⟩
  | cons u rest ih =>
    intro acc h
    simp only [List.foldl_cons]
    obtain ⟨hr, hk⟩ := fscan_keys w T acc.1 u h
    obtain ⟨hr2, hk2⟩ := ih ((fscan w acc.1 u).1, acc.2 ++ (fscan w acc.1 u).2) hk
    exact ⟨hr2.trans hr, hk2⟩

theorem FingerScanInOrder_keys (w : ScanWorld) (T : List GoString) (s : FingerScanner)
    (h : ∀ k ∈ mapKeys s.basicURLWithFingerprint, k ∈ s.aliveURLs.map URL.String ∨ k ∈ T) :
    (FingerScanInOrder w s).1.rootPath = s.rootPath ∧
    ∀ k ∈ mapKeys (FingerScanInOrder w s).1.basicURLWithFingerprint,
      k ∈ (FingerScanInOrder w s).1.aliveURLs.map URL.String ∨ k ∈ T :=
  FingerScanInOrder_keys_aux w T s.urls (s, []) h

theorem activeMatch_scanner (w : ScanWorld) (st : ActiveState) (fp : ActiveFingerDetect)
    (ti : WebInfo) (fullURL title : GoString) :
    (activeMatch w st fp ti fullURL title).scanner = st.scanner ∨
    ∃ v, (activeMatch w st fp ti fullURL title).scanner = { st.scanner with basicURLWithFingerprint := mapStore st.scanner.basicURLWithFingerprint fp.URL.String v } := by
  unfold activeMatch
  simp only []
  cases Scan w.ext ti fp.Fpe with
  | none => exact Or.inl rfl
  | some result =>
    simp only []
    split
    · cases fp.Fpe with
      | nil => exact Or.inr ⟨_, rfl⟩
      | cons f rest => exact Or.inr ⟨_, rfl⟩
    · exact Or.inl rfl

theorem activeWorker_scanner (w : ScanWorld) (st : ActiveState) (fp : ActiveFingerDetect) :
    (activeWorker w st fp).scanner = st.scanner ∨
    ∃ v, (activeWorker w st fp).scanner = { st.scanner with basicURLWithFingerprint := mapStore st.scanner.basicURLWithFingerprint fp.URL.String v } := by
  unfold activeWorker
  simp only []
  split_ifs
  · exact Or.inl rfl
  · exact Or.inl rfl
  · exact Or.inl rfl
  · exact activeMatch_scanner w _ fp _ _ _

/-- The invariant of the active pass on the state and the loop variable `target`. -/
theorem submitTask_keys (w : ScanWorld) (rp : Bool) (A : List URL) (T : List GoString)
    (fpe : List FingerPEntity) (acc : ActiveState × URL) (path : GoString)
    (hA : acc.1.scanner.aliveURLs = A) (hrp : acc.1.scanner.rootPath = rp)
    (hk : ∀ k ∈ mapKeys acc.1.scanner.basicURLWithFingerprint, keyOrigin w rp A T k)
    (ht : acc.2 ∈ A ∨ (rp = true ∧ ∃ u ∈ A, ∃ n : Nat, acc.2 = w.GetBasicURL^[n + 1] u)) :
    (submitTask w fpe acc path).1.scanner.aliveURLs = A ∧
    (submitTask w fpe acc path).1.scanner.rootPath = rp ∧
    (∀ k ∈ mapKeys (submitTask w fpe acc path).1.scanner.basicURLWithFingerprint,
      keyOrigin w rp A T k) ∧
    ((submitTask w fpe acc path).2 ∈ A ∨
      (rp = true ∧ ∃ u ∈ A, ∃ n : Nat, (submitTask w fpe acc path).2 = w.GetBasicURL^[n + 1] u)) := by
  unfold submitTask
  simp only []
  split
  · exact ⟨hA, hrp, hk, ht⟩
  · have ht1 : (if acc.1.scanner.rootPath = true then w.GetBasicURL acc.2 else acc.2) ∈ A ∨
        (rp = true ∧ ∃ u ∈ A, ∃ n : Nat,
          (if acc.1.scanner.rootPath = true then w.GetBasicURL acc.2 else acc.2)
            = w.GetBasicURL^[n + 1] u) := by
      rw [hrp]
      cases rp with
      | false => simpa using ht
      | true =>
        right
        refine ⟨rfl, ?_⟩
        rcases ht with h1 | ⟨_, u, hu, n, hn⟩
        · exact ⟨acc.2, h1, 0, by simp⟩
        · exact ⟨u, hu, n + 1, by
            simp only [if_true]
            rw [hn, ← Function.iterate_succ_apply' w.GetBasicURL (n + 1) u]⟩
    have horigin : keyOrigin w rp A T
        (if acc.1.scanner.rootPath = true then w.GetBasicURL acc.2 else acc.2).String := by
      rcases ht1 with h1 | ⟨h1, u, hu, n, hn⟩
      · exact Or.inl (List.mem_map_of_mem _ h1)
      · exact Or.inr (Or.inr ⟨h1, u, hu, n, by rw [hn]⟩)
    refine ⟨?_, ?_, ?_, ht1⟩
    · rcases activeWorker_scanner w { acc.1 with id := acc.1.id + 1 }
        ⟨if acc.1.scanner.rootPath = true then w.GetBasicURL acc.2 else acc.2, fpe, path⟩
        with h1 | ⟨v, h1⟩
      · rw [h1]; exact hA
      · rw [h1]; exact hA
    · rcases activeWorker_scanner w { acc.1 with id := acc.1.id + 1 }
        ⟨if acc.1.scanner.rootPath = true then w.GetBasicURL acc.2 else acc.2, fpe, path⟩
        with h1 | ⟨v, h1⟩
      · rw [h1]; exact hrp
      · rw [h1]; exact hrp
    · rcases activeWorker_scanner w { acc.1 with id := acc.1.id + 1 }
        ⟨if acc.1.scanner.rootPath = true then w.GetBasicURL acc.2 else acc.2, fpe, path⟩
        with h1 | ⟨v, h1⟩
      · rw [h1]; exact hk
      · rw [h1]
        intro k hkm
        rcases (mem_mapKeys_mapStore _ _ _ k).1 hkm with h2 | h2
        · rw [h2]; exact horigin
        · exact hk k h2

theorem submitTask_inv (w : ScanWorld) (rp : Bool) (A : List URL) (T : List GoString)
    (fpe : List FingerPEntity) (acc : ActiveState × URL) (path : GoString)
    (h : activeInv w rp A T acc) : activeInv w rp A T (submitTask w fpe acc path) :=
  submitTask_keys w rp A T fpe acc path h.1 h.2.1 h.2.2.1 h.2.2.2

theorem submitPaths_inv (w : ScanWorld) (rp : Bool) (A : List URL) (T : List GoString)
    (fpe : List FingerPEntity) (paths : List GoString) :
    ∀ acc, activeInv w rp A T acc → activeInv w rp A T (paths.foldl (submitTask w fpe) acc) := by
  induction paths with
  | nil => intro acc h; exact h
  | cons p rest ih =>
    intro acc h
    exact ih _ (submitTask_inv w rp A T fpe acc p h)

theorem submitItems_inv (w : ScanWorld) (rp : Bool) (A : List URL) (T : List GoString)
    (items : List ActiveFingerprint) :
    ∀ acc, activeInv w rp A T acc →
      activeInv w rp A T
        (items.foldl (fun acc item => item.Path.foldl (submitTask w item.Fpe) acc) acc) := by
  induction items with
  | nil => intro acc h; exact h
  | cons item rest ih =>
    intro acc h
    exact ih _ (submitPaths_inv w rp A T item.Fpe item.Path acc h)

theorem submitTargets_inv (w : ScanWorld) (rp : Bool) (A : List URL) (T : List GoString)
    (targets : List URL) (hsub : ∀ t ∈ targets, t ∈ A) :
    ∀ st : ActiveState,
      (st.scanner.aliveURLs = A ∧ st.scanner.rootPath = rp ∧
        ∀ k ∈ mapKeys st.scanner.basicURLWithFingerprint, keyOrigin w rp A T k) →
      ((targets.foldl (submitTarget w) st).scanner.aliveURLs = A ∧
        (targets.foldl (submitTarget w) st).scanner.rootPath = rp ∧
        ∀ k ∈ mapKeys (targets.foldl (submitTarget w) st).scanner.basicURLWithFingerprint,
          keyOrigin w rp A T k) := by
  induction targets with
  | nil => intro st h; exact h
  | cons t rest ih =>
    intro st h
    have hinv : activeInv w rp A T (st, t) :=
      ⟨h.1, h.2.1, h.2.2, Or.inl (hsub t (List.mem_cons_self _ _))⟩
    have h2 := submitItems_inv w rp A T w.ActiveFingerprintDB (st, t) hinv
    exact ih (fun q hq => hsub q (List.mem_cons_of_mem _ hq)) (submitTarget w st t)
      ⟨h2.1, h2.2.1, h2.2.2.1⟩

theorem ActiveFingerScan_keys (w : ScanWorld) (T : List GoString) (s : FingerScanner)
    (h : ∀ k ∈ mapKeys s.basicURLWithFingerprint, k ∈ s.aliveURLs.map URL.String ∨ k ∈ T) :
    ∀ k ∈ mapKeys (ActiveFingerScan w s).scanner.basicURLWithFingerprint,
      keyOrigin w s.rootPath s.aliveURLs T k := by
  have h0 : ∀ k ∈ mapKeys s.basicURLWithFingerprint, keyOrigin w s.rootPath s.aliveURLs T k := by
    intro k hk
    rcases h k hk with h1 | h1
    · exact Or.inl h1
    · exact Or.inr (Or.inl h1)
  unfold ActiveFingerScan
  split
  · exact h0
  · exact (submitTargets_inv w s.rootPath s.aliveURLs T s.aliveURLs (fun _ ht => ht)
      (activeStart s) ⟨rfl, rfl, h0⟩).2.2

/-! ## Template filter: facts about `findTagsFile` -/

theorem mem_tempFileList (w : TemplateWorld) (inputTags : List GoString) (n : GoString) :
    n ∈ tempFileList w inputTags ↔
      ∃ e ∈ w.WorkFlowDB, e.1 = n ∧ ∃ t ∈ inputTags, t ∈ e.2 := by
  unfold tempFileList
  simp only [List.mem_flatMap, List.mem_map, List.mem_filter, ArrayContains, decide_eq_true_eq]
  constructor
  · rintro ⟨t, ht, e, ⟨he, hte⟩, hn⟩
    exact ⟨e, he, hn, t, ht, hte⟩
  · rintro ⟨e, he, hn, t, ht, hte⟩
    exact ⟨t, ht, e, ⟨he, hte⟩, hn⟩

theorem RemoveDuplicates_nodup (l : List GoString) : (RemoveDuplicates l).Nodup := by
  induction l with
  | nil => simp [RemoveDuplicates]
  | cons x xs ih =>
    simp only [RemoveDuplicates, List.nodup_cons, List.mem_filter]
    exact ⟨by simp, ih.filter _⟩

theorem firstExisting_eq_find (w : TemplateWorld) (temp : GoString) (dirs : List GoString) :
    firstExisting w temp dirs
      = (dirs.find? (fun d => w.statOk (w.pathJoin d (temp ++ str ".yaml")))).map
          (fun d => w.pathJoin d (temp ++ str ".yaml")) := by
  induction dirs with
  | nil => rfl
  | cons d rest ih =>
    simp only [firstExisting, List.find?_cons]
    cases h : w.statOk (w.pathJoin d (temp ++ str ".yaml")) with
    | true => simp
    | false => simpa using ih

theorem findTagsFile_mem_aux (w : TemplateWorld) (inputTags templateDirs : List GoString)
    (h : ∃ e ∈ w.WorkFlowDB, ∃ t ∈ inputTags, t ∈ e.2) :
    (findTagsFile w inputTags templateDirs).Nodup ∧
    ∀ p, p ∈ findTagsFile w inputTags templateDirs ↔
      ∃ e ∈ w.WorkFlowDB, (∃ t ∈ inputTags, t ∈ e.2) ∧
        ∃ d, templateDirs.find? (fun d => w.statOk (w.pathJoin d (e.1 ++ str ".yaml"))) = some d ∧
          p = w.pathJoin d (e.1 ++ str ".yaml") := by
  obtain ⟨e0, he0, t0, ht0, hte0⟩ := h
  have htags : inputTags.length ≠ 0 := by
    intro h0
    rw [List.length_eq_zero] at h0
    rw [h0] at ht0
    simp at ht0
  have htemps : (tempFileList w inputTags).length ≠ 0 := by
    intro h0
    rw [List.length_eq_zero] at h0
    have : e0.1 ∈ tempFileList w inputTags :=
      (mem_tempFileList w inputTags e0.1).2 ⟨e0, he0, rfl, t0, ht0, hte0⟩
    rw [h0] at this
    simp at this
  have hfind : findTagsFile w inputTags templateDirs
      = RemoveDuplicates ((tempFileList w inputTags).filterMap
          (fun temp => firstExisting w temp templateDirs)) := by
    unfold findTagsFile
    simp only [htags, htemps, if_false]
  rw [hfind]
  refine ⟨RemoveDuplicates_nodup _, fun p => ?_⟩
  rw [mem_RemoveDuplicates, List.mem_filterMap]
  constructor
  · rintro ⟨n, hn, hp⟩
    obtain ⟨e, he, hen, hte⟩ := (mem_tempFileList w inputTags n).1 hn
    rw [firstExisting_eq_find, Option.map_eq_some'] at hp
    obtain ⟨d, hd, hpd⟩ := hp
    subst hen
    exact ⟨e, he, hte, d, hd, hpd.symm⟩
  · rintro ⟨e, he, hte, d, hd, hp⟩
    refine ⟨e.1, (mem_tempFileList w inputTags e.1).2 ⟨e, he, rfl, hte⟩, ?_⟩
    rw [firstExisting_eq_find, hd, hp]
    rfl

/-- Claim C13. When at least one `WorkFlowDB` entry carries one of the input tags,
the list `findTagsFile` returns has no duplicates, and a path is in it exactly
when it is `join(d, n + ".yaml")` for a template name `n` whose tag list contains
an input tag and `d` the first directory of `templateDirs` where that file exists. -/
theorem findTagsFile_resolved (w : TemplateWorld) (inputTags templateDirs : List GoString)
    (h : ∃ e ∈ w.WorkFlowDB, ∃ t ∈ inputTags, t ∈ e.2) :
    (findTagsFile w inputTags templateDirs).Nodup ∧
    ∀ p, p ∈ findTagsFile w inputTags templateDirs ↔
      ∃ e ∈ w.WorkFlowDB, (∃ t ∈ inputTags, t ∈ e.2) ∧
        ∃ d, templateDirs.find? (fun d => w.statOk (w.pathJoin d (e.1 ++ str ".yaml"))) = some d ∧
          p = w.pathJoin d (e.1 ++ str ".yaml") :=
  findTagsFile_mem_aux w inputTags templateDirs h

/-- Witness of C13: the tag `web` is carried by two entries of the table. -/
theorem findTagsFile_resolved_witness :
    (∃ e ∈ twoDirWorld.WorkFlowDB, ∃ t ∈ ([str "web", str "nginx"] : List GoString), t ∈ e.2) ∧
    (findTagsFile twoDirWorld [str "web", str "nginx"] [str "/a", str "/b"]).Nodup ∧
    ∀ p, p ∈ findTagsFile twoDirWorld [str "web", str "nginx"] [str "/a", str "/b"] ↔
      ∃ e ∈ twoDirWorld.WorkFlowDB,
        (∃ t ∈ ([str "web", str "nginx"] : List GoString), t ∈ e.2) ∧
        ∃ d, ([str "/a", str "/b"] : List GoString).find?
            (fun d => twoDirWorld.statOk (twoDirWorld.pathJoin d (e.1 ++ str ".yaml"))) = some d ∧
          p = twoDirWorld.pathJoin d (e.1 ++ str ".yaml") :=
  ⟨by decide,
    findTagsFile_resolved twoDirWorld [str "web", str "nginx"] [str "/a", str "/b"] (by decide)⟩

/-- Sample runs of the template filter: a resolved tag list with a repeated
template, and the recursive listing. -/
theorem findTagsFile_examples :
    findTagsFile twoDirWorld [str "web", str "nginx"] [str "/a", str "/b"]
      = [str "/a/nginx-poc.yaml", str "/b/cve.yaml"] ∧
    findTagsFile twoDirWorld [] [str "/a", str "/b"]
      = [str "/a/nginx-poc.yaml", str "/b/nginx-poc.yaml", str "/b/cve.yaml"] ∧
    expandYamlFiles twoDirWorld [str "/a", str "/b"]
      = [str "/a/nginx-poc.yaml", str "/b/nginx-poc.yaml", str "/b/cve.yaml"] := by
  decide

/-- What the code does where C20 speaks of the fallback: when a tag resolves to a
template name but none of the resolved files exists, the result is empty. -/
theorem findTagsFile_no_file (w : TemplateWorld) (inputTags templateDirs : List GoString)
    (h : ∃ e ∈ w.WorkFlowDB, ∃ t ∈ inputTags, t ∈ e.2)
    (hno : ∀ e ∈ w.WorkFlowDB, ∀ d ∈ templateDirs,
      w.statOk (w.pathJoin d (e.1 ++ str ".yaml")) = false) :
    findTagsFile w inputTags templateDirs = [] := by
  obtain ⟨_, hmem⟩ := findTagsFile_mem_aux w inputTags templateDirs h
  apply List.eq_nil_iff_forall_not_mem.2
  intro p hp
  obtain ⟨e, he, _, d, hd, _⟩ := (hmem p).1 hp
  have h1 := List.find?_some hd
  have h2 := hno e he d (List.mem_of_find?_eq_some hd)
  simp [h2] at h1

/-- Evaluation for C20. The tag `nginx` resolves to the template name `nginx-poc`,
whose file is in no directory: `findTagsFile` returns the empty list, although
the recursive listing of the template directory holds `/t/other.yaml`. -/
theorem findTagsFile_empty_when_files_missing :
    findTagsFile missingFileWorld [str "nginx"] [str "/t"] = [] ∧
    tempFileList missingFileWorld [str "nginx"] = [str "nginx-poc"] ∧
    missingFileWorld.statOk (missingFileWorld.pathJoin (str "/t") (str "nginx-poc" ++ str ".yaml"))
      = false ∧
    expandYamlFiles missingFileWorld [str "/t"] = [str "/t/other.yaml"] := by
  decide

/-! ## Response time: facts about `limitDecimalPlaces` -/

theorem Split_ne_nil (sep : UInt8) (s : GoString) : Split s sep ≠ [] := by
  induction s with
  | nil => simp [Split]
  | cons c rest ih =>
    unfold Split
    split
    · simp
    · split <;> simp

theorem Split_of_not_mem (sep : UInt8) (s : GoString) (h : sep ∉ s) : Split s sep = [s] := by
  induction s with
  | nil => simp [Split]
  | cons c rest ih =>
    have hc : ¬ c = sep := fun e => h (by simp [e])
    have hr : sep ∉ rest := fun e => h (List.mem_cons_of_mem _ e)
    unfold Split
    simp [hc, ih hr]

theorem Split_append_sep (sep : UInt8) (p r : GoString) (h : sep ∉ p) :
    Split (p ++ sep :: r) sep = p :: Split r sep := by
  induction p with
  | nil =>
    show Split (sep :: r) sep = [] :: Split r sep
    rw [Split]
    simp
  | cons c rest ih =>
    have hc : ¬ c = sep := fun e => h (by simp [e])
    have hr : sep ∉ rest := fun e => h (List.mem_cons_of_mem _ e)
    show Split (c :: (rest ++ sep :: r)) sep = (c :: rest) :: Split r sep
    rw [Split]
    simp [hc, ih hr]

theorem Split_length (sep : UInt8) (s : GoString) :
    (Split s sep).length = s.count sep + 1 := by
  induction s with
  | nil => simp [Split]
  | cons c rest ih =>
    unfold Split
    by_cases hc : c = sep
    · subst hc
      simp [ih]
    · have hc2 : ¬ (c == sep) = true := by simpa using hc
      rw [if_neg hc, List.count_cons, if_neg hc2]
      cases hs : Split rest sep with
      | nil => exact absurd hs (Split_ne_nil sep rest)
      | cons p ps =>
        rw [hs] at ih
        simpa using ih

theorem dropWhile_head_false {α : Type} (p : α → Bool) (s : List α) (c : α) (r : List α)
    (h : s.dropWhile p = c :: r) : p c = false := by
  induction s with
  | nil => simp at h
  | cons x xs ih =>
    rw [List.dropWhile_cons] at h
    split at h
    · exact ih h
    · rename_i hx
      injection h with h1 _
      subst h1
      simpa using hx

/-- Claim C14. For every string `s`: when `s` holds exactly one `.` (byte 46) and
more than two bytes after it, `limitDecimalPlaces s` is `s` cut right after the
second byte following the `.`; otherwise it is `s`. So `"1.2345"` gives `"1.23"`,
`"5"` gives `"5"` and `"5.1"` gives `"5.1"`. -/
theorem limitDecimalPlaces_spec :
    (∀ s : GoString, limitDecimalPlaces s
      = if s.count 46 = 1 ∧ ((s.dropWhile (fun c => c ≠ 46)).drop 1).length > 2
        then s.take ((s.takeWhile (fun c => c ≠ 46)).length + 3) else s) ∧
    limitDecimalPlaces (str "1.2345") = str "1.23" ∧
    limitDecimalPlaces (str "5") = str "5" ∧
    limitDecimalPlaces (str "5.1") = str "5.1" ∧
    limitDecimalPlaces (str "1.2.345") = str "1.2.345" := by
  refine ⟨fun s => ?_, by decide, by decide, by decide, by decide⟩
  have hsplit := List.takeWhile_append_dropWhile (fun c => decide (c ≠ 46)) s
  have hp : (46 : UInt8) ∉ s.takeWhile (fun c => decide (c ≠ 46)) := by
    intro hm
    have := List.mem_takeWhile_imp hm
    simp at this
  cases hd : s.dropWhile (fun c => decide (c ≠ 46)) with
  | nil =>
    rw [hd, List.append_nil] at hsplit
    have hno : (46 : UInt8) ∉ s := by rw [← hsplit]; exact hp
    have hcount : s.count 46 = 0 := List.count_eq_zero.2 hno
    simp [limitDecimalPlaces, Split_of_not_mem 46 s hno, hcount]
  | cons c r =>
    have hc : c = 46 := by simpa using dropWhile_head_false _ s c r hd
    subst hc
    rw [hd] at hsplit
    simp only [List.drop_succ_cons, List.drop_zero]
    generalize s.takeWhile (fun c => decide (c ≠ 46)) = p0 at hsplit hp
    subst hsplit
    have hS : Split (p0 ++ 46 :: r) 46 = p0 :: Split r 46 := Split_append_sep 46 p0 r hp
    have hcount : (p0 ++ 46 :: r).count 46 = r.count 46 + 1 := by
      rw [List.count_append, List.count_eq_zero.2 hp]
      simp
    by_cases hr : (46 : UInt8) ∈ r
    · have hpos : 0 < r.count 46 := List.count_pos_iff.2 hr
      have hlen := Split_length 46 r
      have hne : ¬ ((p0 ++ 46 :: r).count 46 = 1) := by omega
      unfold limitDecimalPlaces
      rw [hS]
      cases hs2 : Split r 46 with
      | nil => exact absurd hs2 (Split_ne_nil 46 r)
      | cons a as =>
        cases as with
        | nil => rw [hs2] at hlen; simp at hlen; omega
        | cons b bs => rw [if_neg (fun h => hne h.1)]
    · have hcr : r.count 46 = 0 := List.count_eq_zero.2 hr
      have hone : (p0 ++ 46 :: r).count 46 = 1 := by omega
      unfold limitDecimalPlaces
      rw [hS, Split_of_not_mem 46 r hr]
      simp only [hone, true_and]
      by_cases hl : r.length > 2
      · rw [if_pos hl, if_pos hl, List.take_append_eq_append_take,
          List.take_of_length_le (show p0.length ≤ p0.length + 3 by omega)]
        have e3 : p0.length + 3 - p0.length = 3 := by omega
        rw [e3, List.append_assoc]
        rfl
      · rw [if_neg hl, if_neg hl]

/-! ## Favicon link: facts about `parseIcons` and the link resolution -/

theorem collectIcons_eq (rels : List GoString) (links : List LinkElement) :
    ∀ icons : List GoString,
      collectIcons rels icons links = icons ++ hrefsWithRel rels links := by
  induction links with
  | nil => intro icons; simp [collectIcons, hrefsWithRel]
  | cons l rest ih =>
    intro icons
    cases hh : l.href with
    | none => simp [collectIcons, hrefsWithRel, List.filterMap_cons, hh, ih icons]
    | some href =>
      cases hr : l.rel with
      | none => simp [collectIcons, hrefsWithRel, List.filterMap_cons, hh, hr, ih icons]
      | some rel =>
        by_cases hm : rel ∈ rels
        · simp [collectIcons, hrefsWithRel, List.filterMap_cons, hh, hr, hm, ArrayContains,
            ih (icons ++ [href])]
        · simp [collectIcons, hrefsWithRel, List.filterMap_cons, hh, hr, hm, ArrayContains,
            ih icons]

theorem parseIcons_eq (links : List LinkElement) :
    parseIcons links
      = if hrefsWithRel iconDesktopRels links ≠ [] then hrefsWithRel iconDesktopRels links
        else if hrefsWithRel iconMobileRels links ≠ [] then hrefsWithRel iconMobileRels links
        else [str "favicon.ico"] := by
  unfold parseIcons
  simp only [collectIcons_eq, List.nil_append]
  by_cases h1 : hrefsWithRel iconDesktopRels links = []
  · by_cases h2 : hrefsWithRel iconMobileRels links = []
    · simp [h1, h2]
    · simp [h1, h2]
  · simp [h1]

theorem parseIcons_ne_nil (links : List LinkElement) : parseIcons links ≠ [] := by
  rw [parseIcons_eq]
  split_ifs with h1 h2
  · exact h1
  · exact h2
  · simp

/-- Claim C19. For every list of `<link>` elements of a document head, `parseIcons`
returns, in document order, the hrefs of the links whose rel is `icon` or
`shortcut icon` when there is at least one; otherwise the hrefs of the links whose
rel is `apple-touch-icon` or `mask-icon` when there is at least one; otherwise
`["favicon.ico"]`. The result is never empty, so reading its first element in
`FaviconHash` and `GetFaviconFullLink` does not panic. -/
theorem parseIcons_spec (links : List LinkElement) :
    parseIcons links
      = (if hrefsWithRel [str "icon", str "shortcut icon"] links ≠ []
          then hrefsWithRel [str "icon", str "shortcut icon"] links
        else if hrefsWithRel [str "apple-touch-icon", str "mask-icon"] links ≠ []
          then hrefsWithRel [str "apple-touch-icon", str "mask-icon"] links
        else [str "favicon.ico"]) ∧
    parseIcons links ≠ [] ∧
    (∃ first, (parseIcons links).head? = some first) ∧
    (∀ (fw : FaviconWorld) (u : URL), FaviconHash fw u ≠ none) ∧
    (∀ (fw : FaviconWorld) (u : URL), GetFaviconFullLink fw u ≠ none) := by
  refine ⟨parseIcons_eq links, parseIcons_ne_nil links, ?_, ?_, ?_⟩
  · cases h : parseIcons links with
    | nil => exact absurd h (parseIcons_ne_nil links)
    | cons a _ => exact ⟨a, rfl⟩
  · intro fw u
    unfold FaviconHash
    simp only []
    split
    · simp
    · split
      · simp
      · rename_i l hl
        split
        · rename_i hnil
          exact absurd hnil (parseIcons_ne_nil l)
        · split <;> simp
  · intro fw u
    unfold GetFaviconFullLink
    simp only []
    split
    · simp
    · split
      · simp
      · rename_i l hl
        split
        · rename_i hnil
          exact absurd hnil (parseIcons_ne_nil l)
        · simp

/-- Sample runs of `parseIcons`: desktop links win over mobile links, a link
without href is passed over, and an empty head gives the default icon. -/
theorem parseIcons_examples :
    parseIcons [⟨some (str "/touch.png"), some (str "apple-touch-icon")⟩,
        ⟨some (str "/a.ico"), some (str "icon")⟩, ⟨some (str "/s.css"), some (str "stylesheet")⟩,
        ⟨some (str "/b.ico"), some (str "shortcut icon")⟩]
      = [str "/a.ico", str "/b.ico"] ∧
    parseIcons [⟨none, some (str "icon")⟩, ⟨some (str "/touch.png"), some (str "apple-touch-icon")⟩]
      = [str "/touch.png"] ∧
    parseIcons [] = [str "favicon.ico"] := by
  decide

/-- Sample links. With the base path `/app`, `FaviconHash` requests the icon at the
root of the host while `GetFaviconFullLink` resolves it under the base path. -/
theorem faviconLink_examples :
    faviconHashLink appURL (str "favicon.ico") = str "http://a.com/favicon.ico" ∧
    faviconFullLink appURL (str "favicon.ico") = str "http://a.com/app/favicon.ico" ∧
    faviconHashLink appURL (str "//cdn.a.com/i.png") = str "http://cdn.a.com/i.png" ∧
    faviconHashLink appURL (str "https://b.com/i.png") = str "https://b.com/i.png" := by
  decide

/-! ## Active pass: which results are kept -/

theorem scanLoop_subset (ext : Externals) (web : WebInfo) (db : List FingerPEntity) :
    ∀ (acc res : List GoString), scanLoop ext web db acc = some res →
      ∀ p ∈ res, p ∈ acc ∨ ∃ f ∈ db, f.ProductName = p := by
  induction db with
  | nil =>
    intro acc res h p hp
    simp only [scanLoop, Option.some.injEq] at h
    subst h
    exact Or.inl hp
  | cons f rest ih =>
    intro acc res h p hp
    simp only [scanLoop] at h
    cases hs : substRules ext web f.AllString f.Rule with
    | none => rw [hs] at h; simp at h
    | some e =>
      rw [hs] at h
      simp only [] at h
      cases hb : ext.boolEval e with
      | none =>
        rw [hb] at h
        rcases ih acc res h p hp with h1 | ⟨g, hg, hn⟩
        · exact Or.inl h1
        · exact Or.inr ⟨g, List.mem_cons_of_mem _ hg, hn⟩
      | some r =>
        rw [hb] at h
        rcases ih _ res h p hp with h1 | ⟨g, hg, hn⟩
        · cases r with
          | false => exact Or.inl (by simpa using h1)
          | true =>
            have h1 : p ∈ acc ∨ p = f.ProductName := by simpa using h1
            rcases h1 with h1 | h1
            · exact Or.inl h1
            · exact Or.inr ⟨f, List.mem_cons_self _ _, h1.symm⟩
        · exact Or.inr ⟨g, List.mem_cons_of_mem _ hg, hn⟩

theorem Scan_subset (ext : Externals) (web : WebInfo) (db : List FingerPEntity)
    (result : List GoString) (h : Scan ext web db = some result) :
    ∀ p ∈ result, ∃ f ∈ db, f.ProductName = p := by
  unfold Scan at h
  cases hl : scanLoop ext web db [] with
  | none => rw [hl] at h; simp at h
  | some res =>
    rw [hl] at h
    simp only [Option.map_some', Option.some.injEq] at h
    subst h
    intro p hp
    rcases scanLoop_subset ext web db [] res hl p ((mem_RemoveDuplicates p res).1 hp) with h1 | h1
    · simp at h1
    · exact h1

theorem activeKeep_nonempty (result : List GoString) (ti : WebInfo)
    (h : activeKeep result ti = true) : result ≠ [] := by
  intro he
  subst he
  simp [activeKeep, ArrayContains] at h

theorem activeMatch_keep (w : ScanWorld) (st : ActiveState) (fp : ActiveFingerDetect)
    (resp : Response) (result : List GoString)
    (hs : Scan w.ext (activeWebInfo w fp resp) fp.Fpe = some result) :
    (activeKeep result (activeWebInfo w fp resp) = true →
      ∃ fpe0, fp.Fpe.head? = some fpe0 ∧
        activeMatch w st fp (activeWebInfo w fp resp) (fp.URL.String ++ fp.Path)
            (w.GetTitle resp.Body)
          = { st with
              scanner := { st.scanner with basicURLWithFingerprint := mapStore st.scanner.basicURLWithFingerprint fp.URL.String ((mapLoad st.scanner.basicURLWithFingerprint fp.URL.String).getD [] ++ result) },
              emitted := st.emitted ++ [activeEvent w fp resp fpe0] }) ∧
    (activeKeep result (activeWebInfo w fp resp) = false →
      activeMatch w st fp (activeWebInfo w fp resp) (fp.URL.String ++ fp.Path)
        (w.GetTitle resp.Body) = st) := by
  constructor
  · intro hk
    have hne := activeKeep_nonempty result _ hk
    obtain ⟨p, hp⟩ := List.exists_mem_of_ne_nil result hne
    obtain ⟨f, hf, _⟩ := Scan_subset w.ext _ fp.Fpe result hs p hp
    cases hfpe : fp.Fpe with
    | nil => rw [hfpe] at hf; simp at hf
    | cons fpe0 rest =>
      refine ⟨fpe0, rfl, ?_⟩
      unfold activeMatch
      rw [hs]
      simp only [hk, if_true, hfpe]
      rfl
  · intro hk
    unfold activeMatch
    rw [hs]
    simp only [hk, Bool.false_eq_true, if_false]

theorem activeWorker_probe (w : ScanWorld) (st : ActiveState) (fp : ActiveFingerDetect)
    (ht : timeoutReached st fp.URL.String = false)
    (hv : fp.URL.String ++ fp.Path ∉ st.visited)
    (hr : (w.DoRequest (str "GET") (fp.URL.String ++ fp.Path) st.scanner.headers 5 true).2
      = false) :
    activeWorker w st fp
      = activeMatch w
          { st with visited := st.visited ++ [fp.URL.String ++ fp.Path], requests := st.requests ++ [(fp.URL.String, false)] }
          fp
          (activeWebInfo w fp
            (w.DoRequest (str "GET") (fp.URL.String ++ fp.Path) st.scanner.headers 5 true).1)
          (fp.URL.String ++ fp.Path)
          (w.GetTitle
            (w.DoRequest (str "GET") (fp.URL.String ++ fp.Path) st.scanner.headers 5 true).1.Body) := by
  unfold activeWorker
  simp only [ht, hv, hr, Bool.false_eq_true, if_false]

/-- Claim C15. For every active probe that got a response and whose signatures
`Scan` evaluated to the set `result`: when `result` is non-empty and the observed
status is not 404, or `result` contains `ThinkPHP`, the result is kept, that is
`result` is merged into the map entry of the task's URL and one Active event is
emitted; otherwise neither the map nor the emitted events change. -/
theorem active_result_kept_iff (w : ScanWorld) (st : ActiveState) (fp : ActiveFingerDetect)
    (result : List GoString)
    (ht : timeoutReached st fp.URL.String = false)
    (hv : fp.URL.String ++ fp.Path ∉ st.visited)
    (hr : (w.DoRequest (str "GET") (fp.URL.String ++ fp.Path) st.scanner.headers 5 true).2
      = false)
    (hs : Scan w.ext
        (activeWebInfo w fp
          (w.DoRequest (str "GET") (fp.URL.String ++ fp.Path) st.scanner.headers 5 true).1)
        fp.Fpe = some result) :
    (((result.length > 0 ∧
          (w.DoRequest (str "GET") (fp.URL.String ++ fp.Path) st.scanner.headers 5 true).1.StatusCode
            ≠ 404)
        ∨ str "ThinkPHP" ∈ result) →
      (activeWorker w st fp).scanner.basicURLWithFingerprint
        = mapStore st.scanner.basicURLWithFingerprint fp.URL.String
            ((mapLoad st.scanner.basicURLWithFingerprint fp.URL.String).getD [] ++ result) ∧
      ∃ fpe0, fp.Fpe.head? = some fpe0 ∧
        (activeWorker w st fp).emitted = st.emitted ++
          [activeEvent w fp
            (w.DoRequest (str "GET") (fp.URL.String ++ fp.Path) st.scanner.headers 5 true).1
            fpe0]) ∧
    (¬ ((result.length > 0 ∧
          (w.DoRequest (str "GET") (fp.URL.String ++ fp.Path) st.scanner.headers 5 true).1.StatusCode
            ≠ 404)
        ∨ str "ThinkPHP" ∈ result) →
      (activeWorker w st fp).scanner = st.scanner ∧
      (activeWorker w st fp).emitted = st.emitted) ∧
    ((activeWorker w st fp).emitted.length = st.emitted.length + 1 ↔
      ((result.length > 0 ∧
          (w.DoRequest (str "GET") (fp.URL.String ++ fp.Path) st.scanner.headers 5 true).1.StatusCode
            ≠ 404)
        ∨ str "ThinkPHP" ∈ result)) := by
  have hw := activeWorker_probe w st fp ht hv hr
  obtain ⟨hk1, hk2⟩ := activeMatch_keep w
    { st with visited := st.visited ++ [fp.URL.String ++ fp.Path], requests := st.requests ++ [(fp.URL.String, false)] }
    fp (w.DoRequest (str "GET") (fp.URL.String ++ fp.Path) st.scanner.headers 5 true).1 result hs
  have hcond : activeKeep result (activeWebInfo w fp
      (w.DoRequest (str "GET") (fp.URL.String ++ fp.Path) st.scanner.headers 5 true).1) = true
      ↔ ((result.length > 0 ∧
          (w.DoRequest (str "GET") (fp.URL.String ++ fp.Path) st.scanner.headers 5 true).1.StatusCode
            ≠ 404)
        ∨ str "ThinkPHP" ∈ result) := by
    simp [activeKeep, ArrayContains, activeWebInfo]
  have hyes : ((result.length > 0 ∧
          (w.DoRequest (str "GET") (fp.URL.String ++ fp.Path) st.scanner.headers 5 true).1.StatusCode
            ≠ 404)
        ∨ str "ThinkPHP" ∈ result) →
      (activeWorker w st fp).scanner.basicURLWithFingerprint
        = mapStore st.scanner.basicURLWithFingerprint fp.URL.String
            ((mapLoad st.scanner.basicURLWithFingerprint fp.URL.String).getD [] ++ result) ∧
      ∃ fpe0, fp.Fpe.head? = some fpe0 ∧
        (activeWorker w st fp).emitted = st.emitted ++
          [activeEvent w fp
            (w.DoRequest (str "GET") (fp.URL.String ++ fp.Path) st.scanner.headers 5 true).1
            fpe0] := by
    intro hc
    obtain ⟨fpe0, hhead, heq⟩ := hk1 (hcond.2 hc)
    rw [hw, heq]
    exact ⟨rfl, fpe0, hhead, rfl⟩
  have hno : ¬ ((result.length > 0 ∧
          (w.DoRequest (str "GET") (fp.URL.String ++ fp.Path) st.scanner.headers 5 true).1.StatusCode
            ≠ 404)
        ∨ str "ThinkPHP" ∈ result) →
      (activeWorker w st fp).scanner = st.scanner ∧
      (activeWorker w st fp).emitted = st.emitted := by
    intro hc
    have hf : activeKeep result (activeWebInfo w fp
        (w.DoRequest (str "GET") (fp.URL.String ++ fp.Path) st.scanner.headers 5 true).1)
        = false := by
      cases hb : activeKeep result (activeWebInfo w fp
        (w.DoRequest (str "GET") (fp.URL.String ++ fp.Path) st.scanner.headers 5 true).1) with
      | false => rfl
      | true => exact absurd (hcond.1 hb) hc
    rw [hw, hk2 hf]
    exact ⟨rfl, rfl⟩
  refine ⟨hyes, hno, ?_⟩
  constructor
  · intro hlen
    by_contra hc
    rw [(hno hc).2] at hlen
    omega
  · intro hc
    obtain ⟨_, fpe0, _, he⟩ := hyes hc
    rw [he]
    simp

/-- Witness of C15: a probe answered with status 404 whose body matches the
ThinkPHP signature; the result is kept. -/
theorem active_result_kept_iff_witness :
    timeoutReached (activeStart (aliveScanner false)) thinkphpTask.URL.String = false ∧
    Scan (sampleWorld notFoundNet []).ext
      (activeWebInfo (sampleWorld notFoundNet []) thinkphpTask notFoundResponse)
      thinkphpTask.Fpe = some [str "ThinkPHP"] ∧
    (activeWorker (sampleWorld notFoundNet []) (activeStart (aliveScanner false))
        thinkphpTask).emitted.length
      = (activeStart (aliveScanner false)).emitted.length + 1 :=
  ⟨by decide, by decide,
    ((active_result_kept_iff (sampleWorld notFoundNet []) (activeStart (aliveScanner false))
      thinkphpTask [str "ThinkPHP"] (by decide) (by decide) (by decide) (by decide)).2.2).2
      (Or.inr (by decide))⟩

/-- Sample runs of the active worker: a ThinkPHP match on a 404 page is kept and
emitted, another match on a 404 page is dropped. -/
theorem activeWorker_examples :
    (activeWorker (sampleWorld notFoundNet []) (activeStart (aliveScanner false))
        thinkphpTask).emitted.map (fun e => (e.URL, e.StatusCode, e.Fingerprints))
      = [(str "http://a.com/app/x", 404, [str "ThinkPHP"])] ∧
    (activeWorker (sampleWorld notFoundNet []) (activeStart (aliveScanner false))
        thinkphpTask).scanner.basicURLWithFingerprint
      = [(str "http://a.com/app", [str "ThinkPHP"])] ∧
    activeWorker (sampleWorld notFoundNet [])
        (activeStart (aliveScanner false))
        { URL := appURL, Path := str "/x",
          Fpe := [⟨str "Err", str "a", [⟨str "body", 0, str "error", 0, 1⟩]⟩] }
      = { activeStart (aliveScanner false) with visited := [str "http://a.com/app/x"], requests := [(str "http://a.com/app", false)] } := by
  decide

/-! ## Passive pass: the observation and the events of `fscan` -/

theorem fscan_blocked (w : ScanWorld) (s : FingerScanner) (u : URL)
    (h : (w.DoRequest (str "GET") u.String s.headers 10 false).1.StatusCode = 422) :
    fscan w s u = (s, [shortResult u 422]) := by
  unfold fscan
  simp only [h, if_true]

theorem fscan_failed (w : ScanWorld) (s : FingerScanner) (u : URL)
    (h1 : (w.DoRequest (str "GET") u.String s.headers 10 false).1.StatusCode ≠ 422)
    (h2 : (w.DoRequest (str "GET") u.String s.headers 10 true).2 = true
      ∧ (fscanPreHeaders w s u).length = 0) :
    fscan w s u = (s, [shortResult u 0]) := by
  unfold fscanPreHeaders at h2
  unfold fscan
  simp only [h1, if_false, h2, and_self, if_true]

theorem fscan_reaches_Scan (w : ScanWorld) (s : FingerScanner) (u : URL)
    (h1 : (w.DoRequest (str "GET") u.String s.headers 10 false).1.StatusCode ≠ 422)
    (h2 : ¬ ((w.DoRequest (str "GET") u.String s.headers 10 true).2 = true
      ∧ (fscanPreHeaders w s u).length = 0)) :
    fscan w s u = fscanAlive w s u (fscanWeb w s u)
      (w.GetTitle (passiveBody w u (w.DoRequest (str "GET") u.String s.headers 10 true).1)) := by
  unfold fscanPreHeaders at h2
  unfold fscan fscanWeb fscanPreHeaders
  simp only [h1, if_false, h2]

theorem LimitResponseBytes_eq_take (b : GoString) (max : Nat) :
    LimitResponseBytes b max = b.take max := by
  unfold LimitResponseBytes
  split
  · rfl
  · exact (List.take_of_length_le (by omega)).symm

theorem passiveBody_eq (w : ScanWorld) (u : URL) (resp : Response) :
    passiveBody w u resp
      = resp.Body.take maxInfoReponseSize
        ++ (w.GetJSRedirectResponse u (resp.Body.take maxInfoReponseSize)).getD [] := by
  unfold passiveBody
  simp only [LimitResponseBytes_eq_take]
  cases w.GetJSRedirectResponse u (resp.Body.take maxInfoReponseSize) <;> simp

theorem passiveFingerprints_eq (w : ScanWorld) (s : FingerScanner) (u : URL) (web : WebInfo)
    (fingerprints0 : List GoString) :
    passiveFingerprints w s u web fingerprints0
      = if w.checkHoneypotWithHeaders web.HeadeString = true
          ∨ w.checkHoneypotWithFingerprintLength (taggedFingerprints w s u fingerprints0).length
            = true
        then [str "疑似蜜罐"] else taggedFingerprints w s u fingerprints0 := by
  unfold passiveFingerprints taggedFingerprints
  simp only [Bool.or_eq_true]

theorem fscanAlive_events (w : ScanWorld) (s : FingerScanner) (u : URL) (web : WebInfo)
    (title : GoString) (fingerprints0 : List GoString)
    (hs : Scan w.ext web w.FingerprintDB = some fingerprints0) :
    ∃ e, (fscanAlive w s u web title).2 = [e] ∧
      e.TaskId = w.taskId ∧ e.URL = u.String ∧ e.Scheme = u.Scheme ∧ e.Host = u.Host ∧
      e.StatusCode = web.StatusCode ∧ e.Length = web.ContentLength ∧ e.Title = title ∧
      e.Detect = str "Default" ∧
      e.Fingerprints = passiveFingerprints w s u web fingerprints0 := by
  unfold fscanAlive
  simp only [hs]
  exact ⟨_, rfl, rfl, rfl, rfl, rfl, rfl, rfl, rfl, rfl, rfl⟩

theorem fscanWeb_body (w : ScanWorld) (s : FingerScanner) (u : URL) :
    (fscanWeb w s u).BodyString
      = w.ToLower
          ((w.DoRequest (str "GET") u.String s.headers 10 true).1.Body.take 102400
            ++ (w.GetJSRedirectResponse u
                ((w.DoRequest (str "GET") u.String s.headers 10 true).1.Body.take 102400)).getD []) := by
  have hmax : maxInfoReponseSize = 102400 := by decide
  show w.ToLower (passiveBody w u (w.DoRequest (str "GET") u.String s.headers 10 true).1) = _
  rw [passiveBody_eq, hmax]

/-- Claim C11, amended. The body text that `fscan` hands to the rule evaluator is
the lower-casing of the first 102400 bytes of the response body followed by the
whole body of a followed JS redirect; when no JS redirect is followed it is the
lower-casing of at most the first 102400 bytes of the response body. -/
theorem passive_body_limit (w : ScanWorld) (s : FingerScanner) (u : URL) :
    (fscanWeb w s u).BodyString
      = w.ToLower
          ((w.DoRequest (str "GET") u.String s.headers 10 true).1.Body.take 102400
            ++ (w.GetJSRedirectResponse u
                ((w.DoRequest (str "GET") u.String s.headers 10 true).1.Body.take 102400)).getD []) ∧
    ((w.DoRequest (str "GET") u.String s.headers 10 true).1.Body.take 102400).length ≤ 102400 ∧
    (w.GetJSRedirectResponse u
        ((w.DoRequest (str "GET") u.String s.headers 10 true).1.Body.take 102400) = none →
      (fscanWeb w s u).BodyString
        = w.ToLower ((w.DoRequest (str "GET") u.String s.headers 10 true).1.Body.take 102400)) := by
  refine ⟨fscanWeb_body w s u, List.length_take_le _ _, fun hn => ?_⟩
  rw [fscanWeb_body, hn]
  simp

/-- Counterexample to C11 as stated: the target answers with a body of 12 bytes
that redirects by JavaScript to a page of 102400 bytes; `fscan` reaches the rule
evaluator and the body text it hands over holds both bodies, 102412 bytes. -/
theorem passive_body_exceeds_limit_after_redirect :
    fscan redirectWorld freshScanner appURL
      = fscanAlive redirectWorld freshScanner appURL (fscanWeb redirectWorld freshScanner appURL)
          (redirectWorld.GetTitle (passiveBody redirectWorld appURL
            (redirectWorld.DoRequest (str "GET") appURL.String freshScanner.headers 10 true).1)) ∧
    (fscanWeb redirectWorld freshScanner appURL).BodyString
      = str "powered by x" ++ List.replicate 102400 97 ∧
    (fscanWeb redirectWorld freshScanner appURL).BodyString.length = 102412 ∧
    maxInfoReponseSize = 102400 := by
  have hweb : (fscanWeb redirectWorld freshScanner appURL).BodyString
      = str "powered by x" ++ List.replicate 102400 97 := by
    rw [fscanWeb_body redirectWorld freshScanner appURL]
    rfl
  refine ⟨fscan_reaches_Scan redirectWorld freshScanner appURL (by decide) (by decide),
    hweb, ?_, by decide⟩
  rw [hweb, List.length_append, List.length_replicate]
  decide

theorem Scan_isSome_of_rangesFit (ext : Externals) (web : WebInfo) (db : List FingerPEntity)
    (h : ∀ f ∈ db, rangesFit f.AllString.length f.Rule = true) :
    ∃ res, Scan ext web db = some res := by
  obtain ⟨res, hres, _⟩ := scanLoop_spec ext web db [] h
  exact ⟨RemoveDuplicates res, by simp [Scan, hres]⟩

/-- Claim C16, amended. With no cancellation and a fingerprint table on which
`Scan` does not panic (each rule's range fits the expression as it stands), the
passive worker `fscan` puts exactly one `InfoResult` on the result channel for
every target: the short one with status 422 when the unfollowed GET answers 422,
the short one with status 0 when the followed GET fails and no 302 headers were
captured, and a full result otherwise. -/
theorem fscan_emits_exactly_one (w : ScanWorld) (s : FingerScanner) (u : URL)
    (hfit : ∀ f ∈ w.FingerprintDB, rangesFit f.AllString.length f.Rule = true) :
    ∃ e, (fscan w s u).2 = [e] ∧
      ((w.DoRequest (str "GET") u.String s.headers 10 false).1.StatusCode = 422 →
        e = shortResult u 422) ∧
      ((w.DoRequest (str "GET") u.String s.headers 10 false).1.StatusCode ≠ 422 →
        ((w.DoRequest (str "GET") u.String s.headers 10 true).2 = true
          ∧ (fscanPreHeaders w s u).length = 0) →
        e = shortResult u 0) ∧
      ((w.DoRequest (str "GET") u.String s.headers 10 false).1.StatusCode ≠ 422 →
        ¬ ((w.DoRequest (str "GET") u.String s.headers 10 true).2 = true
          ∧ (fscanPreHeaders w s u).length = 0) →
        e.TaskId = w.taskId ∧ e.URL = u.String ∧ e.Detect = str "Default" ∧
        e.StatusCode = (w.DoRequest (str "GET") u.String s.headers 10 true).1.StatusCode ∧
        ∃ fingerprints0, Scan w.ext (fscanWeb w s u) w.FingerprintDB = some fingerprints0 ∧
          e.Fingerprints = passiveFingerprints w s u (fscanWeb w s u) fingerprints0) := by
  by_cases h1 : (w.DoRequest (str "GET") u.String s.headers 10 false).1.StatusCode = 422
  · refine ⟨shortResult u 422, by rw [fscan_blocked w s u h1], fun _ => rfl,
      fun hn => absurd h1 hn, fun hn => absurd h1 hn⟩
  · by_cases h2 : (w.DoRequest (str "GET") u.String s.headers 10 true).2 = true
        ∧ (fscanPreHeaders w s u).length = 0
    · refine ⟨shortResult u 0, by rw [fscan_failed w s u h1 h2], fun h => absurd h h1,
        fun _ _ => rfl, fun _ hn => absurd h2 hn⟩
    · obtain ⟨fps0, hs⟩ := Scan_isSome_of_rangesFit w.ext (fscanWeb w s u) w.FingerprintDB hfit
      obtain ⟨e, he, hid, hurl, _, _, hst, _, _, hdet, hfp⟩ :=
        fscanAlive_events w s u (fscanWeb w s u)
          (w.GetTitle (passiveBody w u (w.DoRequest (str "GET") u.String s.headers 10 true).1))
          fps0 hs
      refine ⟨e, by rw [fscan_reaches_Scan w s u h1 h2, he], fun h => absurd h h1,
        fun _ h => absurd h h2, fun _ _ => ⟨hid, hurl, hdet, hst, fps0, hs, hfp⟩⟩

/-- Witness of C16: the sample table has one rule of width one. -/
theorem fscan_emits_exactly_one_witness :
    (∀ f ∈ (sampleWorld liveNet []).FingerprintDB, rangesFit f.AllString.length f.Rule = true) ∧
    ∃ e, (fscan (sampleWorld liveNet []) freshScanner appURL).2 = [e] :=
  ⟨by decide,
    (fscan_emits_exactly_one (sampleWorld liveNet []) freshScanner appURL (by decide)).imp
      (fun _ h => h.1)⟩

/-- Counterexample to C16 as stated: the target answers both requests, but a rule
of the fingerprint table slices the shortened expression out of range; the task
ends there, the target is recorded as alive and no `InfoResult` is emitted. -/
theorem fscan_emits_nothing_when_Scan_panics :
    (panicWorld.DoRequest (str "GET") appURL.String freshScanner.headers 10 false).1.StatusCode
      ≠ 422 ∧
    (panicWorld.DoRequest (str "GET") appURL.String freshScanner.headers 10 true).2 = false ∧
    Scan panicWorld.ext (fscanWeb panicWorld freshScanner appURL) panicWorld.FingerprintDB = none ∧
    (fscan panicWorld freshScanner appURL).2 = [] ∧
    (fscan panicWorld freshScanner appURL).1.aliveURLs = [appURL] := by
  decide

/-- Claim C17. For every passive target that reaches the rule evaluator and for
which a honeypot check is true (the header check, or the count check on the
matched list with the optional tags appended), the `Fingerprints` list of the
one emitted passive result is exactly `["疑似蜜罐"]`, whatever `generate_log4j2`
and the Fastjson probe are. -/
theorem honeypot_overrides_fingerprints (w : ScanWorld) (s : FingerScanner) (u : URL)
    (fingerprints0 : List GoString)
    (h1 : (w.DoRequest (str "GET") u.String s.headers 10 false).1.StatusCode ≠ 422)
    (h2 : ¬ ((w.DoRequest (str "GET") u.String s.headers 10 true).2 = true
      ∧ (fscanPreHeaders w s u).length = 0))
    (hs : Scan w.ext (fscanWeb w s u) w.FingerprintDB = some fingerprints0)
    (hh : w.checkHoneypotWithHeaders (fscanWeb w s u).HeadeString = true
      ∨ w.checkHoneypotWithFingerprintLength (taggedFingerprints w s u fingerprints0).length
        = true) :
    ∃ e, (fscan w s u).2 = [e] ∧ e.Fingerprints = [str "疑似蜜罐"] := by
  obtain ⟨e, he, _, _, _, _, _, _, _, _, hfp⟩ :=
    fscanAlive_events w s u (fscanWeb w s u)
      (w.GetTitle (passiveBody w u (w.DoRequest (str "GET") u.String s.headers 10 true).1))
      fingerprints0 hs
  refine ⟨e, by rw [fscan_reaches_Scan w s u h1 h2, he], ?_⟩
  rw [hfp, passiveFingerprints_eq, if_pos hh]

/-- Witness of C17: the header check is true, `generate_log4j2` is set and the
Fastjson probe succeeds. -/
theorem honeypot_overrides_fingerprints_witness :
    freshScanner.generateLog4j2 = true ∧ FastjsonScan honeypotWorld appURL = true ∧
    taggedFingerprints honeypotWorld freshScanner appURL [str "nginx"]
      = [str "nginx", str "Generate-Log4j2", str "Fastjson"] ∧
    ∃ e, (fscan honeypotWorld freshScanner appURL).2 = [e] ∧
      e.Fingerprints = [str "疑似蜜罐"] :=
  ⟨by decide, by decide, by decide,
    honeypot_overrides_fingerprints honeypotWorld freshScanner appURL [str "nginx"]
      (by decide) (by decide) (by decide) (Or.inl (by decide))⟩

/-- Sample runs of the passive worker: a full result with the optional tags, the
honeypot verdict, and the two short results. -/
theorem fscan_examples :
    (fscan (sampleWorld liveNet []) freshScanner appURL).2.map
        (fun e => (e.StatusCode, e.Fingerprints))
      = [(200, [str "nginx", str "Generate-Log4j2"])] ∧
    (fscan honeypotWorld freshScanner appURL).2.map (fun e => (e.StatusCode, e.Fingerprints))
      = [(200, [str "疑似蜜罐"])] ∧
    (fscan (sampleWorld deadNet []) freshScanner appURL).2 = [shortResult appURL 0] ∧
    (fscan (sampleWorld (fun _ => (⟨422, [], [], [], [], []⟩, false)) []) freshScanner appURL).2
      = [shortResult appURL 422] := by
  decide



/-! ## Rule evaluator: the order of the rules -/

theorem substRules_cons_width_one (ext : Externals) (web : WebInfo) (expr : GoString)
    (r : RuleData) (rest : List RuleData)
    (h0 : 0 ≤ r.Start) (h1 : r.End = r.Start + 1) (h2 : r.End ≤ (expr.length : Int)) :
    ∃ c, substRules ext web expr (r :: rest)
      = substRules ext web (expr.set r.Start.toNat c) rest ∧
      truthChar (ruleResult ext web r) = [c] := by
  obtain ⟨c, hc⟩ := List.length_eq_one.1 (truthChar_length (ruleResult ext web r))
  refine ⟨c, ?_, hc⟩
  simp only [substRules, hc, replaceRange_width_one expr r c h0 h1 h2]

theorem substRules_perm (ext : Externals) (web : WebInfo) (l1 l2 : List RuleData)
    (hp : l1.Perm l2) :
    ∀ expr : GoString,
      (∀ r ∈ l1, 0 ≤ r.Start ∧ r.End = r.Start + 1 ∧ r.End ≤ (expr.length : Int)) →
      l1.Pairwise (fun a b => a.Start ≠ b.Start) →
      substRules ext web expr l1 = substRules ext web expr l2 := by
  induction hp with
  | nil => intro expr _ _; rfl
  | cons x hperm ih =>
    rename_i la lb
    intro expr hb hd
    obtain ⟨h0, h1, h2⟩ := hb x (List.mem_cons_self _ _)
    obtain ⟨c, hc1, _⟩ := substRules_cons_width_one ext web expr x la h0 h1 h2
    obtain ⟨c2, hc2, hcc2⟩ := substRules_cons_width_one ext web expr x lb h0 h1 h2
    have hcc : c2 = c := by
      rename_i hcc1
      rw [hcc1] at hcc2
      injection hcc2 with e _
      exact e.symm
    rw [hc1, hc2, hcc]
    apply ih
    · intro q hq
      obtain ⟨q0, q1, q2⟩ := hb q (List.mem_cons_of_mem _ hq)
      exact ⟨q0, q1, by simpa using q2⟩
    · exact (List.pairwise_cons.1 hd).2
  | swap x y l =>
    intro expr hb hd
    obtain ⟨y0, y1, y2⟩ := hb y (List.mem_cons_self _ _)
    obtain ⟨x0, x1, x2⟩ := hb x (List.mem_cons_of_mem _ (List.mem_cons_self _ _))
    have hne : y.Start ≠ x.Start :=
      (List.pairwise_cons.1 hd).1 x (List.mem_cons_self _ _)
    obtain ⟨cy, hy, hcy⟩ := substRules_cons_width_one ext web expr y (x :: l) y0 y1 y2
    obtain ⟨cx, hx, hcx⟩ := substRules_cons_width_one ext web (expr.set y.Start.toNat cy) x l
      x0 x1 (by simpa using x2)
    obtain ⟨cx2, hx2, hcx2⟩ := substRules_cons_width_one ext web expr x (y :: l) x0 x1 x2
    obtain ⟨cy2, hy2, hcy2⟩ := substRules_cons_width_one ext web (expr.set x.Start.toNat cx2) y l
      y0 y1 (by simpa using y2)
    have ex : cx2 = cx := by rw [hcx] at hcx2; injection hcx2 with e _; exact e.symm
    have ey : cy2 = cy := by rw [hcy] at hcy2; injection hcy2 with e _; exact e.symm
    rw [hy, hx, hx2, hy2, ex, ey]
    have hnat : y.Start.toNat ≠ x.Start.toNat := by omega
    rw [List.set_comm cy cx expr hnat]
  | trans hp1 hp2 ih1 ih2 =>
    rename_i la lb lc
    intro expr hb hd
    rw [ih1 expr hb hd]
    apply ih2 expr
    · intro q hq
      exact hb q (hp1.mem_iff.2 hq)
    · exact (hp1.pairwise_iff (fun {a b} (h : a.Start ≠ b.Start) => h.symm)).1 hd

theorem scanLoop_congr (ext : Externals) (web : WebInfo) (f g : FingerPEntity)
    (post : List FingerPEntity) (hn : g.ProductName = f.ProductName)
    (hs : substRules ext web g.AllString g.Rule = substRules ext web f.AllString f.Rule)
    (pre : List FingerPEntity) :
    ∀ acc : List GoString,
      scanLoop ext web (pre ++ g :: post) acc = scanLoop ext web (pre ++ f :: post) acc := by
  induction pre with
  | nil =>
    intro acc
    simp only [List.nil_append, scanLoop, hs, hn]
  | cons p rest ih =>
    intro acc
    simp only [List.cons_append, scanLoop]
    cases substRules ext web p.AllString p.Rule with
    | none => rfl
    | some e =>
      simp only []
      cases ext.boolEval e with
      | none => exact ih acc
      | some r => exact ih _

/-- Claim C21. For every signature whose rules all have `end = start + 1`, start
inside `all_string` and pairwise distinct starts, permuting the rules gives the
same substituted expression and, wherever the signature stands in a database,
the same result of `Scan`. -/
theorem Scan_rule_order_irrelevant (ext : Externals) (web : WebInfo)
    (pre post : List FingerPEntity) (finger : FingerPEntity) (rules2 : List RuleData)
    (hperm : finger.Rule.Perm rules2)
    (hb : ∀ r ∈ finger.Rule,
      0 ≤ r.Start ∧ r.End = r.Start + 1 ∧ r.End ≤ (finger.AllString.length : Int))
    (hd : finger.Rule.Pairwise (fun a b => a.Start ≠ b.Start)) :
    substRules ext web finger.AllString rules2
      = substRules ext web finger.AllString finger.Rule ∧
    Scan ext web (pre ++ { finger with Rule := rules2 } :: post)
      = Scan ext web (pre ++ finger :: post) := by
  have hs := (substRules_perm ext web finger.Rule rules2 hperm finger.AllString hb hd).symm
  refine ⟨hs, ?_⟩
  unfold Scan
  rw [scanLoop_congr ext web finger { finger with Rule := rules2 } post rfl hs pre []]

/-- Witness of C21: the two rules of the sample signature in either order. -/
theorem Scan_rule_order_irrelevant_witness :
    twoRuleFinger.Rule.Perm twoRuleFingerSwapped.Rule ∧
    (∀ r ∈ twoRuleFinger.Rule,
      0 ≤ r.Start ∧ r.End = r.Start + 1 ∧ r.End ≤ (twoRuleFinger.AllString.length : Int)) ∧
    substRules sampleExternals sampleWeb twoRuleFinger.AllString twoRuleFingerSwapped.Rule
      = substRules sampleExternals sampleWeb twoRuleFinger.AllString twoRuleFinger.Rule ∧
    Scan sampleExternals sampleWeb
        (nginxDB ++ { twoRuleFinger with Rule := twoRuleFingerSwapped.Rule } :: [])
      = Scan sampleExternals sampleWeb (nginxDB ++ twoRuleFinger :: []) :=
  ⟨List.Perm.swap _ _ _, by decide,
    Scan_rule_order_irrelevant sampleExternals sampleWeb nginxDB [] twoRuleFinger
      twoRuleFingerSwapped.Rule (List.Perm.swap _ _ _) (by decide) (by decide)⟩

/-- Sample runs: both orders of the two rules of width one give the expression
`T&&T`; two rules of width three do not commute, the earlier range first shifts
the later one out of the string. -/
theorem substRules_order_examples :
    substRules sampleExternals sampleWeb (str "a&&b") twoRuleFinger.Rule = some (str "T&&T") ∧
    substRules sampleExternals sampleWeb (str "a&&b") twoRuleFingerSwapped.Rule
      = some (str "T&&T") ∧
    substRules sampleExternals sampleWeb (str "abc&&def")
        [⟨str "server", 0, str "nginx", 0, 3⟩, ⟨str "port", 0, str "81", 5, 8⟩]
      = none ∧
    substRules sampleExternals sampleWeb (str "abc&&def")
        [⟨str "port", 0, str "81", 5, 8⟩, ⟨str "server", 0, str "nginx", 0, 3⟩]
      = some (str "T&&F") := by
  decide
/-! ## Thread-safe nuclei driver: the slots of the wait group -/

/-- Evaluation for C22. A skipped target takes a slot with `sg.Add()` and leaves
the loop turn without `sg.Done()`: after one skipped and one scanned target, one
slot is still held when the only worker has finished, so `sg.Wait()` does not
return; with six skipped targets the sixth `sg.Add()` waits for ever. -/
theorem threadSafe_skipped_target_keeps_slot :
    NewThreadSafeNucleiEngine slowWorkers [untaggedOption, taggedOption]
      = some ⟨2, 1, [taggedOption]⟩ ∧
    allWorkersFinished ⟨2, 1, [taggedOption]⟩ = ⟨1, 0, [taggedOption]⟩ ∧
    sgWaitReturns ⟨2, 1, [taggedOption]⟩ = false ∧
    NewThreadSafeNucleiEngine fastWorkers [untaggedOption, taggedOption]
      = some ⟨2, 1, [taggedOption]⟩ ∧
    NewThreadSafeNucleiEngine fastWorkers (List.replicate 6 untaggedOption) = none ∧
    NewThreadSafeNucleiEngine slowWorkers [taggedOption, taggedOption]
      = some ⟨2, 2, [taggedOption, taggedOption]⟩ ∧
    sgWaitReturns ⟨2, 2, [taggedOption, taggedOption]⟩ = true := by
  decide

theorem sgAdd_slots (st st1 : SyncState) (hle : st.running ≤ st.held)
    (h : sgAdd st = some st1) :
    st1.running ≤ st1.held ∧ st1.held - st1.running = (st.held - st.running) + 1 ∧
    st1.started = st.started := by
  unfold sgAdd at h
  split at h
  · injection h with h
    subst h
    refine ⟨?_, ?_, rfl⟩ <;> dsimp only <;> omega
  · split at h
    · rename_i hfull hrun
      injection h with h
      subst h
      refine ⟨?_, ?_, rfl⟩ <;> dsimp only <;> omega
    · cases h

theorem workersFinish_slots (n : Nat) (st : SyncState) (hle : st.running ≤ st.held) :
    (workersFinish n st).running ≤ (workersFinish n st).held ∧
    (workersFinish n st).held - (workersFinish n st).running = st.held - st.running := by
  unfold workersFinish
  dsimp only
  omega

theorem threadSafeLoop_slots (w : ThreadSafeWorld) (hc : ∀ i, w.cancelled i = false)
    (opts : List NucleiOption) :
    ∀ (i : Nat) (st st2 : SyncState), st.running ≤ st.held →
      threadSafeLoop w i opts st = some st2 →
      st2.running ≤ st2.held ∧
      st2.held - st2.running
        = (st.held - st.running) + (opts.filter threadSafeSkipped).length := by
  induction opts with
  | nil =>
    intro i st st2 hle h
    simp only [threadSafeLoop, Option.some.injEq] at h
    subst h
    simp [hle]
  | cons o rest ih =>
    intro i st st2 hle h
    unfold threadSafeLoop at h
    rw [hc i] at h
    simp only [Bool.false_eq_true, if_false] at h
    obtain ⟨hf1, hf2⟩ := workersFinish_slots (w.finished i) st hle
    cases ha : sgAdd (workersFinish (w.finished i) st) with
    | none => rw [ha] at h; cases h
    | some st1 =>
      rw [ha] at h
      simp only [] at h
      obtain ⟨ha1, ha2, _⟩ := sgAdd_slots _ st1 hf1 ha
      by_cases hs1 : (o.SkipNucleiWithoutTags && decide (o.Tags.length = 0)) = true
      · rw [if_pos hs1] at h
        obtain ⟨r1, r2⟩ := ih (i + 1) st1 st2 ha1 h
        have hsk : threadSafeSkipped o = true := by
          unfold threadSafeSkipped
          rw [hs1]
          rfl
        rw [List.filter_cons, if_pos hsk, List.length_cons]
        omega
      · rw [if_neg hs1] at h
        by_cases hs2 : (!HasPrefix o.URL (str "http") && decide (o.Tags.length = 0)) = true
        · rw [if_pos hs2] at h
          obtain ⟨r1, r2⟩ := ih (i + 1) st1 st2 ha1 h
          have hsk : threadSafeSkipped o = true := by
            unfold threadSafeSkipped
            rw [hs2]
            exact Bool.or_true _
          rw [List.filter_cons, if_pos hsk, List.length_cons]
          omega
        · rw [if_neg hs2] at h
          obtain ⟨r1, r2⟩ := ih (i + 1) _ st2 (by simp only []; omega) h
          have hsk : ¬ threadSafeSkipped o = true := by
            simp only [threadSafeSkipped, Bool.or_eq_true]
            rintro (h1 | h1)
            · exact hs1 h1
            · exact hs2 h1
          rw [List.filter_cons, if_neg hsk]
          simp only [] at r2
          omega

/-- What the code does where C22 speaks of the slots: with no cancellation, when
the submit loop ends, the slots held exceed the workers still running by the
number of skipped targets, so that many slots stay held once every started
worker has finished, and `sg.Wait()` returns only if no target was skipped. -/
theorem NewThreadSafeNucleiEngine_slots (w : ThreadSafeWorld) (allOptions : List NucleiOption)
    (st : SyncState) (he : w.engineErr = false) (hy : w.syncErr = false)
    (hc : ∀ i, w.cancelled i = false)
    (h : NewThreadSafeNucleiEngine w allOptions = some st) :
    st.held = st.running + (allOptions.filter threadSafeSkipped).length ∧
    (allWorkersFinished st).held = (allOptions.filter threadSafeSkipped).length ∧
    (sgWaitReturns st = true ↔ ∀ o ∈ allOptions, threadSafeSkipped o = false) := by
  unfold NewThreadSafeNucleiEngine at h
  simp only [he, hy, Bool.false_eq_true, if_false] at h
  obtain ⟨h1, h2⟩ := threadSafeLoop_slots w hc allOptions 0 ⟨0, 0, []⟩ st (le_refl _) h
  simp only [Nat.sub_self, Nat.zero_add] at h2
  have hfin : (allWorkersFinished st).held = (allOptions.filter threadSafeSkipped).length := by
    unfold allWorkersFinished workersFinish
    simp only [Nat.min_self]
    omega
  refine ⟨by omega, hfin, ?_⟩
  unfold sgWaitReturns
  rw [decide_eq_true_eq, hfin, List.length_eq_zero, List.filter_eq_nil_iff]
  constructor
  · intro hall o ho
    have := hall o ho
    simpa using this
  · intro hall o ho
    simp [hall o ho]

/-! ## Active pass: the product name of the emitted event -/

theorem activeKeep_iff (w : ScanWorld) (fp : ActiveFingerDetect) (resp : Response)
    (result : List GoString) :
    activeKeep result (activeWebInfo w fp resp) = true
      ↔ ((result.length > 0 ∧ resp.StatusCode ≠ 404) ∨ str "ThinkPHP" ∈ result) := by
  simp [activeKeep, ArrayContains, activeWebInfo]

/-- Claim C23, amended. Whenever an active probe result is kept, the signature
list of the entry is non-empty, so reading `Fpe[0]` does not fail, and the one
event emitted reports the single product name `Fpe[0].ProductName`; that name is
one of the names `Scan` matched when every signature of the entry carries the
same product name. -/
theorem active_kept_reports_first_signature (w : ScanWorld) (st : ActiveState)
    (fp : ActiveFingerDetect) (result : List GoString)
    (ht : timeoutReached st fp.URL.String = false)
    (hv : fp.URL.String ++ fp.Path ∉ st.visited)
    (hr : (w.DoRequest (str "GET") (fp.URL.String ++ fp.Path) st.scanner.headers 5 true).2
      = false)
    (hs : Scan w.ext
        (activeWebInfo w fp
          (w.DoRequest (str "GET") (fp.URL.String ++ fp.Path) st.scanner.headers 5 true).1)
        fp.Fpe = some result)
    (hk : (result.length > 0 ∧
          (w.DoRequest (str "GET") (fp.URL.String ++ fp.Path) st.scanner.headers 5 true).1.StatusCode
            ≠ 404)
        ∨ str "ThinkPHP" ∈ result) :
    ∃ fpe0 rest, fp.Fpe = fpe0 :: rest ∧
      (activeWorker w st fp).emitted = st.emitted ++
        [activeEvent w fp
          (w.DoRequest (str "GET") (fp.URL.String ++ fp.Path) st.scanner.headers 5 true).1
          fpe0] ∧
      (activeEvent w fp
          (w.DoRequest (str "GET") (fp.URL.String ++ fp.Path) st.scanner.headers 5 true).1
          fpe0).Fingerprints = [fpe0.ProductName] ∧
      ((∀ f ∈ fp.Fpe, f.ProductName = fpe0.ProductName) → fpe0.ProductName ∈ result) := by
  have hw := activeWorker_probe w st fp ht hv hr
  have hkeep := (activeKeep_iff w fp
    (w.DoRequest (str "GET") (fp.URL.String ++ fp.Path) st.scanner.headers 5 true).1 result).2 hk
  obtain ⟨fpe0, hhead, heq⟩ := (activeMatch_keep w
    { st with visited := st.visited ++ [fp.URL.String ++ fp.Path], requests := st.requests ++ [(fp.URL.String, false)] }
    fp (w.DoRequest (str "GET") (fp.URL.String ++ fp.Path) st.scanner.headers 5 true).1 result
    hs).1 hkeep
  cases hfpe : fp.Fpe with
  | nil => rw [hfpe] at hhead; simp at hhead
  | cons f0 rest =>
    rw [hfpe] at hhead
    simp only [List.head?_cons, Option.some.injEq] at hhead
    subst hhead
    refine ⟨f0, rest, rfl, ?_, rfl, ?_⟩
    · rw [hw, heq]
    · intro hall
      have hne := activeKeep_nonempty result _ hkeep
      cases hres : result with
      | nil => exact absurd hres hne
      | cons p ps =>
        have hp : p ∈ result := by rw [hres]; exact List.mem_cons_self _ _
        obtain ⟨f, hf, hfp⟩ := Scan_subset w.ext _ fp.Fpe result hs p hp
        rw [hfpe] at hf
        rw [← hres, ← hall f hf, hfp]
        exact hp

/-- Witness of C23: the ThinkPHP probe answered with status 404 is kept and its
event reports `ThinkPHP`, the name that `Scan` matched. -/
theorem active_kept_reports_first_signature_witness :
    Scan (sampleWorld notFoundNet []).ext
        (activeWebInfo (sampleWorld notFoundNet []) thinkphpTask notFoundResponse)
        thinkphpTask.Fpe = some [str "ThinkPHP"] ∧
    ∃ fpe0 rest, thinkphpTask.Fpe = fpe0 :: rest ∧
      (activeWorker (sampleWorld notFoundNet []) (activeStart (aliveScanner false))
          thinkphpTask).emitted
        = (activeStart (aliveScanner false)).emitted ++
          [activeEvent (sampleWorld notFoundNet []) thinkphpTask notFoundResponse fpe0] ∧
      (activeEvent (sampleWorld notFoundNet []) thinkphpTask notFoundResponse
          fpe0).Fingerprints = [fpe0.ProductName] ∧
      ((∀ f ∈ thinkphpTask.Fpe, f.ProductName = fpe0.ProductName) →
        fpe0.ProductName ∈ [str "ThinkPHP"]) :=
  ⟨by decide,
    active_kept_reports_first_signature (sampleWorld notFoundNet [])
      (activeStart (aliveScanner false)) thinkphpTask [str "ThinkPHP"]
      (by decide) (by decide) (by decide) (by decide) (Or.inr (by decide))⟩

/-- Counterexample to C23 as worded: on an entry with a `Tomcat` signature before
an `nginx` signature, `Scan` matches only `nginx`, the result is kept and merged
into the map, and the emitted event reports `Tomcat`, a name `Scan` did not
match. -/
theorem active_reported_name_not_matched :
    Scan (sampleWorld liveNet []).ext
        (activeWebInfo (sampleWorld liveNet []) mixedTask okResponse)
        mixedTask.Fpe = some [str "nginx"] ∧
    (activeWorker (sampleWorld liveNet []) (activeStart (aliveScanner false))
        mixedTask).emitted.map InfoResult.Fingerprints = [[str "Tomcat"]] ∧
    mapLoad (activeWorker (sampleWorld liveNet []) (activeStart (aliveScanner false))
        mixedTask).scanner.basicURLWithFingerprint appURL.String = some [str "nginx"] ∧
    str "Tomcat" ∉ [str "nginx"] := by
  decide

/-! ## Passive pass: the workers of the pool and the alive URLs -/

theorem mem_foundAlive (w : ScanWorld) (s : FingerScanner) (u : URL) :
    u ∈ foundAlive w s ↔ u ∈ s.urls ∧ fscanReaches w s u = true := by
  unfold foundAlive
  rw [List.mem_filter]

theorem mem_of_getElem?_eq_some {α : Type} (l : List α) (i : Nat) (a : α)
    (h : l[i]? = some a) : a ∈ l := by
  obtain ⟨hi, ha⟩ := List.getElem?_eq_some.1 h
  rw [← ha]
  exact List.getElem_mem hi

theorem passiveStep_inv (w : ScanWorld) (s : FingerScanner) (st : PassiveState) (i : Nat)
    (h : passiveInv w s st) : passiveInv w s (passiveStep w s st i) := by
  obtain ⟨hk, ha, hp, hsn⟩ := h
  unfold passiveStep
  cases hu : s.urls[i]? with
  | none => exact ⟨hk, ha, hp, hsn⟩
  | some u =>
    have humem : u ∈ s.urls := mem_of_getElem?_eq_some _ _ _ hu
    cases hph : st.phases i with
    | waiting =>
      simp only []
      split_ifs with hc hr
      · refine ⟨hk, ha, ?_, ?_⟩
        · intro j hj
          by_cases hji : j = i
          · subst hji; exact ⟨u, hu, hr⟩
          · simp only [hji, if_false] at hj; exact hp j hj
        · intro j snap hj
          by_cases hji : j = i
          · subst hji
            simp only [if_true, WorkerPhase.holding.injEq] at hj
            subst hj
            exact ha
          · simp only [hji, if_false] at hj; exact hsn j snap hj
      · refine ⟨hk, ha, ?_, ?_⟩
        · intro j hj
          by_cases hji : j = i
          · subst hji; simp at hj
          · simp only [hji, if_false] at hj; exact hp j hj
        · intro j snap hj
          by_cases hji : j = i
          · subst hji; simp at hj
          · simp only [hji, if_false] at hj; exact hsn j snap hj
      · exact ⟨hk, ha, hp, hsn⟩
    | holding snapshot =>
      simp only []
      obtain ⟨u2, hu2, hr⟩ := hp i (Or.inr ⟨snapshot, hph⟩)
      rw [hu] at hu2
      injection hu2 with hu2
      subst hu2
      refine ⟨hk, ?_, ?_, ?_⟩
      · intro x hx
        rcases List.mem_append.1 hx with h1 | h1
        · exact hsn i snapshot hph x h1
        · rw [List.mem_singleton] at h1
          subst h1
          exact Or.inr ((mem_foundAlive w s x).2 ⟨humem, hr⟩)
      · intro j hj
        by_cases hji : j = i
        · subst hji; exact ⟨u, hu, hr⟩
        · simp only [hji, if_false] at hj; exact hp j hj
      · intro j snap hj
        by_cases hji : j = i
        · subst hji; simp at hj
        · simp only [hji, if_false] at hj; exact hsn j snap hj
    | appended =>
      simp only []
      obtain ⟨u2, hu2, hr⟩ := hp i (Or.inl hph)
      rw [hu] at hu2
      injection hu2 with hu2
      subst hu2
      refine ⟨?_, ha, ?_, ?_⟩
      · intro k hkm
        rcases fscanAlive_scanner w { s with basicURLWithFingerprint := st.basicURLWithFingerprint }
          u (fscanWeb w s u)
          (w.GetTitle (passiveBody w u (w.DoRequest (str "GET") u.String s.headers 10 true).1))
          with h1 | ⟨v, h1⟩
        · rw [h1] at hkm
          exact hk k hkm
        · rw [h1] at hkm
          rcases (mem_mapKeys_mapStore _ _ _ k).1 hkm with h2 | h2
          · right
            rw [h2]
            exact List.mem_map_of_mem _ ((mem_foundAlive w s u).2 ⟨humem, hr⟩)
          · exact hk k h2
      · intro j hj
        by_cases hji : j = i
        · subst hji; simp at hj
        · simp only [hji, if_false] at hj; exact hp j hj
      · intro j snap hj
        by_cases hji : j = i
        · subst hji; simp at hj
        · simp only [hji, if_false] at hj; exact hsn j snap hj
    | done => exact ⟨hk, ha, hp, hsn⟩

theorem passiveSteps_inv (w : ScanWorld) (s : FingerScanner) (schedule : List Nat) :
    ∀ st, passiveInv w s st → passiveInv w s (schedule.foldl (passiveStep w s) st) := by
  induction schedule with
  | nil => intro st h; exact h
  | cons i rest ih => intro st h; exact ih _ (passiveStep_inv w s st i h)

theorem passiveDrain_inv (w : ScanWorld) (s : FingerScanner) (st : PassiveState)
    (h : passiveInv w s st) : passiveInv w s (passiveDrain w s st) := by
  unfold passiveDrain
  generalize List.range s.urls.length = l
  induction l generalizing st with
  | nil => exact h
  | cons i rest ih =>
    exact ih _ (passiveStep_inv w s _ i (passiveStep_inv w s _ i (passiveStep_inv w s st i h)))

theorem passiveStart_inv (w : ScanWorld) (s : FingerScanner) : passiveInv w s (passiveStart s) := by
  refine ⟨fun k hk => Or.inl hk, fun x hx => Or.inl hx, ?_, ?_⟩
  · intro i hi
    rcases hi with h1 | ⟨snap, h1⟩
    · simp [passiveStart] at h1
    · simp [passiveStart] at h1
  · intro i snap h1
    simp [passiveStart] at h1

theorem FingerScan_inv (w : ScanWorld) (s : FingerScanner) (schedule : List Nat) :
    (FingerScan w s schedule).1.rootPath = s.rootPath ∧
    (∀ k ∈ mapKeys (FingerScan w s schedule).1.basicURLWithFingerprint,
      k ∈ mapKeys s.basicURLWithFingerprint ∨ k ∈ (foundAlive w s).map URL.String) ∧
    (∀ x ∈ (FingerScan w s schedule).1.aliveURLs, x ∈ s.aliveURLs ∨ x ∈ foundAlive w s) := by
  have h := passiveDrain_inv w s _ (passiveSteps_inv w s schedule _ (passiveStart_inv w s))
  exact ⟨rfl, h.1, h.2.1⟩

theorem canStart_of_earlier_done (s : FingerScanner) (st : PassiveState) (j : Nat)
    (h : ∀ m, m < j → st.phases m = WorkerPhase.done) : canStart s st j = true := by
  have hnil : (List.range j).filter (fun m => decide (st.phases m ≠ WorkerPhase.done)) = [] := by
    rw [List.filter_eq_nil_iff]
    intro m hm
    rw [List.mem_range] at hm
    simp [h m hm]
  unfold canStart
  rw [hnil]
  simp only [List.length_nil, Nat.cast_zero, Bool.or_eq_true, decide_eq_true_eq]
  omega

theorem canStart_single (s : FingerScanner) (st : PassiveState) (j m : Nat)
    (hth : s.thread = 1) (hm : m < j) (hnd : st.phases m ≠ WorkerPhase.done) :
    canStart s st j = false := by
  have hmem : m ∈ (List.range j).filter (fun m => decide (st.phases m ≠ WorkerPhase.done)) := by
    rw [List.mem_filter, List.mem_range]
    exact ⟨hm, by simpa using hnd⟩
  have hpos : 0 < ((List.range j).filter
      (fun m => decide (st.phases m ≠ WorkerPhase.done))).length :=
    List.length_pos_of_mem hmem
  unfold canStart
  rw [hth]
  simp only [Bool.or_eq_false_iff, decide_eq_false_iff_not]
  omega

theorem passiveStep_of_done (w : ScanWorld) (s : FingerScanner) (st : PassiveState) (j : Nat)
    (h : st.phases j = WorkerPhase.done) : passiveStep w s st j = st := by
  unfold passiveStep
  cases s.urls[j]? with
  | none => rfl
  | some u => simp only [h]

theorem passiveStep_of_blocked (w : ScanWorld) (s : FingerScanner) (st : PassiveState) (j : Nat)
    (h : st.phases j = WorkerPhase.waiting) (hc : canStart s st j = false) :
    passiveStep w s st j = st := by
  unfold passiveStep
  cases s.urls[j]? with
  | none => rfl
  | some u => simp only [h, hc, Bool.false_eq_true, if_false]

theorem singleWorkerInv_next (w : ScanWorld) (s : FingerScanner) (st : PassiveState) (i : Nat)
    (h : singleWorkerInv w s st i) (hd : st.phases i = WorkerPhase.done) :
    singleWorkerInv w s st (i + 1) := by
  obtain ⟨h1, h2, h3, h4⟩ := h
  have hw : st.phases (i + 1) = WorkerPhase.waiting := h2 (i + 1) (by omega)
  refine ⟨?_, ?_, ?_, ?_⟩
  · intro j hj
    by_cases hji : j = i
    · rw [hji]; exact hd
    · exact h1 j (by omega)
  · intro j hj
    exact h2 j (by omega)
  · intro snap hs
    rw [hw] at hs
    cases hs
  · intro j u hj hu hr
    rcases hj with hj | ⟨_, hj⟩
    · by_cases hji : j = i
      · exact h4 j u (Or.inr ⟨hji, Or.inr hd⟩) hu hr
      · exact h4 j u (Or.inl (by omega)) hu hr
    · rw [hw] at hj
      rcases hj with hj | hj <;> cases hj

theorem singleWorkerInv_step_self (w : ScanWorld) (s : FingerScanner) (st : PassiveState)
    (i : Nat) (h : singleWorkerInv w s st i) :
    singleWorkerInv w s (passiveStep w s st i) i := by
  obtain ⟨h1, h2, h3, h4⟩ := h
  unfold passiveStep
  cases hu : s.urls[i]? with
  | none => exact ⟨h1, h2, h3, h4⟩
  | some u =>
    cases hph : st.phases i with
    | waiting =>
      simp only []
      split_ifs with hc hr
      · refine ⟨?_, ?_, ?_, ?_⟩
        · intro j hj
          have hji : j ≠ i := by omega
          simp only [hji, if_false]
          exact h1 j hj
        · intro j hj
          have hji : j ≠ i := by omega
          simp only [hji, if_false]
          exact h2 j hj
        · intro snap hs
          simp only [if_true, WorkerPhase.holding.injEq] at hs
          exact hs.symm
        · intro j u2 hj hu2 hr2
          rcases hj with hj | ⟨_, hj⟩
          · exact h4 j u2 (Or.inl hj) hu2 hr2
          · simp at hj
      · refine ⟨?_, ?_, ?_, ?_⟩
        · intro j hj
          have hji : j ≠ i := by omega
          simp only [hji, if_false]
          exact h1 j hj
        · intro j hj
          have hji : j ≠ i := by omega
          simp only [hji, if_false]
          exact h2 j hj
        · intro snap hs
          simp at hs
        · intro j u2 hj hu2 hr2
          rcases hj with hj | ⟨hj, _⟩
          · exact h4 j u2 (Or.inl hj) hu2 hr2
          · subst hj
            rw [hu] at hu2
            injection hu2 with hu2
            subst hu2
            exact absurd hr2 hr
      · exact ⟨h1, h2, h3, h4⟩
    | holding snapshot =>
      simp only []
      have hsnap := h3 snapshot hph
      refine ⟨?_, ?_, ?_, ?_⟩
      · intro j hj
        have hji : j ≠ i := by omega
        simp only [hji, if_false]
        exact h1 j hj
      · intro j hj
        have hji : j ≠ i := by omega
        simp only [hji, if_false]
        exact h2 j hj
      · intro snap hs
        simp at hs
      · intro j u2 hj hu2 hr2
        rcases hj with hj | ⟨hj, _⟩
        · exact List.mem_append_left _ (hsnap ▸ h4 j u2 (Or.inl hj) hu2 hr2)
        · subst hj
          rw [hu] at hu2
          injection hu2 with hu2
          subst hu2
          exact List.mem_append_right _ (List.mem_singleton_self _)
    | appended =>
      simp only []
      refine ⟨?_, ?_, ?_, ?_⟩
      · intro j hj
        have hji : j ≠ i := by omega
        simp only [hji, if_false]
        exact h1 j hj
      · intro j hj
        have hji : j ≠ i := by omega
        simp only [hji, if_false]
        exact h2 j hj
      · intro snap hs
        simp at hs
      · intro j u2 hj hu2 hr2
        rcases hj with hj | ⟨hj, _⟩
        · exact h4 j u2 (Or.inl hj) hu2 hr2
        · exact h4 j u2 (Or.inr ⟨hj, Or.inl hph⟩) hu2 hr2
    | done => exact ⟨h1, h2, h3, h4⟩

theorem singleWorkerInv_step (w : ScanWorld) (s : FingerScanner) (hth : s.thread = 1)
    (st : PassiveState) (j : Nat) (h : ∃ i, singleWorkerInv w s st i) :
    ∃ i, singleWorkerInv w s (passiveStep w s st j) i := by
  obtain ⟨i, hi⟩ := h
  rcases Nat.lt_trichotomy j i with hlt | heq | hgt
  · rw [passiveStep_of_done w s st j (hi.1 j hlt)]
    exact ⟨i, hi⟩
  · subst heq
    exact ⟨j, singleWorkerInv_step_self w s st j hi⟩
  · by_cases hd : st.phases i = WorkerPhase.done
    · have hn := singleWorkerInv_next w s st i hi hd
      by_cases hji : j = i + 1
      · subst hji
        exact ⟨i + 1, singleWorkerInv_step_self w s st (i + 1) hn⟩
      · have hw : st.phases (i + 1) = WorkerPhase.waiting := hi.2.1 (i + 1) (by omega)
        rw [passiveStep_of_blocked w s st j (hi.2.1 j hgt)
          (canStart_single s st j (i + 1) hth (by omega) (by rw [hw]; simp))]
        exact ⟨i, hi⟩
    · rw [passiveStep_of_blocked w s st j (hi.2.1 j hgt) (canStart_single s st j i hth hgt hd)]
      exact ⟨i, hi⟩

theorem singleWorkerInv_steps (w : ScanWorld) (s : FingerScanner) (hth : s.thread = 1)
    (schedule : List Nat) :
    ∀ st, (∃ i, singleWorkerInv w s st i) →
      ∃ i, singleWorkerInv w s (schedule.foldl (passiveStep w s) st) i := by
  induction schedule with
  | nil => intro st h; exact h
  | cons j rest ih => intro st h; exact ih _ (singleWorkerInv_step w s hth st j h)

theorem passiveStep_rank (w : ScanWorld) (s : FingerScanner) (st : PassiveState) (i : Nat)
    (u : URL) (hu : s.urls[i]? = some u)
    (hc : canStart s st i = true ∨ st.phases i ≠ WorkerPhase.waiting) :
    min (phaseRank (st.phases i) + 1) 3 ≤ phaseRank ((passiveStep w s st i).phases i) := by
  unfold passiveStep
  rw [hu]
  cases hph : st.phases i with
  | waiting =>
    have hc2 : canStart s st i = true := by
      rcases hc with hc | hc
      · exact hc
      · exact absurd hph hc
    simp only [hc2, if_true]
    split_ifs <;> simp [phaseRank]
  | holding snapshot => simp [phaseRank]
  | appended => simp [phaseRank]
  | done => simp [phaseRank, hph]

theorem phaseRank_eq_three (p : WorkerPhase) (h : 3 ≤ phaseRank p) : p = WorkerPhase.done := by
  cases p <;> simp [phaseRank] at h ⊢

theorem phaseRank_pos (p : WorkerPhase) (h : 1 ≤ phaseRank p) : p ≠ WorkerPhase.waiting := by
  cases p <;> simp [phaseRank] at h ⊢

theorem passiveStep_thrice_done (w : ScanWorld) (s : FingerScanner) (st : PassiveState) (i : Nat)
    (u : URL) (hu : s.urls[i]? = some u) (hc : canStart s st i = true) :
    (passiveStep w s (passiveStep w s (passiveStep w s st i) i) i).phases i
      = WorkerPhase.done := by
  have r1 := passiveStep_rank w s st i u hu (Or.inl hc)
  have n1 : (passiveStep w s st i).phases i ≠ WorkerPhase.waiting :=
    phaseRank_pos _ (by omega)
  have r2 := passiveStep_rank w s (passiveStep w s st i) i u hu (Or.inr n1)
  have n2 : (passiveStep w s (passiveStep w s st i) i).phases i ≠ WorkerPhase.waiting :=
    phaseRank_pos _ (by omega)
  have r3 := passiveStep_rank w s (passiveStep w s (passiveStep w s st i) i) i u hu (Or.inr n2)
  exact phaseRank_eq_three _ (by omega)

theorem singleWorkerInv_drain_aux (w : ScanWorld) (s : FingerScanner) (st : PassiveState)
    (h : ∃ i, singleWorkerInv w s st i) (m : Nat) (hm : m ≤ s.urls.length) :
    ∃ i, m ≤ i ∧ singleWorkerInv w s
      ((List.range m).foldl
        (fun st i => passiveStep w s (passiveStep w s (passiveStep w s st i) i) i) st) i := by
  induction m with
  | zero =>
    obtain ⟨i, hi⟩ := h
    exact ⟨i, Nat.zero_le _, hi⟩
  | succ m ih =>
    obtain ⟨i, hmi, hi⟩ := ih (by omega)
    rw [List.range_succ, List.foldl_append]
    simp only [List.foldl_cons, List.foldl_nil]
    generalize (List.range m).foldl
      (fun st i => passiveStep w s (passiveStep w s (passiveStep w s st i) i) i) st = st1 at hi ⊢
    by_cases hlt : m < i
    · have hd := hi.1 m hlt
      rw [passiveStep_of_done w s st1 m hd, passiveStep_of_done w s st1 m hd,
        passiveStep_of_done w s st1 m hd]
      exact ⟨i, hlt, hi⟩
    · have hmi2 : i = m := by omega
      subst hmi2
      have hlen : i < s.urls.length := by omega
      have hu : s.urls[i]? = some (s.urls[i]) := List.getElem?_eq_getElem hlen
      have hc := canStart_of_earlier_done s st1 i hi.1
      have hk3 := singleWorkerInv_step_self w s _ i
        (singleWorkerInv_step_self w s _ i (singleWorkerInv_step_self w s st1 i hi))
      exact ⟨i + 1, le_refl _, singleWorkerInv_next w s _ i hk3
        (passiveStep_thrice_done w s st1 i _ hu hc)⟩

theorem singleWorkerInv_start (w : ScanWorld) (s : FingerScanner) :
    singleWorkerInv w s (passiveStart s) 0 := by
  refine ⟨fun j hj => absurd hj (Nat.not_lt_zero j), fun j _ => rfl, ?_, ?_⟩
  · intro snap hs
    simp [passiveStart] at hs
  · intro j u hj
    rcases hj with hj | ⟨_, hj⟩
    · exact absurd hj (Nat.not_lt_zero j)
    · simp [passiveStart] at hj

theorem passiveDrain_keeps_appends (w : ScanWorld) (s : FingerScanner) (st : PassiveState)
    (h : ∃ i, singleWorkerInv w s st i) :
    ∀ u ∈ foundAlive w s, u ∈ (passiveDrain w s st).aliveURLs := by
  obtain ⟨i, hni, hi⟩ := singleWorkerInv_drain_aux w s st h s.urls.length (le_refl _)
  intro u hu
  obtain ⟨hmem, hr⟩ := (mem_foundAlive w s u).1 hu
  obtain ⟨j, hj, hju⟩ := List.getElem_of_mem hmem
  unfold passiveDrain
  exact hi.2.2.2 j u (Or.inl (by omega)) (by rw [List.getElem?_eq_getElem hj, hju]) hr

theorem FingerScan_single_worker (w : ScanWorld) (s : FingerScanner) (schedule : List Nat)
    (hth : s.thread = 1) :
    ∀ u ∈ foundAlive w s, u ∈ (FingerScan w s schedule).1.aliveURLs :=
  passiveDrain_keeps_appends w s _
    (singleWorkerInv_steps w s hth schedule _ ⟨0, singleWorkerInv_start w s⟩)

theorem FingerScan_in_order (w : ScanWorld) (s : FingerScanner) :
    ∀ u ∈ foundAlive w s, u ∈ (FingerScan w s []).1.aliveURLs :=
  passiveDrain_keeps_appends w s _ ⟨0, singleWorkerInv_start w s⟩

theorem fscan_of_not_reaches (w : ScanWorld) (s : FingerScanner) (a : List URL)
    (m : GoMap (List GoString)) (u : URL) (hr : fscanReaches w s u = false) :
    fscan w { s with aliveURLs := a, basicURLWithFingerprint := m } u
      = ({ s with aliveURLs := a, basicURLWithFingerprint := m }, (fscan w s u).2) := by
  by_cases h1 : (w.DoRequest (str "GET") u.String s.headers 10 false).1.StatusCode = 422
  · rw [fscan_blocked w s u h1]
    exact fscan_blocked w { s with aliveURLs := a, basicURLWithFingerprint := m } u h1
  · have h2 : (w.DoRequest (str "GET") u.String s.headers 10 true).2 = true
        ∧ (fscanPreHeaders w s u).length = 0 := by
      unfold fscanReaches at hr
      simpa [h1] using hr
    rw [fscan_failed w s u h1 h2]
    exact fscan_failed w { s with aliveURLs := a, basicURLWithFingerprint := m } u h1 h2

theorem fscanAlive_split (w : ScanWorld) (s : FingerScanner) (a : List URL)
    (m : GoMap (List GoString)) (u : URL) (web : WebInfo) (title : GoString) :
    fscanAlive w { s with aliveURLs := a, basicURLWithFingerprint := m } u web title
      = ({ s with aliveURLs := a ++ [u], basicURLWithFingerprint := (fscanAlive w { s with basicURLWithFingerprint := m } u web title).1.basicURLWithFingerprint },
          (fscanAlive w { s with basicURLWithFingerprint := m } u web title).2) := by
  unfold fscanAlive
  simp only []
  cases Scan w.ext web w.FingerprintDB with
  | none => rfl
  | some fps => rfl

theorem fscan_of_reaches (w : ScanWorld) (s : FingerScanner) (a : List URL)
    (m : GoMap (List GoString)) (u : URL) (hr : fscanReaches w s u = true) :
    fscan w { s with aliveURLs := a, basicURLWithFingerprint := m } u
      = ({ s with aliveURLs := a ++ [u], basicURLWithFingerprint := (fscanAlive w { s with basicURLWithFingerprint := m } u (fscanWeb w s u) (w.GetTitle (passiveBody w u (w.DoRequest (str "GET") u.String s.headers 10 true).1))).1.basicURLWithFingerprint },
          (fscanAlive w { s with basicURLWithFingerprint := m } u (fscanWeb w s u)
            (w.GetTitle (passiveBody w u
              (w.DoRequest (str "GET") u.String s.headers 10 true).1))).2) := by
  unfold fscanReaches at hr
  simp only [Bool.and_eq_true, decide_eq_true_eq, Bool.not_eq_true', decide_eq_false_iff_not]
    at hr
  rw [← fscanAlive_split]
  exact fscan_reaches_Scan w { s with aliveURLs := a, basicURLWithFingerprint := m } u hr.1 hr.2

theorem passiveStep_thrice_in_order (w : ScanWorld) (s : FingerScanner) (st : PassiveState)
    (i : Nat) (u : URL) (hu : s.urls[i]? = some u)
    (hd : ∀ j, j < i → st.phases j = WorkerPhase.done)
    (hw : ∀ j, i ≤ j → st.phases j = WorkerPhase.waiting) :
    (∀ j, j < i + 1 →
      (passiveStep w s (passiveStep w s (passiveStep w s st i) i) i).phases j
        = WorkerPhase.done) ∧
    (∀ j, i + 1 ≤ j →
      (passiveStep w s (passiveStep w s (passiveStep w s st i) i) i).phases j
        = WorkerPhase.waiting) ∧
    (({ s with aliveURLs := (passiveStep w s (passiveStep w s (passiveStep w s st i) i) i).aliveURLs, basicURLWithFingerprint := (passiveStep w s (passiveStep w s (passiveStep w s st i) i) i).basicURLWithFingerprint } : FingerScanner),
        (passiveStep w s (passiveStep w s (passiveStep w s st i) i) i).emitted)
      = ((fscan w { s with aliveURLs := st.aliveURLs, basicURLWithFingerprint := st.basicURLWithFingerprint } u).1,
          st.emitted ++ (fscan w { s with aliveURLs := st.aliveURLs, basicURLWithFingerprint := st.basicURLWithFingerprint } u).2) := by
  have hc := canStart_of_earlier_done s st i hd
  have hwi := hw i (le_refl _)
  cases hr : fscanReaches w s u with
  | false =>
    have e1 : passiveStep w s st i
        = { st with emitted := st.emitted ++ (fscan w s u).2, phases := fun j => if j = i then WorkerPhase.done else st.phases j } := by
      unfold passiveStep
      simp only [hu, hwi, hc, hr, if_true, Bool.false_eq_true, if_false]
    have e2 : (passiveStep w s st i).phases i = WorkerPhase.done := by rw [e1]; simp
    rw [passiveStep_of_done w s _ i (by rw [passiveStep_of_done w s _ i e2]; exact e2),
      passiveStep_of_done w s _ i e2, e1,
      fscan_of_not_reaches w s st.aliveURLs st.basicURLWithFingerprint u hr]
    refine ⟨?_, ?_, rfl⟩
    · intro j hj
      by_cases hji : j = i
      · simp [hji]
      · simp only [hji, if_false]
        exact hd j (by omega)
    · intro j hj
      have hji : j ≠ i := by omega
      simp only [hji, if_false]
      exact hw j (by omega)
  | true =>
    have e1 : passiveStep w s st i
        = { st with phases := fun j => if j = i then WorkerPhase.holding st.aliveURLs else st.phases j } := by
      unfold passiveStep
      simp only [hu, hwi, hc, hr, if_true]
    rw [e1, fscan_of_reaches w s st.aliveURLs st.basicURLWithFingerprint u hr]
    unfold passiveStep
    simp only [hu, if_true]
    refine ⟨?_, ?_, trivial⟩
    · intro j hj
      by_cases hji : j = i
      · simp [hji]
      · simp only [hji, if_false]
        exact hd j (by omega)
    · intro j hj
      have hji : j ≠ i := by omega
      simp only [hji, if_false]
      exact hw j (by omega)

theorem passiveDrain_in_order_aux (w : ScanWorld) (s : FingerScanner) (m : Nat)
    (hm : m ≤ s.urls.length) :
    (∀ j, j < m → ((List.range m).foldl
        (fun st i => passiveStep w s (passiveStep w s (passiveStep w s st i) i) i)
        (passiveStart s)).phases j = WorkerPhase.done) ∧
    (∀ j, m ≤ j → ((List.range m).foldl
        (fun st i => passiveStep w s (passiveStep w s (passiveStep w s st i) i) i)
        (passiveStart s)).phases j = WorkerPhase.waiting) ∧
    (({ s with aliveURLs := ((List.range m).foldl (fun st i => passiveStep w s (passiveStep w s (passiveStep w s st i) i) i) (passiveStart s)).aliveURLs, basicURLWithFingerprint := ((List.range m).foldl (fun st i => passiveStep w s (passiveStep w s (passiveStep w s st i) i) i) (passiveStart s)).basicURLWithFingerprint } : FingerScanner),
        ((List.range m).foldl
          (fun st i => passiveStep w s (passiveStep w s (passiveStep w s st i) i) i)
          (passiveStart s)).emitted)
      = (s.urls.take m).foldl (fun acc u => ((fscan w acc.1 u).1, acc.2 ++ (fscan w acc.1 u).2))
          (s, []) := by
  induction m with
  | zero =>
    refine ⟨fun j hj => absurd hj (Nat.not_lt_zero j), fun j _ => rfl, rfl⟩
  | succ m ih =>
    obtain ⟨h1, h2, h3⟩ := ih (by omega)
    have hlt : m < s.urls.length := by omega
    have hu : s.urls[m]? = some (s.urls[m]) := List.getElem?_eq_getElem hlt
    rw [List.range_succ, List.foldl_append, List.take_succ, List.foldl_append, hu]
    simp only [List.foldl_cons, List.foldl_nil, Option.toList_some]
    rw [← h3]
    generalize (List.range m).foldl
      (fun st i => passiveStep w s (passiveStep w s (passiveStep w s st i) i) i)
      (passiveStart s) = st1 at h1 h2 ⊢
    exact passiveStep_thrice_in_order w s st1 m _ hu h1 h2

/-- With the tasks run one after the other the pass is the closure `fscan` applied
to the targets in turn. -/
theorem FingerScan_in_order_eq (w : ScanWorld) (s : FingerScanner) :
    FingerScan w s [] = FingerScanInOrder w s := by
  have h := (passiveDrain_in_order_aux w s s.urls.length (le_refl _)).2.2
  rw [List.take_length] at h
  unfold FingerScan FingerScanInOrder passiveDrain
  simp only [List.foldl_nil]
  exact h

theorem passiveStep_phases_of_ne (w : ScanWorld) (s : FingerScanner) (st : PassiveState)
    (c j : Nat) (h : j ≠ c) : (passiveStep w s st c).phases j = st.phases j := by
  unfold passiveStep
  cases s.urls[c]? with
  | none => rfl
  | some u =>
    cases hph : st.phases c with
    | waiting =>
      simp only []
      split_ifs <;> simp [h]
    | holding snapshot => simp [h]
    | appended => simp [h]
    | done => rfl

theorem foldl_thrice_of_done (w : ScanWorld) (s : FingerScanner) (l : List Nat)
    (st : PassiveState) (h : ∀ j ∈ l, st.phases j = WorkerPhase.done) :
    l.foldl (fun st i => passiveStep w s (passiveStep w s (passiveStep w s st i) i) i) st
      = st := by
  induction l with
  | nil => rfl
  | cons j rest ih =>
    have hd := h j (List.mem_cons_self _ _)
    simp only [List.foldl_cons]
    rw [passiveStep_of_done w s st j hd, passiveStep_of_done w s st j hd,
      passiveStep_of_done w s st j hd]
    exact ih (fun q hq => h q (List.mem_cons_of_mem _ hq))

theorem passiveDrain_absorbs (w : ScanWorld) (s : FingerScanner) (st : PassiveState) (c : Nat)
    (hd : ∀ j, j < c → st.phases j = WorkerPhase.done) :
    passiveDrain w s (passiveStep w s st c) = passiveDrain w s st := by
  by_cases hc : c < s.urls.length
  · have hu : s.urls[c]? = some (s.urls[c]) := List.getElem?_eq_getElem hc
    have hsplit : List.range s.urls.length
        = List.range c ++ c :: (List.range (s.urls.length - (c + 1))).map (fun x => c + 1 + x) := by
      have h1 : s.urls.length = c + (s.urls.length - (c + 1) + 1) := by omega
      conv_lhs => rw [h1, List.range_add, List.range_succ_eq_map]
      simp only [List.map_cons, List.map_map, Nat.add_zero, List.cons.injEq, true_and,
        List.append_cancel_left_eq]
      apply List.map_congr_left
      intro x _
      simp only [Function.comp_apply]
      omega
    have hd2 : ∀ j, j < c → (passiveStep w s st c).phases j = WorkerPhase.done := by
      intro j hj
      rw [passiveStep_phases_of_ne w s st c j (by omega)]
      exact hd j hj
    have h4 : passiveStep w s (passiveStep w s (passiveStep w s (passiveStep w s st c) c) c) c
        = passiveStep w s (passiveStep w s (passiveStep w s st c) c) c :=
      passiveStep_of_done w s _ c
        (passiveStep_thrice_done w s st c _ hu (canStart_of_earlier_done s st c hd))
    unfold passiveDrain
    rw [hsplit, List.foldl_append, List.foldl_append,
      foldl_thrice_of_done w s (List.range c) st (fun j hj => hd j (List.mem_range.1 hj)),
      foldl_thrice_of_done w s (List.range c) _ (fun j hj => hd2 j (List.mem_range.1 hj))]
    simp only [List.foldl_cons]
    rw [h4]
  · have hu : s.urls[c]? = none := List.getElem?_eq_none (by omega)
    have : passiveStep w s st c = st := by
      unfold passiveStep
      rw [hu]
    rw [this]

theorem singleWorker_drain_step (w : ScanWorld) (s : FingerScanner) (hth : s.thread = 1)
    (st : PassiveState) (j : Nat) (h : ∃ i, singleWorkerInv w s st i) :
    passiveDrain w s (passiveStep w s st j) = passiveDrain w s st := by
  obtain ⟨i, hi⟩ := h
  rcases Nat.lt_trichotomy j i with hlt | heq | hgt
  · rw [passiveStep_of_done w s st j (hi.1 j hlt)]
  · subst heq
    exact passiveDrain_absorbs w s st j hi.1
  · by_cases hd : st.phases i = WorkerPhase.done
    · have hn := singleWorkerInv_next w s st i hi hd
      by_cases hji : j = i + 1
      · subst hji
        exact passiveDrain_absorbs w s st (i + 1) hn.1
      · have hw : st.phases (i + 1) = WorkerPhase.waiting := hi.2.1 (i + 1) (by omega)
        rw [passiveStep_of_blocked w s st j (hi.2.1 j hgt)
          (canStart_single s st j (i + 1) hth (by omega) (by rw [hw]; simp))]
    · rw [passiveStep_of_blocked w s st j (hi.2.1 j hgt) (canStart_single s st j i hth hgt hd)]

theorem singleWorker_drain_steps (w : ScanWorld) (s : FingerScanner) (hth : s.thread = 1)
    (schedule : List Nat) :
    ∀ st, (∃ i, singleWorkerInv w s st i) →
      passiveDrain w s (schedule.foldl (passiveStep w s) st) = passiveDrain w s st := by
  induction schedule with
  | nil => intro st _; rfl
  | cons j rest ih =>
    intro st h
    simp only [List.foldl_cons]
    rw [ih _ (singleWorkerInv_step w s hth st j h)]
    exact singleWorker_drain_step w s hth st j h

/-- With a pool of one worker every schedule gives the result of `fscan` applied to
the targets in turn. -/
theorem FingerScan_single_worker_eq (w : ScanWorld) (s : FingerScanner) (schedule : List Nat)
    (hth : s.thread = 1) : FingerScan w s schedule = FingerScanInOrder w s := by
  rw [← FingerScan_in_order_eq]
  unfold FingerScan
  simp only [List.foldl_nil]
  rw [singleWorker_drain_steps w s hth schedule _ ⟨0, singleWorkerInv_start w s⟩]

/-- Claim C9, amended. After a passive pass, its workers interleaved in any way,
followed by an active pass: when no append to `alive_urls` was lost, that is every
target the passive pass found alive is in `alive_urls`, every key of the
URL-to-fingerprints map is the string of an alive URL or a key of the pre-seeded
`tcp_target` map or, when `root_path` is set, the string of the basic URL that
`GetBasicURL` derives from an alive URL; and no append is lost when the pool has
one worker. -/
theorem url_fingerprint_keys_origin (w : ScanWorld) (options : WebscanOptions)
    (s : FingerScanner) (schedule : List Nat) (hs : NewWebscanEngine w options = some s) :
    ((∀ u ∈ foundAlive w s, u ∈ (FingerScan w s schedule).1.aliveURLs) →
      ∀ k ∈ mapKeys (URLWithFingerprintMap
          (ActiveFingerScan w (FingerScan w s schedule).1).scanner),
        k ∈ (FingerScan w s schedule).1.aliveURLs.map URL.String ∨
        k ∈ options.TcpTarget.map Prod.fst ∨
        (options.RootPath = true ∧
          ∃ u ∈ (FingerScan w s schedule).1.aliveURLs,
            ∃ n : Nat, k = (w.GetBasicURL^[n + 1] u).String)) ∧
    (s.thread = 1 → ∀ u ∈ foundAlive w s, u ∈ (FingerScan w s schedule).1.aliveURLs) := by
  refine ⟨?_, FingerScan_single_worker w s schedule⟩
  intro hl
  unfold NewWebscanEngine at hs
  simp only [] at hs
  split at hs
  · cases hs
  · injection hs with hs
    have hmap : s.basicURLWithFingerprint = seedTcpTarget options.TcpTarget := by rw [← hs]
    have hrp : s.rootPath = options.RootPath := by rw [← hs]
    obtain ⟨hr1, hk0, _⟩ := FingerScan_inv w s schedule
    have hk1 : ∀ k ∈ mapKeys (FingerScan w s schedule).1.basicURLWithFingerprint,
        k ∈ (FingerScan w s schedule).1.aliveURLs.map URL.String
          ∨ k ∈ options.TcpTarget.map Prod.fst := by
      intro k hk
      rcases hk0 k hk with h1 | h1
      · rw [hmap] at h1
        exact Or.inr (mapKeys_seedTcpTarget _ k h1)
      · obtain ⟨u, hu, huk⟩ := List.mem_map.1 h1
        exact Or.inl (List.mem_map.2 ⟨u, hl u hu, huk⟩)
    intro k hk
    have := ActiveFingerScan_keys w (options.TcpTarget.map Prod.fst)
      (FingerScan w s schedule).1 hk1 k hk
    rw [hr1, hrp] at this
    exact this

/-- Witness of C9: a session without `root_path` and with one worker. -/
theorem url_fingerprint_keys_origin_witness :
    NewWebscanEngine (sampleWorld liveNet probeDB) (appOptions false)
      = some (engineScanner false) ∧
    ∀ k ∈ mapKeys (URLWithFingerprintMap (ActiveFingerScan (sampleWorld liveNet probeDB)
        (FingerScan (sampleWorld liveNet probeDB) (engineScanner false) [0, 0, 0]).1).scanner),
      k ∈ (FingerScan (sampleWorld liveNet probeDB) (engineScanner false)
          [0, 0, 0]).1.aliveURLs.map URL.String ∨
      k ∈ (appOptions false).TcpTarget.map Prod.fst ∨
      ((appOptions false).RootPath = true ∧
        ∃ u ∈ (FingerScan (sampleWorld liveNet probeDB) (engineScanner false)
            [0, 0, 0]).1.aliveURLs,
          ∃ n : Nat, k = ((sampleWorld liveNet probeDB).GetBasicURL^[n + 1] u).String) :=
  ⟨by decide,
    (url_fingerprint_keys_origin (sampleWorld liveNet probeDB) (appOptions false)
      (engineScanner false) [0, 0, 0] (by decide)).1
      ((url_fingerprint_keys_origin (sampleWorld liveNet probeDB) (appOptions false)
        (engineScanner false) [0, 0, 0] (by decide)).2 rfl)⟩

/-- Counterexample to C9 as stated: with `root_path` set, the active pass stores the
match under `http://a.com`, which is neither the string of the alive URL
`http://a.com/app` nor a key of `tcp_target`. The pool has one worker. -/
theorem root_path_key_is_not_an_alive_url :
    NewWebscanEngine (sampleWorld liveNet probeDB) (appOptions true)
      = some (engineScanner true) ∧
    (engineScanner true).thread = 1 ∧
    (FingerScan (sampleWorld liveNet probeDB) (engineScanner true) []).1.aliveURLs = [appURL] ∧
    mapKeys (URLWithFingerprintMap (ActiveFingerScan (sampleWorld liveNet probeDB)
        (FingerScan (sampleWorld liveNet probeDB) (engineScanner true) []).1).scanner)
      = [str "mysql://a.com:3306", str "http://a.com/app", str "http://a.com"] ∧
    str "http://a.com" ∉
      (FingerScan (sampleWorld liveNet probeDB) (engineScanner true) []).1.aliveURLs.map
        URL.String ∧
    str "http://a.com" ∉ (appOptions true).TcpTarget.map Prod.fst := by
  decide

/-- Sample runs of the passive pass on two targets that both answer. With two
workers that both read `s.aliveURLs` before either writes it, the append of the
first is lost: its key is stored and it is not an alive URL. With the tasks run
one after the other, and with one worker under the same schedule, both targets
are alive URLs. -/
theorem passive_append_lost_with_two_workers :
    (FingerScan (sampleWorld liveNet []) twoWorkerScanner [0, 1, 0, 1]).1.aliveURLs
      = [siteURL] ∧
    mapKeys (FingerScan (sampleWorld liveNet []) twoWorkerScanner
        [0, 1, 0, 1]).1.basicURLWithFingerprint
      = [str "http://a.com/app", str "http://b.com"] ∧
    str "http://a.com/app" ∉
      (FingerScan (sampleWorld liveNet []) twoWorkerScanner [0, 1, 0, 1]).1.aliveURLs.map
        URL.String ∧
    (FingerScan (sampleWorld liveNet []) twoWorkerScanner []).1.aliveURLs
      = [appURL, siteURL] ∧
    (FingerScan (sampleWorld liveNet []) { twoWorkerScanner with thread := 1 }
        [0, 1, 0, 1]).1.aliveURLs = [appURL, siteURL] ∧
    FingerScan (sampleWorld liveNet []) twoWorkerScanner []
      = FingerScanInOrder (sampleWorld liveNet []) twoWorkerScanner := by
  decide

end Slack
